import Mathlib

/-!
# dorado: CudaModelRunner and SampleSheet

A shallow embedding of `dorado/basecall/CudaModelRunner.cpp` and of the query side of
`dorado/utils/SampleSheet.cpp`, followed by the properties proved about them.

Conventions of the embedding

* A C++ method that mutates its object and may throw is a function returning the
  outcome (`Except`) together with the state the object is left in.
* The `CudaCaller` shared by several runners is state passed next to the runner's own
  members; `CallerOps` is the interface `CudaModelRunner.cpp` uses of it, and `Caller` is
  the Caller as the specification describes it.
* An unchecked `std::vector::operator[]` is a read returning `Option`; `none` stands for
  the out-of-range read.
-/

namespace Dorado

/-! ## Tensors (the part of `at::Tensor` used by the runner) -/

/-- Element of a tensor. Elements are only copied by the runner, never computed with, so
they are kept as an uninterpreted carrier (one element type for buffer and chunk). -/
abbrev Sample := Int

/-- Contiguous tensor: its sizes and its elements in row-major order. -/
structure Tensor where
  sizes : List Nat
  data : List Sample
  deriving DecidableEq, Repr

/-- Number of elements of a tensor of the given sizes. -/
def numel : List Nat → Nat
  | [] => 1
  | n :: rest => n * numel rest

/-- Storage of the tensor holds exactly one element per index. -/
def Tensor.wf (t : Tensor) : Prop := t.data.length = numel t.sizes

instance (t : Tensor) : Decidable t.wf := by unfold Tensor.wf; infer_instance

/-- Value of `t.size(d)`; `none` when `d` is not a dimension of `t` (torch throws). -/
def Tensor.size (t : Tensor) (d : Nat) : Option Nat := t.sizes[d]?

/-- Elements of `t[i, ...]`, the `i`-th slice along the first dimension. -/
def Tensor.slot (t : Tensor) (i : Nat) : List Sample :=
  (t.data.drop (i * numel t.sizes.tail)).take (numel t.sizes.tail)

/-- Errors raised by the tensor library inside `index_put_`. -/
inductive TorchError
  /-- Thrown as `c10::IndexError`: the integer index is out of bounds for dimension 0. -/
  | IndexError
  /-- Thrown as `c10::Error`: the value cannot be expanded to the shape of the slice. -/
  | ShapeError
  deriving DecidableEq, Repr

/-- The `slicePrefix1sSize` helper of the setitem path: drop every leading size 1. -/
def slicePrefix1sSize : List Nat → List Nat
  | 1 :: rest => slicePrefix1sSize rest
  | sizes => sizes

/-- Sizes `src` can be expanded to sizes `dst`: `src` has no more dimensions than `dst`
and, aligned at the last dimension, every size of `src` equals the size of `dst` or is 1. -/
def expandable (src dst : List Nat) : Bool :=
  decide (src.length ≤ dst.length) &&
    (List.zipWith (fun s d => decide (s = d ∨ s = 1)) src.reverse dst.reverse).all id

/-- Elements of the expansion of a tensor with sizes `src` to sizes `dst` of the same
number of dimensions: a dimension of equal size is walked, a dimension of size 1 is
repeated (stride 0). -/
def expandSame : List Nat → List Nat → List Sample → List Sample
  | s :: src, d :: dst, x =>
    if s = d then
      (List.range s).flatMap fun i =>
        expandSame src dst ((x.drop (i * numel src)).take (numel src))
    else
      (List.replicate d (expandSame src dst x)).flatten
  | _, _, x => x

/-- Elements of `value` expanded to sizes `dst`, or `none` when `expand` throws. Missing
leading dimensions of the value are dimensions of size 1. -/
def expand (sizes : List Nat) (x : List Sample) (dst : List Nat) : Option (List Sample) :=
  if expandable sizes dst then
    some (expandSame (List.replicate (dst.length - sizes.length) 1 ++ sizes) dst x)
  else none

/-- The `copy_to(dst, src)` helper of the setitem path, on the elements written to a
slice of sizes `dst`: equal sizes are copied as they are, anything else is viewed without
its leading 1s and expanded (a 0-dim value fills the slice, which is the same expansion). -/
def copy_to (dst : List Nat) (src : Tensor) : Option (List Sample) :=
  if dst = src.sizes then some src.data
  else expand (slicePrefix1sSize src.sizes) src.data dst

/-- The call `self.index_put_({index, Ellipsis}, value)`: select slice `index` of the first
dimension (a negative index counts from the end, an index outside `[-size, size)` throws)
and copy `value` into it. Nothing is written when it throws. -/
def index_put_ (self : Tensor) (index : Int) (value : Tensor) : Except TorchError Tensor :=
  match self.sizes with
  | [] => .error .IndexError
  | size :: rest =>
    if (size : Int) > -1 - index ∧ (size : Int) > index then
      let i := (if index < 0 then index + size else index).toNat
      match copy_to rest value with
      | some v =>
        .ok { self with
              data := self.data.take (i * numel rest) ++ v ++ self.data.drop ((i + 1) * numel rest) }
      | none => .error .ShapeError
    else .error .IndexError

/-! ## Values of type `double` and `std::atomic<int64_t>` -/

/-- Value of a `double`: a finite value (kept exactly), an infinity or a NaN. -/
inductive Double
  | finite (v : ℚ)
  | inf (negative : Bool)
  | nan
  deriving DecidableEq

/-- Two's-complement wrap-around of a 64-bit signed integer (atomic arithmetic wraps). -/
def wrap_int64 (x : Int) : Int := (x + 2 ^ 63) % 2 ^ 64 - 2 ^ 63

/-- Spacing of the doubles around a magnitude `a ≤ 2^63`: the least power of two `q`,
starting from `q`, with `a < 2^53 * q`. -/
def ulpFrom : Nat → Nat → Nat → Nat
  | 0, _, q => q
  | fuel + 1, a, q => if a < 2 ^ 53 * q then q else ulpFrom fuel a (2 * q)

/-- Magnitude of the double nearest to the natural number `a ≤ 2^63`, ties to even. -/
def roundNat (a : Nat) : Nat :=
  let q := ulpFrom 11 a 1
  let m := a / q
  let r := a % q
  if 2 * r < q then m * q
  else if q < 2 * r then (m + 1) * q
  else if m % 2 = 0 then m * q
  else (m + 1) * q

/-- The conversion `double(n)` of a 64-bit signed integer: round to nearest, ties to even. -/
def int64_to_double (n : Int) : Double :=
  if n < 0 then .finite (-(roundNat n.natAbs : ℚ)) else .finite (roundNat n.natAbs : ℚ)

/-- The `stats::NamedStats` map from counter name to `double`. -/
abbrev NamedStats := String → Option Double

/-- The assignment `stats[key] = value`. -/
def NamedStats.assign (stats : NamedStats) (key : String) (value : Double) : NamedStats :=
  fun k => if k = key then some value else stats k

/-! ## The caller as seen from the runner -/

/-- Modelled from the spec: the decoded result for one chunk (`decode::DecodedChunk`, declared
in `decode/Decoder.h` outside the sources at hand): sequence, quality string and move
table. The runner only passes these values on. -/
structure DecodedChunk where
  sequence : String
  qstring : String
  moves : List Nat
  deriving DecidableEq, Repr

/-- Modelled from the spec: the failures of a Caller (`CudaCaller.cpp` is outside the
sources at hand), after the error taxonomy of the specification. -/
inductive CallerError
  | ConfigError
  | ResourceExhausted
  | Terminated
  | InvalidInput
  deriving DecidableEq, Repr

deriving instance DecidableEq for Except

/-- Exceptions leaving a runner method. -/
inductive Error
  /-- Thrown by the tensor library in `accept_chunk`. -/
  | torch (e : TorchError)
  /-- Thrown by the caller and not caught by the runner. -/
  | caller (e : CallerError)
  deriving DecidableEq, Repr

/-- Shape and index errors of `accept_chunk` are what the specification calls
`InvalidInput`, next to the Caller's own `InvalidInput`. -/
def Error.isInvalidInput : Error → Bool
  | .torch _ => true
  | .caller .InvalidInput => true
  | .caller _ => false

/-- Outcome of `CudaCaller::call_chunks`: what it returns or throws, the state it leaves the
caller in, and the contents it leaves in the output tensor it was handed. The input tensor
is only read (the input batch is owned by its runner alone). -/
structure CallResult (σ : Type) where
  result : Except CallerError (List DecodedChunk)
  caller : σ
  output : Tensor

/-- The members of `CudaCaller` that `CudaModelRunner.cpp` uses, over a caller state `σ`.
`CudaCaller` is not part of the sources at hand, so the runner is embedded over any
implementation of this interface. -/
structure CallerOps (σ : Type) where
  create_input_tensor : σ → Tensor
  create_output_tensor : σ → Tensor
  call_chunks : σ → Tensor → Tensor → Int → Nat → CallResult σ
  terminate : σ → σ
  restart : σ → σ
  /-- Value of `config().stride`. -/
  config_stride : σ → Nat
  /-- Value of `stats::from_obj(caller)`. -/
  from_obj : σ → NamedStats

/-! ## `CudaModelRunner` -/

/-- Members of a `CudaModelRunner`; `m_caller` points to caller state that is shared and
therefore passed separately. `this` is the address of the object. -/
structure CudaModelRunner where
  this : Nat
  m_input : Tensor
  m_output : Tensor
  m_stream : Nat
  m_num_batches_called : Int
  deriving DecidableEq

namespace CudaModelRunner

variable {σ : Type}

/-- The constructor: buffers from the caller, a stream from the pool, counter at 0. -/
def construct (ops : CallerOps σ) (caller : σ) (this stream : Nat) : CudaModelRunner :=
  { this := this
    m_input := ops.create_input_tensor caller
    m_output := ops.create_output_tensor caller
    m_stream := stream
    m_num_batches_called := 0 }

/-- Method `accept_chunk`: one `index_put_` on the input buffer; what it throws is what
`index_put_` throws. -/
def accept_chunk (r : CudaModelRunner) (chunk_idx : Int) (chunk : Tensor) :
    Except Error Unit × CudaModelRunner :=
  match index_put_ r.m_input chunk_idx chunk with
  | .ok t => (.ok (), { r with m_input := t })
  | .error e => (.error (.torch e), r)

/-- Method `call_chunks`: count the batch, then hand the buffers to the caller; the
counter is incremented before the call, so also when the caller throws. -/
def call_chunks (ops : CallerOps σ) (caller : σ) (r : CudaModelRunner) (num_chunks : Int) :
    Except Error (List DecodedChunk) × σ × CudaModelRunner :=
  let r1 := { r with m_num_batches_called := wrap_int64 (r.m_num_batches_called + 1) }
  let c := ops.call_chunks caller r1.m_input r1.m_output num_chunks r1.m_stream
  (c.result.mapError Error.caller, c.caller, { r1 with m_output := c.output })

/-- Method `model_stride`: `m_caller->config().stride`. -/
def model_stride (ops : CallerOps σ) (caller : σ) : Nat := ops.config_stride caller

/-- Method `chunk_size`: `m_input.size(2)`. -/
def chunk_size (r : CudaModelRunner) : Option Nat := r.m_input.size 2

/-- Method `batch_size`: `m_input.size(0)`. -/
def batch_size (r : CudaModelRunner) : Option Nat := r.m_input.size 0

/-- Method `terminate`: `m_caller->terminate()`. -/
def terminate (ops : CallerOps σ) (caller : σ) : σ := ops.terminate caller

/-- Method `restart`: `m_caller->restart()`. -/
def restart (ops : CallerOps σ) (caller : σ) : σ := ops.restart caller

/-- Digit of a pointer printed in base 16. -/
def hexDigit (d : Nat) : Char := "0123456789abcdef".toList.getD d '0'

/-- Text of `stream << p` for a pointer `p`: the address in base 16 with its base shown. -/
def pointer_text (p : Nat) : String :=
  if p = 0 then "0" else "0x" ++ String.mk ((Nat.digits 16 p).reverse.map hexDigit)

/-- Method `get_name`: the text `CudaModelRunner_` followed by the address of the object. -/
def get_name (r : CudaModelRunner) : String := "CudaModelRunner_" ++ pointer_text r.this

/-- Method `sample_stats`: the caller's stats with `"batches_called"` assigned. -/
def sample_stats (ops : CallerOps σ) (caller : σ) (r : CudaModelRunner) : NamedStats :=
  (ops.from_obj caller).assign "batches_called" (int64_to_double r.m_num_batches_called)

end CudaModelRunner

/-! ## Several runners on one caller -/

/-- One shared caller and the runners bound to it, addressed by a number. -/
structure System (σ : Type) where
  caller : σ
  runners : Nat → CudaModelRunner

/-- Operation invoked on a runner by the surrounding pipeline. -/
inductive Op
  | accept_chunk (chunk_idx : Int) (chunk : Tensor)
  | call_chunks (num_chunks : Int)
  | terminate
  | restart
  | sample_stats

/-- The operation is a `call_chunks`. -/
def Op.isCall : Op → Bool
  | .call_chunks _ => true
  | _ => false

/-- The operation is a `restart`. -/
def Op.isRestart : Op → Bool
  | .restart => true
  | _ => false

namespace System

variable {σ : Type}

/-- State after runner `who` executes `op` (whatever the operation returns or throws). -/
def step (ops : CallerOps σ) (s : System σ) (who : Nat) : Op → System σ
  | .accept_chunk chunk_idx chunk =>
    { s with runners :=
        Function.update s.runners who ((s.runners who).accept_chunk chunk_idx chunk).2 }
  | .call_chunks num_chunks =>
    let out := CudaModelRunner.call_chunks ops s.caller (s.runners who) num_chunks
    { caller := out.2.1, runners := Function.update s.runners who out.2.2 }
  | .terminate => { s with caller := CudaModelRunner.terminate ops s.caller }
  | .restart => { s with caller := CudaModelRunner.restart ops s.caller }
  | .sample_stats => s

/-- State after a sequence of operations, each tagged with the runner executing it. -/
def run (ops : CallerOps σ) (s : System σ) : List (Nat × Op) → System σ
  | [] => s
  | (who, op) :: rest => run ops (step ops s who op) rest

end System

/-- Number of `call_chunks` operations that runner `who` executes in a sequence. -/
def callsOf (who : Nat) (trace : List (Nat × Op)) : Nat :=
  trace.countP fun e => decide (e.1 = who) && e.2.isCall

/-- Caller that records every `call_chunks` it receives, around any caller. -/
structure Recorded (σ : Type) where
  inner : σ
  calls : List (Tensor × Tensor × Int × Nat)

/-- Operations of the recording caller: those of `ops`, with each `call_chunks` appended
to the record together with its arguments. -/
def CallerOps.recorded {σ : Type} (ops : CallerOps σ) : CallerOps (Recorded σ) where
  create_input_tensor c := ops.create_input_tensor c.inner
  create_output_tensor c := ops.create_output_tensor c.inner
  call_chunks c input output num_chunks stream :=
    let out := ops.call_chunks c.inner input output num_chunks stream
    { result := out.result
      caller := { inner := out.caller, calls := c.calls ++ [(input, output, num_chunks, stream)] }
      output := out.output }
  terminate c := { c with inner := ops.terminate c.inner }
  restart c := { c with inner := ops.restart c.inner }
  config_stride c := ops.config_stride c.inner
  from_obj c := ops.from_obj c.inner

/-! ## The Caller of the specification -/

/-- Modelled from the spec: the two life-cycle states of a Caller (`CudaCaller` is outside
the sources at hand). -/
inductive Lifecycle
  | Running
  | Terminated
  deriving DecidableEq, Repr

/-- Modelled from the spec: the `ModelConfig` (`CRFModelConfig` is declared outside the
sources at hand), the immutable description of chunk size, stride and batch shapes. -/
structure ModelConfig where
  chunk_size : Nat
  stride : Nat
  shapes : List (Nat × Nat)
  deriving DecidableEq, Repr

/-- Modelled from the spec: the Caller (`CudaCaller`, whose sources are not at hand). It
owns the configuration, the batch shape its buffers have, its life-cycle state and its
counters; the forward pass and the decoder are the opaque collaborators of the
specification: `forward input n` is the raw output for the first `n` slots, or `none`
when device memory runs out, and `decode raw i` is the decoded chunk of entry `i`. -/
structure Caller where
  config : ModelConfig
  batch_size : Nat
  channels : Nat
  output_sizes : List Nat
  chunk_size : Nat
  state : Lifecycle
  forward : Tensor → Nat → Option Tensor
  decode : Tensor → Nat → DecodedChunk
  counters : NamedStats

namespace Caller

/-- Modelled from the spec: `create_input_buffer`, a zeroed buffer of the batch shape
`[batch_size, channels, chunk_size]`. -/
def create_input_buffer (c : Caller) : Tensor :=
  { sizes := [c.batch_size, c.channels, c.chunk_size]
    data := List.replicate (numel [c.batch_size, c.channels, c.chunk_size]) 0 }

/-- Modelled from the spec: `create_output_buffer`, a zeroed buffer for the raw output. -/
def create_output_buffer (c : Caller) : Tensor :=
  { sizes := c.output_sizes, data := List.replicate (numel c.output_sizes) 0 }

/-- Modelled from the spec: the Caller's `call_chunks`. It fails with `Terminated` after
`terminate()`, with `InvalidInput` when the input buffer has not the batch shape or
`num_valid_chunks` is not in `[0, batch_size]`, with `ResourceExhausted` when the device
runs out of memory; otherwise the output buffer is overwritten with the raw output and
exactly `num_valid_chunks` decoded chunks are returned in slot order. -/
def call_chunks (c : Caller) (input output : Tensor) (num_valid_chunks : Int) (_stream : Nat) :
    CallResult Caller :=
  match c.state with
  | .Terminated => { result := .error .Terminated, caller := c, output := output }
  | .Running =>
    if input.sizes ≠ [c.batch_size, c.channels, c.chunk_size] ∨ num_valid_chunks < 0 ∨
        (c.batch_size : Int) < num_valid_chunks then
      { result := .error .InvalidInput, caller := c, output := output }
    else
      match c.forward input num_valid_chunks.toNat with
      | none => { result := .error .ResourceExhausted, caller := c, output := output }
      | some raw =>
        { result := .ok ((List.range num_valid_chunks.toNat).map (c.decode raw))
          caller := c
          output := raw }

/-- Modelled from the spec: `terminate()`, the transition to `Terminated`; idempotent. -/
def terminate (c : Caller) : Caller := { c with state := .Terminated }

/-- Modelled from the spec: `restart()`, the transition back to `Running`, with the same
configuration and weights. -/
def restart (c : Caller) : Caller := { c with state := .Running }

/-- Modelled from the spec: the interface of the runner implemented by the Caller of the
specification. -/
def ops : CallerOps Caller where
  create_input_tensor := create_input_buffer
  create_output_tensor := create_output_buffer
  call_chunks := call_chunks
  terminate := terminate
  restart := restart
  config_stride c := c.config.stride
  from_obj c := c.counters

end Caller

/-! ## `SampleSheet`: the loaded sheet and its queries -/

/-- The enumeration `SampleSheet::Type`. -/
inductive SheetType
  | none
  | barcode
  deriving DecidableEq, Repr

/-- The two-bit set `m_index`, one bit per index column. -/
structure IndexBits where
  FLOW_CELL_ID : Bool
  POSITION_ID : Bool
  deriving DecidableEq, Repr

/-- Members of a `SampleSheet`: `m_col_indices` maps a column name to its position,
`m_rows` holds the data rows in file order. -/
structure SampleSheet where
  m_filename : String
  m_skip_index_matching : Bool
  m_type : SheetType
  m_index : IndexBits
  m_col_indices : List (String × Nat)
  m_rows : List (List String)
  deriving DecidableEq, Repr

namespace SampleSheet

/-- Method `get`: the entry of `row` in column `key`, the empty string when the sheet has no such
column. The entry is read with `row[col]`; `none` is the read past the end of the row. -/
def get (s : SampleSheet) (row : List String) (key : String) : Option String :=
  match s.m_col_indices.lookup key with
  | some col => row[col]?
  | none => some ""

/-- Method `check_index`. -/
def check_index (s : SampleSheet) (flow_cell_id position_id : String) : Bool :=
  s.m_skip_index_matching ||
    ((s.m_index.FLOW_CELL_ID == !flow_cell_id.isEmpty) &&
      (s.m_index.POSITION_ID == !position_id.isEmpty))

/-- Method `match_index`, with the short-circuit evaluation of `||` and `&&`. -/
def match_index (s : SampleSheet) (row : List String)
    (flow_cell_id position_id experiment_id : String) : Option Bool :=
  if s.m_skip_index_matching then some true
  else do
    let flow_ok ← if !s.m_index.FLOW_CELL_ID then pure true
      else (fun v => decide (v = flow_cell_id)) <$> s.get row "flow_cell_id"
    if !flow_ok then pure false
    else
      let position_ok ← if !s.m_index.POSITION_ID then pure true
        else (fun v => decide (v = position_id)) <$> s.get row "position_id"
      if !position_ok then pure false
      else (fun v => decide (v = experiment_id)) <$> s.get row "experiment_id"

/-- The loop of `get_alias` over the rows not yet visited. -/
def get_alias_from (s : SampleSheet) (flow_cell_id position_id experiment_id barcode : String) :
    List (List String) → Option String
  | [] => some ""
  | row :: rest => do
    let index_ok ← s.match_index row flow_cell_id position_id experiment_id
    if index_ok then
      let b ← s.get row "barcode"
      if b = barcode then s.get row "alias"
      else get_alias_from s flow_cell_id position_id experiment_id barcode rest
    else get_alias_from s flow_cell_id position_id experiment_id barcode rest

/-- Method `get_alias`. -/
def get_alias (s : SampleSheet) (flow_cell_id position_id experiment_id barcode : String) :
    Option String :=
  if s.m_type ≠ .barcode then some ""
  else if !s.check_index flow_cell_id position_id then some ""
  else get_alias_from s flow_cell_id position_id experiment_id barcode s.m_rows

end SampleSheet

/-! ## Input streams (the part of `std::istream` used by the loader) -/

/-- Input stream over a character sequence: the sequence, the get position and the two
state flags the loader can meet (`badbit` is never set by reading from memory). -/
structure IStream where
  content : List Char
  pos : Nat
  eofbit : Bool
  failbit : Bool
  deriving DecidableEq, Repr

namespace IStream

/-- A stream freshly constructed over `content`, as `std::stringstream{content}`. -/
def of (content : List Char) : IStream :=
  { content := content, pos := 0, eofbit := false, failbit := false }

/-- Value of `fail()`, which `operator!` returns. -/
def fail (s : IStream) : Bool := s.failbit

/-- Value of `good()`. -/
def good (s : IStream) : Bool := !s.eofbit && !s.failbit

/-- The call `seekg(p)`: `eofbit` is cleared first; on a stream that has not failed the get
position becomes `p`, or `failbit` is set when `p` is past the end. -/
def seekg (s : IStream) (p : Nat) : IStream :=
  if s.failbit then { s with eofbit := false }
  else if p ≤ s.content.length then { s with eofbit := false, pos := p }
  else { s with eofbit := false, failbit := true }

/-- The call `peek()`: the next character without extracting it, `none` for
`traits_type::eof()`. On a stream that is not good it sets `failbit`; at the end of the
sequence it sets `eofbit`. -/
def peek (s : IStream) : Option Char × IStream :=
  if s.good then
    match s.content[s.pos]? with
    | some c => (some c, s)
    | none => (none, { s with eofbit := true })
  else (none, { s with failbit := true })

/-- The call `std::getline(s, target, delim)`, returning the new `target`: characters are
extracted up to the delimiter, which is extracted and dropped, or up to the end of the
sequence, which sets `eofbit`; `failbit` is set when nothing was extracted or the stream
was not good. -/
def getline (s : IStream) (delim : Char) : List Char × IStream :=
  if s.good then
    let rest := s.content.drop s.pos
    let target := rest.takeWhile (fun c => c != delim)
    if target.length < rest.length then
      (target, { s with pos := s.pos + target.length + 1 })
    else
      (target, { s with pos := s.pos + target.length, eofbit := true,
                        failbit := target.isEmpty })
  else ([], { s with failbit := true })

end IStream

/-! ## `SampleSheet`: loading -/

/-- The enumeration `details::EolFileFormat`. -/
inductive EolFileFormat
  | linux_eol
  | windows_eol
  | osx_eol
  deriving DecidableEq, Repr

/-- The loop of `get_eol_file_format`, entered with the stream, `pos` and the character
peeked at `pos`; `none` when the iterations allowed by the first argument are used up. -/
def get_eol_file_format_loop :
    Nat → IStream → Nat → Option Char → Option (EolFileFormat × IStream)
  | 0, _, _, _ => none
  | fuel + 1, input, pos, character =>
    match character with
    | none => some (.linux_eol, input)
    | some c =>
      if c = '\n' then some (.linux_eol, input)
      else if c = '\r' then
        if ((input.seekg (pos + 1)).peek).1 = some '\n' then
          some (.windows_eol, ((input.seekg (pos + 1)).peek).2)
        else some (.osx_eol, ((input.seekg (pos + 1)).peek).2)
      else
        get_eol_file_format_loop fuel ((input.seekg (pos + 1)).peek).2 (pos + 1)
          ((input.seekg (pos + 1)).peek).1

/-- The function `details::get_eol_file_format`: the format and the stream as it is left,
after the post-condition `input.seekg(0)` that runs on every return. The loop is given one
iteration per character and one more, which suffices (see `get_eol_file_format_spec`). -/
def get_eol_file_format (input : IStream) : Option (EolFileFormat × IStream) :=
  match get_eol_file_format_loop (input.content.length + 1) ((input.seekg 0).peek).2 0
      ((input.seekg 0).peek).1 with
  | some (result, input) => some (result, input.seekg 0)
  | none => none

/-- Helper `get_line` of the loader: `none` when it returns `false`, else the line read,
without the `'\r'` that a windows line ends with. -/
def get_line (input : IStream) (eol_format : EolFileFormat) : Option (List Char) × IStream :=
  let delimiter := if eol_format = .osx_eol then '\r' else '\n'
  if ((input.getline delimiter).2).fail then (none, (input.getline delimiter).2)
  else if eol_format = .windows_eol ∧ (input.getline delimiter).1 ≠ [] ∧
      (input.getline delimiter).1.getLast? = some '\r' then
    (some (input.getline delimiter).1.dropLast, (input.getline delimiter).2)
  else (some (input.getline delimiter).1, (input.getline delimiter).2)

/-- What the loader takes from outside `SampleSheet.cpp`: the string splitter
`dorado::utils::split` and the set `barcode_kits::get_barcode_identifiers()`. -/
structure Env where
  split : String → Char → List String
  barcode_identifiers : List String

/-- The ways a call of the loader ends other than by returning: the exceptions it throws,
one per message, and two markers that are not exceptions. -/
inductive LoadFailure
  /-- Thrown as `std::runtime_error`: cannot open file. -/
  | cannot_open_file
  /-- Thrown as `std::runtime_error`: cannot read column headers. -/
  | cannot_read_column_headers
  /-- Thrown as `std::runtime_error`: contains invalid column. -/
  | invalid_column (col_name : String)
  /-- Thrown as `std::runtime_error`: must contain at least one of the index columns. -/
  | index_columns_missing
  /-- Thrown as `std::runtime_error`: must contain experiment_id column. -/
  | experiment_id_missing
  /-- Thrown as `std::runtime_error`: must contain kit column. -/
  | kit_missing
  /-- Thrown as `std::runtime_error`: contains barcode columns but alias column is missing. -/
  | alias_missing
  /-- Thrown as `std::runtime_error`: contains alias column but barcode columns are missing. -/
  | barcode_missing
  /-- Thrown as `std::runtime_error`: row has incorrect number of entries. -/
  | incorrect_number_of_entries
  /-- Thrown as `std::runtime_error`: contains more than one experiment_id. -/
  | more_than_one_experiment_id
  /-- Thrown as `std::runtime_error`: is not a valid string. -/
  | invalid_text (key value : String)
  /-- Thrown as `std::runtime_error`: is a forbidden alias. -/
  | forbidden_alias (key value : String)
  /-- Thrown as `std::runtime_error`: does not contain a unique mapping of barcode ids. -/
  | mapping_not_unique
  /-- Thrown as `std::out_of_range` by `at`. -/
  | out_of_range
  /-- Marker, not an exception: an unchecked `row[col]` read past the end of the row. -/
  | read_past_end
  /-- Marker, not an exception: the iterations allowed to a loop of the embedding are used up. -/
  | out_of_fuel
  deriving DecidableEq, Repr

/-- The constant `MAX_USER_FIELD_LENGTH`. -/
def MAX_USER_FIELD_LENGTH : Nat := 40

/-- The list `allowed_column_names`. -/
def allowed_column_names : List String :=
  ["protocol_run_id", "flow_cell_id", "position_id", "sample_id", "experiment_id",
    "flow_cell_product_code", "kit", "alias", "type", "barcode"]

/-- Helper `csv_to_tokens`. -/
def csv_to_tokens (env : Env) (input : String) : List String := env.split input ','

/-- Helper `is_valid_mk_freetext`; a string is its sequence of bytes and `std::isalnum` is
that of the C locale. -/
def is_valid_mk_freetext (input : String) : Bool :=
  if input.length > MAX_USER_FIELD_LENGTH then false
  else input.toList.all fun c => c.isAlphanum || c == '-' || c == '_'

/-- Helper `is_alias_forbidden`. -/
def is_alias_forbidden (env : Env) (input : String) : Bool :=
  env.barcode_identifiers.contains input

/-- The assignment `m[key] = value` on the map `m_col_indices`. -/
def assign_column : List (String × Nat) → String → Nat → List (String × Nat)
  | [], key, value => [(key, value)]
  | (k, v) :: rest, key, value =>
    if k = key then (k, value) :: rest else (k, v) :: assign_column rest key value

/-- The loop `for i: m_col_indices[col_names[i]] = i`, from index `i` on. -/
def assign_columns : List (String × Nat) → List String → Nat → List (String × Nat)
  | m, [], _ => m
  | m, name :: rest, i => assign_columns (assign_column m name i) rest (i + 1)

/-- The read `m[key]` of the map `m_col_indices`, which inserts `key` with value 0 when it
is absent: the value and the map afterwards. -/
def index_column (m : List (String × Nat)) (key : String) : Nat × List (String × Nat) :=
  match m.lookup key with
  | some col => (col, m)
  | none => (0, m ++ [(key, 0)])

namespace SampleSheet

/-- A default-constructed sheet, with the given `skip_index_matching`. -/
def fresh (skip_index_matching : Bool) : SampleSheet :=
  { m_filename := ""
    m_skip_index_matching := skip_index_matching
    m_type := .none
    m_index := { FLOW_CELL_ID := false, POSITION_ID := false }
    m_col_indices := []
    m_rows := [] }

/-- Method `validate_headers`: what it returns or throws, and the sheet as it leaves it. -/
def validate_headers (s : SampleSheet) (col_names : List String) :
    Except LoadFailure Unit × SampleSheet :=
  let s0 := { s with m_type := .none, m_index := { FLOW_CELL_ID := false, POSITION_ID := false } }
  match col_names.find? (fun col_name => !allowed_column_names.contains col_name) with
  | some col_name => (.error (.invalid_column col_name), s0)
  | none =>
    let s1 := { s0 with m_index :=
      { FLOW_CELL_ID := col_names.contains "flow_cell_id"
        POSITION_ID := col_names.contains "position_id" } }
    if !s1.m_index.FLOW_CELL_ID && !s1.m_index.POSITION_ID then
      (.error .index_columns_missing, s1)
    else if !col_names.contains "experiment_id" then (.error .experiment_id_missing, s1)
    else if !col_names.contains "kit" then (.error .kit_missing, s1)
    else
      let s2 := if col_names.contains "barcode" then { s1 with m_type := .barcode } else s1
      let has_alias := col_names.contains "alias"
      if s2.m_type ≠ .none ∧ !has_alias then (.error .alias_missing, s2)
      else if s2.m_type = .none ∧ has_alias then (.error .barcode_missing, s2)
      else (.ok (), s2)

/-- Method `validate_text`. -/
def validate_text (s : SampleSheet) (row : List String) (key : String) : Except LoadFailure Unit :=
  match s.m_col_indices.lookup key with
  | none => .ok ()
  | some col =>
    match row[col]? with
    | none => .error .read_past_end
    | some value =>
      if is_valid_mk_freetext value then .ok () else .error (.invalid_text key value)

/-- Method `validate_alias`. -/
def validate_alias (env : Env) (s : SampleSheet) (row : List String) (key : String) :
    Except LoadFailure Unit :=
  match s.m_col_indices.lookup key with
  | none => .ok ()
  | some col =>
    match row[col]? with
    | none => .error .read_past_end
    | some value =>
      if is_alias_forbidden env value then .error (.forbidden_alias key value) else .ok ()

/-- The loop of `is_barcode_mapping_unique` that compares column `col` of every row with
`first`: `false` as soon as a row differs. -/
def column_is_constant (col : Nat) (first : String) : List (List String) → Except LoadFailure Bool
  | [] => .ok true
  | row :: rest =>
    match row[col]? with
    | none => .error .read_past_end
    | some value => if value ≠ first then .ok false else column_is_constant col first rest

/-- One of the two checks of `is_barcode_mapping_unique`, for the index column `key`:
`m_col_indices.at(key)`, `m_rows.at(0)[idx]`, then the loop over the rows. -/
def index_column_is_constant (s : SampleSheet) (key : String) : Except LoadFailure Bool :=
  match s.m_col_indices.lookup key with
  | none => .error .out_of_range
  | some col =>
    match s.m_rows with
    | [] => .error .out_of_range
    | first_row :: _ =>
      match first_row[col]? with
      | none => .error .read_past_end
      | some first => column_is_constant col first s.m_rows

/-- The loop that collects column `col` of every row into a set. -/
def collect_column (col : Nat) : List (List String) → Finset String → Except LoadFailure (Finset String)
  | [], acc => .ok acc
  | row :: rest, acc =>
    match row[col]? with
    | none => .error .read_past_end
    | some value => collect_column col rest (insert value acc)

/-- Method `is_barcode_mapping_unique`. -/
def is_barcode_mapping_unique (s : SampleSheet) : Except LoadFailure Bool :=
  match (if s.m_index.FLOW_CELL_ID then s.index_column_is_constant "flow_cell_id"
      else .ok true) with
  | .error e => .error e
  | .ok false => .ok false
  | .ok true =>
    match (if s.m_index.POSITION_ID then s.index_column_is_constant "position_id"
        else .ok true) with
    | .error e => .error e
    | .ok false => .ok false
    | .ok true =>
      match s.m_col_indices.lookup "barcode" with
      | none => .error .out_of_range
      | some col =>
        match collect_column col s.m_rows ∅ with
        | .error e => .error e
        | .ok barcodes => .ok (decide (barcodes.card = s.m_rows.length))

/-- Method `get_barcode_values`; `none` is `std::nullopt`. -/
def get_barcode_values (s : SampleSheet) : Except LoadFailure (Option (Finset String)) :=
  match s.m_type with
  | .barcode =>
    match s.m_col_indices.lookup "barcode" with
    | none => .error .out_of_range
    | some barcode_idx =>
      match collect_column barcode_idx s.m_rows ∅ with
      | .error e => .error e
      | .ok barcodes => .ok (some barcodes)
  | .none => .ok none

/-- Method `get_type`. -/
def get_type (s : SampleSheet) : SheetType := s.m_type

/-- The body of the loop of `load` for one line read: the `expected_experiment_id`
afterwards, or what is thrown, and the sheet as it is left. -/
def load_row (env : Env) (s : SampleSheet) (expected_experiment_id : String)
    (source_line : List Char) : Except LoadFailure String × SampleSheet :=
  let row := csv_to_tokens env (String.mk source_line)
  if row.length ≠ s.m_col_indices.length then (.error .incorrect_number_of_entries, s)
  else
    let s1 := { s with m_col_indices := (index_column s.m_col_indices "experiment_id").2 }
    match row[(index_column s.m_col_indices "experiment_id").1]? with
    | none => (.error .read_past_end, s1)
    | some experiment_id =>
      let expected := if expected_experiment_id.isEmpty then experiment_id
        else expected_experiment_id
      if expected ≠ experiment_id then (.error .more_than_one_experiment_id, s1)
      else
        match s1.validate_text row "experiment_id" with
        | .error e => (.error e, s1)
        | .ok () =>
          match s1.validate_text row "sample_id" with
          | .error e => (.error e, s1)
          | .ok () =>
            match s1.validate_text row "alias" with
            | .error e => (.error e, s1)
            | .ok () =>
              match s1.validate_alias env row "alias" with
              | .error e => (.error e, s1)
              | .ok () => (.ok expected, { s1 with m_rows := s1.m_rows ++ [row] })

/-- The loop `while (get_line(...))` of `load`; the first argument bounds its iterations. -/
def load_rows (env : Env) (eol_format : EolFileFormat) :
    Nat → IStream → SampleSheet → String → Except LoadFailure Unit × SampleSheet
  | 0, _, s, _ => (.error .out_of_fuel, s)
  | fuel + 1, file_stream, s, expected_experiment_id =>
    match (get_line file_stream eol_format).1 with
    | none => (.ok (), s)
    | some source_line =>
      match s.load_row env expected_experiment_id source_line with
      | (.error e, s1) => (.error e, s1)
      | (.ok expected, s1) =>
        load_rows env eol_format fuel (get_line file_stream eol_format).2 s1 expected

/-- Method `load(std::istream&, filename)`: what it returns or throws, and the sheet as it
leaves it. The loop over the lines is given one iteration per character of the stream and
one more, which suffices (see `load_eq_load_lines`). -/
def load (env : Env) (s : SampleSheet) (file_stream : IStream) :
    Except LoadFailure Unit × SampleSheet :=
  if file_stream.fail then (.error .cannot_open_file, s)
  else
    match get_eol_file_format file_stream with
    | none => (.error .out_of_fuel, s)
    | some (eol_format, stream1) =>
      match (get_line stream1 eol_format).1 with
      | none => (.error .cannot_read_column_headers, s)
      | some source_line =>
        let col_names := csv_to_tokens env (String.mk source_line)
        match s.validate_headers col_names with
        | (.error e, s1) => (.error e, s1)
        | (.ok (), s1) =>
          let s2 := { s1 with m_col_indices := assign_columns s1.m_col_indices col_names 0 }
          match load_rows env eol_format (stream1.content.length + 1)
              (get_line stream1 eol_format).2 s2 "" with
          | (.error e, s3) => (.error e, s3)
          | (.ok (), s3) =>
            if s3.m_skip_index_matching then
              match s3.is_barcode_mapping_unique with
              | .error e => (.error e, s3)
              | .ok false => (.error .mapping_not_unique, s3)
              | .ok true => (.ok (), s3)
            else (.ok (), s3)

end SampleSheet

/-! ## `TxEncoderStackImpl::build_attn_window_mask` -/

/-- Tensor of dtype `at::kBool`: its sizes and its elements in row-major order. -/
structure BoolTensor where
  sizes : List Nat
  data : List Bool
  deriving DecidableEq, Repr

/-- Element `t[i][j]` of a tensor of two dimensions; `none` when `t` has not two dimensions
or the indices are outside its sizes. -/
def BoolTensor.entry (t : BoolTensor) (i j : Nat) : Option Bool :=
  match t.sizes with
  | [rows, cols] => if i < rows ∧ j < cols then t.data[i * cols + j]? else none
  | _ => none

/-- The call `at::ones({rows, cols})`: every element is 1. -/
def ones (rows cols : Nat) : Tensor :=
  { sizes := [rows, cols], data := List.replicate (rows * cols) 1 }

/-- The call `at::triu(input, diagonal)` on a tensor of two dimensions: the elements on and
above the given diagonal, those with `j - i ≥ diagonal`, are kept, the others are 0. -/
def triu (input : Tensor) (diagonal : Int) : Tensor :=
  match input.sizes with
  | [_, cols] =>
    { input with data := input.data.mapIdx fun k x =>
        if diagonal ≤ ((k % cols : Nat) : Int) - ((k / cols : Nat) : Int) then x else 0 }
  | _ => input

/-- The call `at::tril(input, diagonal)` on a tensor of two dimensions: the elements on and
below the given diagonal, those with `j - i ≤ diagonal`, are kept, the others are 0. -/
def tril (input : Tensor) (diagonal : Int) : Tensor :=
  match input.sizes with
  | [_, cols] =>
    { input with data := input.data.mapIdx fun k x =>
        if ((k % cols : Nat) : Int) - ((k / cols : Nat) : Int) ≤ diagonal then x else 0 }
  | _ => input

/-- The statement `self *= other` for tensors of the same sizes: the elements are
multiplied one by one. -/
def mul_ (self other : Tensor) : Tensor :=
  { self with data := List.zipWith (fun x y => x * y) self.data other.data }

/-- The call `self.to(at::kBool)`: an element is `true` when it is not 0. -/
def to_kBool (self : Tensor) : BoolTensor :=
  { sizes := self.sizes, data := self.data.map fun x => decide (x ≠ 0) }

/-- The conversion `static_cast<int>` of an integer value (32 bits, two's complement). -/
def static_cast_int (x : Int) : Int := (x + 2 ^ 31) % 2 ^ 32 - 2 ^ 31

/-- The fields of `basecall::CRFModelConfig` that `build_attn_window_mask` reads:
`basecaller.chunksize`, `stride`, `tx->upsample.scale_factor` and `tx->tx.attn_window`.
The type is declared outside these sources; the fields are integers. -/
structure CRFModelConfig where
  chunksize : Int
  stride : Int
  scale_factor : Int
  attn_window : Int × Int
  deriving DecidableEq, Repr

/-- The ways `build_attn_window_mask` ends other than by returning a mask. -/
inductive MaskFailure
  /-- The divisor `stride * scale_factor` is 0: the division has no defined behaviour. -/
  | division_by_zero
  /-- Thrown by `at::ones`: a dimension is negative. -/
  | negative_dimension
  deriving DecidableEq, Repr

/-- Method `TxEncoderStackImpl::build_attn_window_mask`. The move to the device of
`options` changes no element and is left out. -/
def build_attn_window_mask (config : CRFModelConfig) : Except MaskFailure BoolTensor :=
  if config.stride * config.scale_factor = 0 then .error .division_by_zero
  else
    let size := static_cast_int (config.chunksize.tdiv (config.stride * config.scale_factor))
    if size < 0 then .error .negative_dimension
    else
      let mask := triu (ones size.toNat size.toNat) (-config.attn_window.1)
      let mask := mul_ mask (tril mask config.attn_window.2)
      .ok (to_kBool mask)

/-! ## Descriptions used in the statements, and concrete data -/

/-- Sizes that broadcast to one slot of `channels x chunk_size` elements: no dimension,
one dimension of size `chunk_size` or 1, or two dimensions of which the first is
`channels` or 1 and the second `chunk_size` or 1. -/
def BroadcastsToSlot (sizes : List Nat) (channels chunk_size : Nat) : Prop :=
  sizes = [] ∨ (∃ t, sizes = [t] ∧ (t = chunk_size ∨ t = 1)) ∨
    ∃ c t, sizes = [c, t] ∧ (c = channels ∨ c = 1) ∧ (t = chunk_size ∨ t = 1)

/-- Runner with a `2 x 1 x 4` input buffer holding the samples 0 to 7. -/
def runner214 : CudaModelRunner :=
  { this := 4096
    m_input := { sizes := [2, 1, 4], data := [0, 1, 2, 3, 4, 5, 6, 7] }
    m_output := { sizes := [2, 1], data := [0, 0] }
    m_stream := 1
    m_num_batches_called := 0 }

/-- Chunk of one channel and four samples. -/
def chunk14 : Tensor := { sizes := [1, 4], data := [9, 8, 7, 6] }

/-- Chunk of a single sample. -/
def chunk1 : Tensor := { sizes := [1], data := [9] }

/-- Chunk of three samples, which does not broadcast to a slot of four. -/
def chunk3 : Tensor := { sizes := [3], data := [9, 8, 7] }

/-- Caller of batch shape `4 x 1 x 2` whose forward pass hands back its input and whose
decoder reports the samples of a slot as moves. -/
def caller412 : Caller :=
  { config := { chunk_size := 2, stride := 5, shapes := [(4, 2)] }
    batch_size := 4
    channels := 1
    output_sizes := [4, 1, 2]
    chunk_size := 2
    state := .Running
    forward := fun input _ => some input
    decode := fun raw i => { sequence := "", qstring := "", moves := (raw.slot i).map Int.toNat }
    counters := fun k =>
      if k = "batches_called" then some (.finite 7)
      else if k = "model_calls" then some (.finite 3) else none }

/-- Runners constructed on `caller412`, runner `i` at address `8192 + 64 * i`. -/
def system412 : System Caller :=
  { caller := caller412
    runners := fun i => CudaModelRunner.construct Caller.ops caller412 (8192 + 64 * i) i }

/-- Two chunks accepted by runner 0 of `system412`, in slots 0 and 1. -/
def twoAccepted : System Caller :=
  System.run Caller.ops system412
    [(0, .accept_chunk 0 { sizes := [1, 2], data := [3, 4] }),
     (0, .accept_chunk 1 { sizes := [1, 2], data := [5, 6] })]

/-- The format named by the first end-of-line character of a text: `windows_eol` when the
first `'\r'` or `'\n'` is a `'\r'` with a `'\n'` right after it, `osx_eol` when it is a
`'\r'` without, `linux_eol` when it is a `'\n'` or when there is none. -/
def eol_of_text : List Char → EolFileFormat
  | [] => .linux_eol
  | c :: rest =>
    if c = '\n' then .linux_eol
    else if c = '\r' then (if rest.head? = some '\n' then .windows_eol else .osx_eol)
    else eol_of_text rest

/-- The text from its first `'\r'` or `'\n'` on; empty when it has neither. -/
def from_first_eol (text : List Char) : List Char :=
  text.dropWhile fun c => c != '\r' && c != '\n'

/-- The lines that successive calls of `get_line` read from a stream, until it returns
`false`; the first argument bounds their number. -/
def read_lines (eol_format : EolFileFormat) : Nat → IStream → List (List Char)
  | 0, _ => []
  | fuel + 1, input =>
    match (get_line input eol_format).1 with
    | none => []
    | some line => line :: read_lines eol_format fuel (get_line input eol_format).2

/-- The lines of a stream as the loader reads them: the format is the one found by
`get_eol_file_format`, the first line is the header line. -/
def all_lines (file_stream : IStream) : List (List Char) :=
  match get_eol_file_format file_stream with
  | none => []
  | some (eol_format, stream1) =>
    match (get_line stream1 eol_format).1 with
    | none => []
    | some header =>
      header :: read_lines eol_format (stream1.content.length + 1) (get_line stream1 eol_format).2

/-- The characters a good stream has left to read, 0 for a stream that is not good. -/
def IStream.remaining (s : IStream) : Nat := if s.good then s.content.length - s.pos else 0

namespace SampleSheet

/-- The loop of `load` run over lines already read. -/
def process_rows (env : Env) : List (List Char) → SampleSheet → String →
    Except LoadFailure Unit × SampleSheet
  | [], s, _ => (.ok (), s)
  | source_line :: rest, s, expected_experiment_id =>
    match s.load_row env expected_experiment_id source_line with
    | (.error e, s1) => (.error e, s1)
    | (.ok expected, s1) => process_rows env rest s1 expected

/-- The steps of `load` after the last line is read: the uniqueness check that
`skip_index_matching` asks for. -/
def finish_load (s : SampleSheet) : Except LoadFailure Unit × SampleSheet :=
  if s.m_skip_index_matching then
    match s.is_barcode_mapping_unique with
    | .error e => (.error e, s)
    | .ok false => (.error .mapping_not_unique, s)
    | .ok true => (.ok (), s)
  else (.ok (), s)

/-- The method `load` run over the lines of the file already read: header line first. -/
def load_lines (env : Env) (s : SampleSheet) : List (List Char) →
    Except LoadFailure Unit × SampleSheet
  | [] => (.error .cannot_read_column_headers, s)
  | header :: records =>
    match s.validate_headers (csv_to_tokens env (String.mk header)) with
    | (.error e, s1) => (.error e, s1)
    | (.ok (), s1) =>
      match process_rows env records
          { s1 with m_col_indices :=
              assign_columns s1.m_col_indices (csv_to_tokens env (String.mk header)) 0 } "" with
      | (.error e, s3) => (.error e, s3)
      | (.ok (), s3) => s3.finish_load

end SampleSheet

/-- The conditions on the column names of a header line under which the header is
accepted, in the words of the specification of header validation. -/
def header_acceptable (col_names : List String) : Prop :=
  (∀ c ∈ col_names, c ∈ ["protocol_run_id", "flow_cell_id", "position_id", "sample_id",
    "experiment_id", "flow_cell_product_code", "kit", "alias", "type", "barcode"]) ∧
  ("flow_cell_id" ∈ col_names ∨ "position_id" ∈ col_names) ∧
  "experiment_id" ∈ col_names ∧
  "kit" ∈ col_names ∧
  ("barcode" ∈ col_names ↔ "alias" ∈ col_names)

instance (col_names : List String) : Decidable (header_acceptable col_names) := by
  unfold header_acceptable
  infer_instance

/-- The entry of `row` in column `key` of the column map `m` exists and is valid free text,
or `m` has no column `key`. -/
def text_checked (m : List (String × Nat)) (row : List String) (key : String) : Prop :=
  ∀ col, m.lookup key = some col → ∃ v, row[col]? = some v ∧ is_valid_mk_freetext v = true

/-- The checks a row has passed when the loader stores it, for the column map `m`: its
width, its experiment_id entry, the free text of its experiment_id, sample_id and alias
entries, and an alias that is not a barcode identifier. -/
def row_checked (env : Env) (m : List (String × Nat)) (row : List String) : Prop :=
  row.length = m.length ∧
  (∀ col, m.lookup "experiment_id" = some col → ∃ v, row[col]? = some v) ∧
  text_checked m row "experiment_id" ∧
  text_checked m row "sample_id" ∧
  text_checked m row "alias" ∧
  ∀ col, m.lookup "alias" = some col →
    ∃ v, row[col]? = some v ∧ is_alias_forbidden env v = false

/-- The entries of a line read from the file. -/
def row_of_line (env : Env) (line : List Char) : List String :=
  csv_to_tokens env (String.mk line)

/-- The column names of the header line of a stream, as the loader reads them (no name when
no header line can be read). -/
def header_columns (env : Env) (file_stream : IStream) : List String :=
  match all_lines file_stream with
  | [] => []
  | header :: _ => row_of_line env header

/-- The data rows of a stream, as the loader reads them: the entries of every line after
the header line. -/
def data_rows (env : Env) (file_stream : IStream) : List (List String) :=
  (all_lines file_stream).tail.map (row_of_line env)

/-- Splitter of the examples: the fields of the characters between the delimiters, with the
field being read kept in reverse. (The loader takes `dorado::utils::split` as a parameter;
the examples have no empty last field, on which splitters may differ.) -/
def split_chars (delimiter : Char) : List Char → List Char → List String
  | [], field => [String.mk field.reverse]
  | c :: rest, field =>
    if c = delimiter then String.mk field.reverse :: split_chars delimiter rest []
    else split_chars delimiter rest (c :: field)

/-- Environment of the examples: `split_chars` and two barcode identifiers. -/
def example_env : Env :=
  { split := fun input delimiter => split_chars delimiter input.toList []
    barcode_identifiers := ["barcode01", "barcode02"] }

/-- The text of the cross-platform test with the given line ending: the header line
`flow_cell_id,kit,sample_id,experiment_id,barcode,alias,type` and one record. -/
def test_text (eol_chars : String) : List Char :=
  ("flow_cell_id,kit,sample_id,experiment_id,barcode,alias,type" ++ eol_chars ++
    "FA026858,SQK-RBK004,barcoding_run,sequencing_20200522,BC01,patient_id_5,test_sample" ++
    eol_chars).toList

/-- A text without barcode column: header `flow_cell_id,kit,experiment_id` and one record. -/
def no_barcode_text : List Char :=
  "flow_cell_id,kit,experiment_id\nFA026858,SQK-RBK004,sequencing_20200522\n".toList

/-- The text with two data rows whose experiment_id differs, the first one empty. -/
def two_experiments_text : List Char :=
  "experiment_id,flow_cell_id,kit\n,f,k\nX,f,k\n".toList

/-- The text of the barcode values test with two records. -/
def barcode_values_text : List Char :=
  ("flow_cell_id,kit,experiment_id,barcode,alias\n" ++
    "id,kit,expr,BC00,patient_0\nid,kit,expr,BC01,patient_1\n").toList

/-- A text whose header line names `kit` twice, six names in all, and whose one record has
five entries. -/
def repeated_header_text : List Char :=
  ("flow_cell_id,kit,kit,experiment_id,alias,barcode\n" ++
    "FA026858,SQK-RBK004,run1,patient_1,BC01\n").toList

/-- The characters that end a line in a text of the given format. -/
def eol_terminator : EolFileFormat → List Char
  | .linux_eol => ['\n']
  | .windows_eol => ['\r', '\n']
  | .osx_eol => ['\r']

/-- The text in which each of the lines is followed by the terminator of the format. -/
def sheet_text (eol_format : EolFileFormat) : List (List Char) → List Char
  | [] => []
  | line :: rest => line ++ eol_terminator eol_format ++ sheet_text eol_format rest

/-- The line holds no `'\r'` and no `'\n'`. -/
def line_clean (line : List Char) : Prop := '\r' ∉ line ∧ '\n' ∉ line

instance (line : List Char) : Decidable (line_clean line) := by
  unfold line_clean
  infer_instance

/-- The header line of the cross-platform test. -/
def test_header_line : List Char :=
  "flow_cell_id,kit,sample_id,experiment_id,barcode,alias,type".toList

/-- The record line of the cross-platform test. -/
def test_record_line : List Char :=
  "FA026858,SQK-RBK004,barcoding_run,sequencing_20200522,BC01,patient_id_5,test_sample".toList

/-- The size of the attention mask in the words of the specification: `chunksize` divided
by `stride * scale_factor`, by integer division. -/
def mask_size (config : CRFModelConfig) : Nat :=
  (config.chunksize.tdiv (config.stride * config.scale_factor)).toNat

/-- The configuration of a model with chunks of 12 samples, stride 3, no upsampling and
the attention window (1, 2). -/
def example_config : CRFModelConfig :=
  { chunksize := 12, stride := 3, scale_factor := 1, attn_window := (1, 2) }

/-- A text whose header line names `kit` twice, six names in all, and whose one record has
six entries. -/
def repeated_header_full_row_text : List Char :=
  ("flow_cell_id,kit,kit,experiment_id,alias,barcode\n" ++
    "FA026858,SQK-RBK004,SQK-RBK004,run1,patient_1,BC01\n").toList

/-- A text with a header line and no record. -/
def header_only_text : List Char :=
  "flow_cell_id,kit,experiment_id,barcode,alias\n".toList

/-- A text whose header line names `kit` twice, six names in all, and whose one record has
five entries, the last two being its experiment_id and its alias. -/
def repeated_header_short_row_text : List Char :=
  ("flow_cell_id,kit,kit,experiment_id,alias,barcode\n" ++
    "FA026858,SQK-RBK004,SQK-RBK004,run1,patient_1\n").toList

/-- State of a system after runner `who` called `terminate()` and the operations of `trace`
were executed. -/
def afterTerminate (s : System Caller) (who : Nat) (trace : List (Nat × Op)) : System Caller :=
  (s.step Caller.ops who .terminate).run Caller.ops trace

namespace SampleSheet

/-- The sheet has a column named `key`. -/
def has_column (s : SampleSheet) (key : String) : Bool := (s.m_col_indices.lookup key).isSome

/-- The columns `get_alias` reads. -/
def alias_columns : List String :=
  ["flow_cell_id", "position_id", "experiment_id", "barcode", "alias"]

/-- What loading establishes for the queries: the index flags say which of the two index
columns the sheet has, and every stored row has an entry in each column that `get_alias`
reads. -/
def Loaded (s : SampleSheet) : Prop :=
  s.m_index.FLOW_CELL_ID = s.has_column "flow_cell_id" ∧
  s.m_index.POSITION_ID = s.has_column "position_id" ∧
  ∀ row ∈ s.m_rows, ∀ key ∈ alias_columns, (s.get row key).isSome = true

instance (s : SampleSheet) : Decidable s.Loaded := by
  unfold Loaded
  infer_instance

/-- The field of `row` in column `key` (empty when the sheet has no such column). -/
def field (s : SampleSheet) (row : List String) (key : String) : String :=
  (s.get row key).getD ""

/-- The row answers the query, in the words of the specification of `get_alias`: its
experiment_id is the query's, its flow_cell_id is the query's when the sheet has that
column, its position_id is the query's when the sheet has that column, and its barcode is
the query's. -/
def answers (s : SampleSheet) (flow_cell_id position_id experiment_id barcode : String)
    (row : List String) : Bool :=
  decide (s.field row "experiment_id" = experiment_id) &&
  (!s.has_column "flow_cell_id" || decide (s.field row "flow_cell_id" = flow_cell_id)) &&
  (!s.has_column "position_id" || decide (s.field row "position_id" = position_id)) &&
  decide (s.field row "barcode" = barcode)

/-- The alias in the words of the specification of `get_alias`: the alias field of the first row
in file order that answers the query, the empty string when no row does. -/
def alias_of_first_answer (s : SampleSheet)
    (flow_cell_id position_id experiment_id barcode : String) : String :=
  match s.m_rows.find? (s.answers flow_cell_id position_id experiment_id barcode) with
  | some row => s.field row "alias"
  | none => ""

end SampleSheet

namespace SampleSheet

/-- The alias that goes with a barcode alone: the alias field of the first row whose barcode
field is `barcode`, the empty string when no row has that barcode. -/
def alias_of_barcode (s : SampleSheet) (barcode : String) : String :=
  match s.m_rows.find? (fun row => decide (s.field row "barcode" = barcode)) with
  | some row => s.field row "alias"
  | none => ""

end SampleSheet

/-- State of a sheet with the header `flow_cell_id,kit,sample_id,experiment_id,barcode,alias,type`
and two records, without `skip_index_matching`. -/
def sheet2 : SampleSheet :=
  { m_filename := "TEST_GENERATED_INPUT_STREAM"
    m_skip_index_matching := false
    m_type := .barcode
    m_index := { FLOW_CELL_ID := true, POSITION_ID := false }
    m_col_indices := [("flow_cell_id", 0), ("kit", 1), ("sample_id", 2), ("experiment_id", 3),
      ("barcode", 4), ("alias", 5), ("type", 6)]
    m_rows := [
      ["FA026858", "SQK-RBK004", "barcoding_run", "sequencing_20200522", "BC01", "patient_id_5",
        "test_sample"],
      ["FA026858", "SQK-RBK004", "barcoding_run", "sequencing_20200522", "BC08", "patient_id_4",
        "test_sample"]] }

end Dorado

/-! # Properties -/

namespace Dorado

/-! ## Lists and tensors -/

theorem take_drop_splice {α : Type} (A V W Z : List α) (n a : Nat)
    (hV : V.length = n) (hW : W.length = n) (h : a + n ≤ A.length ∨ A.length + n ≤ a) :
    ((A ++ V ++ Z).drop a).take n = ((A ++ W ++ Z).drop a).take n := by
  apply List.ext_getElem?
  intro k
  simp only [List.getElem?_take, List.getElem?_drop, List.append_assoc]
  split
  · rcases h with h | h
    · rw [List.getElem?_append_left (by omega), List.getElem?_append_left (by omega)]
    · rw [List.getElem?_append_right (by omega), List.getElem?_append_right (by omega),
        List.getElem?_append_right (by omega), List.getElem?_append_right (by omega), hV, hW]
  · rfl

theorem take_drop_splice_self {α : Type} (A V Z : List α) (n a : Nat)
    (hV : V.length = n) (h : A.length = a) :
    ((A ++ V ++ Z).drop a).take n = V := by
  subst h hV
  simp
theorem index_put_in_range (self : Tensor) (size : Nat) (rest : List Nat) (index : Int) (value : Tensor)
    (hs : self.sizes = size :: rest) (hlo : -(size : Int) ≤ index) (hhi : index < size) :
    index_put_ self index value =
      match copy_to rest value with
      | some v =>
        .ok { sizes := self.sizes
              data := self.data.take ((if index < 0 then index + size else index).toNat * numel rest)
                ++ v ++
                self.data.drop (((if index < 0 then index + size else index).toNat + 1) * numel rest) }
      | none => .error .ShapeError := by
  have h : (size : Int) > -1 - index ∧ (size : Int) > index := by omega
  simp only [index_put_, hs, h, and_self, if_true]

theorem index_put_out_of_range (self : Tensor) (size : Nat) (rest : List Nat) (index : Int) (value : Tensor)
    (hs : self.sizes = size :: rest) (h : index < -(size : Int) ∨ (size : Int) ≤ index) :
    index_put_ self index value = .error .IndexError := by
  have h : ¬ ((size : Int) > -1 - index ∧ (size : Int) > index) := by omega
  simp only [index_put_, hs, h, if_false]

theorem slot_index_put (self : Tensor) (B C T i : Nat) (value : Tensor)
    (hs : self.sizes = [B, C, T]) (hwf : self.wf) (hi : i < B)
    (hv : value.sizes = [C, T]) (hvwf : value.wf) :
    ∃ t, index_put_ self i value = .ok t ∧ t.sizes = [B, C, T] ∧ t.wf ∧
      t.slot i = value.data ∧ ∀ j, j ≠ i → t.slot j = self.slot j := by
  have hr := index_put_in_range self B [C, T] i value hs (by omega) (by omega)
  have hcopy : copy_to [C, T] value = some value.data := by simp [copy_to, hv]
  rw [hcopy] at hr
  have hi0 : ¬ ((i : Int) < 0) := by omega
  simp only [hi0, if_false, Int.toNat_ofNat] at hr
  have hN : value.data.length = numel [C, T] := by rw [← hv]; exact hvwf
  have hlen : self.data.length = B * numel [C, T] := by
    have := hwf; unfold Tensor.wf at this; rw [this, hs]; rfl
  have hmul : (i + 1) * numel [C, T] ≤ B * numel [C, T] := Nat.mul_le_mul_right _ hi
  have hsucc : (i + 1) * numel [C, T] = i * numel [C, T] + numel [C, T] := Nat.succ_mul _ _
  have hA : (self.data.take (i * numel [C, T])).length = i * numel [C, T] := by
    rw [List.length_take]; omega
  refine ⟨_, hr, hs, ?_, ?_, ?_⟩
  · show (_ ++ _ ++ _ : List Sample).length = numel self.sizes
    rw [hs]
    show _ = B * numel [C, T]
    simp only [List.length_append, List.length_drop, hA, hN]
    omega
  · simp only [Tensor.slot, hs, List.tail_cons]
    exact take_drop_splice_self _ _ _ _ _ hN hA
  · intro j hj
    have hself : self.data = self.data.take (i * numel [C, T]) ++
        ((self.data.drop (i * numel [C, T])).take (numel [C, T])) ++
        self.data.drop ((i + 1) * numel [C, T]) := by
      rw [hsucc, List.append_assoc, ← List.drop_drop, List.take_append_drop,
        List.take_append_drop]
    have hW : ((self.data.drop (i * numel [C, T])).take (numel [C, T])).length = numel [C, T] := by
      rw [List.length_take, List.length_drop]; omega
    have hor : j * numel [C, T] + numel [C, T] ≤ (self.data.take (i * numel [C, T])).length ∨
        (self.data.take (i * numel [C, T])).length + numel [C, T] ≤ j * numel [C, T] := by
      rw [hA]
      rcases Nat.lt_or_gt_of_ne hj with h | h
      · left
        have := Nat.mul_le_mul_right (numel [C, T]) (Nat.succ_le_of_lt h)
        rw [Nat.succ_mul] at this
        exact this
      · right
        have := Nat.mul_le_mul_right (numel [C, T]) (Nat.succ_le_of_lt h)
        rw [Nat.succ_mul] at this
        exact this
    simp only [Tensor.slot, hs, List.tail_cons]
    conv_rhs => rw [hself]
    exact take_drop_splice _ _ _ _ _ _ hN hW hor

theorem expandable_slot_iff (sizes : List Nat) (C T : Nat) :
    expandable sizes [C, T] = true ↔ BroadcastsToSlot sizes C T := by
  unfold BroadcastsToSlot
  match sizes with
  | [] => simp [expandable]
  | [t] => simp [expandable]
  | [c, t] =>
    simp [expandable]
    constructor
    · rintro ⟨h1, h2⟩
      exact ⟨c, t, ⟨rfl, rfl⟩, by omega, by omega⟩
    · rintro ⟨c', t', ⟨rfl, rfl⟩, h1, h2⟩
      constructor <;> omega
  | _ :: _ :: _ :: _ => simp [expandable]

/-! ## `accept_chunk` -/

/-- C2: for a slot index `i < batch_size()` and a chunk of the shape of one slot
(`channels x chunk_size`), `accept_chunk(i, c)` returns normally, afterwards slot `i` of the
input buffer holds the samples of `c`, every other slot holds what it held before, the
buffer has its shape (and stays well formed) and no other member of the runner changed. -/
theorem accept_chunk_writes_exactly_slot (r : CudaModelRunner) (B C T i : Nat) (c : Tensor)
    (hshape : r.m_input.sizes = [B, C, T]) (hwf : r.m_input.wf) (hi : i < B)
    (hc : c.sizes = [C, T]) (hcwf : c.wf) :
    r.batch_size = some B ∧
    (r.accept_chunk i c).1 = .ok () ∧
    (r.accept_chunk i c).2.m_input.slot i = c.data ∧
    (∀ j, j ≠ i → (r.accept_chunk i c).2.m_input.slot j = r.m_input.slot j) ∧
    (r.accept_chunk i c).2.m_input.sizes = [B, C, T] ∧
    (r.accept_chunk i c).2.m_input.wf ∧
    (r.accept_chunk i c).2 = { r with m_input := (r.accept_chunk i c).2.m_input } := by
  obtain ⟨t, ht, hts, htwf, hti, htj⟩ := slot_index_put r.m_input B C T i c hshape hwf hi hc hcwf
  have hacc : r.accept_chunk i c = (.ok (), { r with m_input := t }) := by
    simp only [CudaModelRunner.accept_chunk, ht]
  rw [hacc]
  refine ⟨?_, rfl, hti, htj, hts, htwf, rfl⟩
  simp [CudaModelRunner.batch_size, Tensor.size, hshape]

/-- Witness for C2: slot 1 of a `2 x 1 x 4` buffer takes a `1 x 4` chunk. -/
theorem accept_chunk_writes_exactly_slot_witness :
    (runner214.accept_chunk (1 : Nat) chunk14).2.m_input.slot 1 = [9, 8, 7, 6] ∧
    (runner214.accept_chunk (1 : Nat) chunk14).2.m_input.slot 0 = [0, 1, 2, 3] := by
  have h := accept_chunk_writes_exactly_slot runner214 2 1 4 1 chunk14 rfl (by decide) (by decide)
    rfl (by decide)
  refine ⟨h.2.2.1, ?_⟩
  rw [h.2.2.2.1 0 (by decide)]
  decide

/-- C3, as stated, fails: index `-1` is outside `[0, batch_size())`, yet `accept_chunk(-1, c)`
returns normally and overwrites the last slot. -/
theorem accept_chunk_negative_index_counterexample :
    runner214.batch_size = some 2 ∧ ¬ (0 ≤ (-1 : Int) ∧ (-1 : Int) < 2) ∧
    (runner214.accept_chunk (-1) chunk14).1 = .ok () ∧
    runner214.m_input.slot 1 = [4, 5, 6, 7] ∧
    (runner214.accept_chunk (-1) chunk14).2.m_input.slot 1 = [9, 8, 7, 6] := by
  decide

/-- C3, amended: with `B = batch_size()`, `accept_chunk(slot_index, chunk)` throws the
tensor library's index error (an `InvalidInput` failure) and leaves the runner as it was for
every `slot_index >= B` and every `slot_index < -B`; a negative `slot_index` in `[-B, 0)` is
not rejected: it addresses slot `B + slot_index`. -/
theorem accept_chunk_index_out_of_range (r : CudaModelRunner) (B : Nat) (rest : List Nat)
    (slot_index : Int) (chunk : Tensor) (hshape : r.m_input.sizes = B :: rest) :
    r.batch_size = some B ∧
    ((B : Int) ≤ slot_index ∨ slot_index < -(B : Int) →
      r.accept_chunk slot_index chunk = (.error (.torch .IndexError), r) ∧
      (Error.torch .IndexError).isInvalidInput = true) ∧
    (-(B : Int) ≤ slot_index ∧ slot_index < 0 →
      r.accept_chunk slot_index chunk = r.accept_chunk (slot_index + B) chunk) := by
  refine ⟨by simp [CudaModelRunner.batch_size, Tensor.size, hshape], ?_, ?_⟩
  · intro h
    have := index_put_out_of_range r.m_input B rest slot_index chunk hshape (by omega)
    have hacc : r.accept_chunk slot_index chunk = (.error (.torch .IndexError), r) := by
      simp only [CudaModelRunner.accept_chunk, this]
    exact ⟨hacc, rfl⟩
  · rintro ⟨hlo, hhi⟩
    have h1 := index_put_in_range r.m_input B rest slot_index chunk hshape hlo (by omega)
    have h2 := index_put_in_range r.m_input B rest (slot_index + B) chunk hshape (by omega)
      (by omega)
    have hneg : ¬ (slot_index + (B : Int) < 0) := by omega
    simp only [hhi, hneg, if_true, if_false] at h1 h2
    simp only [CudaModelRunner.accept_chunk, h1, h2]

/-- Witness for C3, amended: index 2 on a buffer of two slots. -/
theorem accept_chunk_index_out_of_range_witness :
    runner214.accept_chunk 2 chunk14 = (.error (.torch .IndexError), runner214) :=
  ((accept_chunk_index_out_of_range runner214 2 [1, 4] 2 chunk14 rfl).2.1
    (Or.inl (by decide))).1

/-- C4, as stated, fails: a chunk of a single sample has not `chunk_size() x channels = 4`
samples, yet `accept_chunk(0, chunk)` returns normally and fills slot 0 with that sample. -/
theorem accept_chunk_broadcast_counterexample :
    runner214.chunk_size = some 4 ∧ chunk1.data.length = 1 ∧
    (runner214.accept_chunk 0 chunk1).1 = .ok () ∧
    (runner214.accept_chunk 0 chunk1).2.m_input.slot 0 = [9, 9, 9, 9] ∧
    (runner214.accept_chunk 0 chunk1).2.m_input ≠ runner214.m_input := by
  decide

/-- C4, amended: for a valid slot index, `accept_chunk` returns normally exactly when the
chunk has the shape of one slot or, its leading dimensions of size 1 dropped, broadcasts to
it (as a single sample does); every other chunk is rejected with the tensor library's
shape error (an `InvalidInput` failure) and the runner, its input buffer included, is left
as it was. -/
theorem accept_chunk_shape_mismatch (r : CudaModelRunner) (B C T : Nat) (slot_index : Int)
    (chunk : Tensor) (hshape : r.m_input.sizes = [B, C, T])
    (hlo : -(B : Int) ≤ slot_index) (hhi : slot_index < B) :
    ((r.accept_chunk slot_index chunk).1 = .ok () ↔
      (chunk.sizes = [C, T] ∨ BroadcastsToSlot (slicePrefix1sSize chunk.sizes) C T)) ∧
    ((r.accept_chunk slot_index chunk).1 ≠ .ok () →
      r.accept_chunk slot_index chunk = (.error (.torch .ShapeError), r) ∧
      (Error.torch .ShapeError).isInvalidInput = true) := by
  have h := index_put_in_range r.m_input B [C, T] slot_index chunk hshape hlo hhi
  by_cases hsz : [C, T] = chunk.sizes
  · have hcopy : copy_to [C, T] chunk = some chunk.data := by simp [copy_to, hsz]
    rw [hcopy] at h
    have hacc : (r.accept_chunk slot_index chunk).1 = .ok () := by
      simp only [CudaModelRunner.accept_chunk, h]
    exact ⟨⟨fun _ => Or.inl hsz.symm, fun _ => hacc⟩, fun hne => absurd hacc hne⟩
  · have hsz' : ¬ chunk.sizes = [C, T] := fun e => hsz e.symm
    by_cases hex : expandable (slicePrefix1sSize chunk.sizes) [C, T] = true
    · have hcopy : copy_to [C, T] chunk = some (expandSame
          (List.replicate ([C, T].length - (slicePrefix1sSize chunk.sizes).length) 1 ++
            slicePrefix1sSize chunk.sizes) [C, T] chunk.data) := by
        simp only [copy_to, hsz, if_false, expand, hex, if_true]
      rw [hcopy] at h
      have hacc : (r.accept_chunk slot_index chunk).1 = .ok () := by
        simp only [CudaModelRunner.accept_chunk, h]
      exact ⟨⟨fun _ => Or.inr ((expandable_slot_iff _ C T).mp hex), fun _ => hacc⟩,
        fun hne => absurd hacc hne⟩
    · have hcopy : copy_to [C, T] chunk = none := by
        simp only [copy_to, hsz, if_false, expand, hex]
        rfl
      rw [hcopy] at h
      have hacc : r.accept_chunk slot_index chunk = (.error (.torch .ShapeError), r) := by
        simp only [CudaModelRunner.accept_chunk, h]
      rw [hacc]
      refine ⟨⟨fun hok => ?_, fun hor => ?_⟩, fun _ => ⟨rfl, rfl⟩⟩
      · cases hok
      · rcases hor with h1 | h1
        · exact absurd h1 hsz'
        · exact absurd ((expandable_slot_iff _ C T).mpr h1) hex

/-- Witness for C4, amended: three samples do not broadcast to a slot of four. -/
theorem accept_chunk_shape_mismatch_witness :
    runner214.accept_chunk 0 chunk3 = (.error (.torch .ShapeError), runner214) :=
  ((accept_chunk_shape_mismatch runner214 2 1 4 0 chunk3 rfl (by decide) (by decide)).2
    (by decide)).1

/-! ## `call_chunks` -/

/-- C1: `CudaModelRunner::call_chunks(num_chunks)` makes one call of the caller's
`call_chunks`, on the runner's own input buffer, output buffer and stream and with the same
`num_chunks` (a caller that records its calls has recorded exactly this one more), and its
outcome is the caller's outcome: the same sequence when the caller returns one, the same
failure when the caller fails, after which the caller is in the state that one call left. -/
theorem call_chunks_forwards_once {σ : Type} (ops : CallerOps σ) (caller : σ)
    (r : CudaModelRunner) (num_chunks : Int)
    (calls : List (Tensor × Tensor × Int × Nat)) :
    (CudaModelRunner.call_chunks ops caller r num_chunks).1 =
      (ops.call_chunks caller r.m_input r.m_output num_chunks r.m_stream).result.mapError
        Error.caller ∧
    (CudaModelRunner.call_chunks ops caller r num_chunks).2.1 =
      (ops.call_chunks caller r.m_input r.m_output num_chunks r.m_stream).caller ∧
    (CudaModelRunner.call_chunks ops.recorded ⟨caller, calls⟩ r num_chunks).2.1.calls =
      calls ++ [(r.m_input, r.m_output, num_chunks, r.m_stream)] ∧
    (CudaModelRunner.call_chunks ops.recorded ⟨caller, calls⟩ r num_chunks).1 =
      (CudaModelRunner.call_chunks ops caller r num_chunks).1 ∧
    (∀ l, (ops.call_chunks caller r.m_input r.m_output num_chunks r.m_stream).result = .ok l →
      (CudaModelRunner.call_chunks ops caller r num_chunks).1 = .ok l) ∧
    (∀ e, (ops.call_chunks caller r.m_input r.m_output num_chunks r.m_stream).result = .error e →
      (CudaModelRunner.call_chunks ops caller r num_chunks).1 = .error (.caller e)) := by
  refine ⟨rfl, rfl, rfl, rfl, ?_, ?_⟩
  · intro l h
    simp only [CudaModelRunner.call_chunks, h, Except.mapError]
  · intro e h
    simp only [CudaModelRunner.call_chunks, h, Except.mapError]

/-- Witness for C1: a runner of batch size 4 that accepted two chunks returns, for
`call_chunks(2)`, exactly the caller's two results in slot order. -/
theorem call_chunks_forwards_once_witness :
    (CudaModelRunner.call_chunks Caller.ops twoAccepted.caller (twoAccepted.runners 0) 2).1 =
      .ok [{ sequence := "", qstring := "", moves := [3, 4] },
           { sequence := "", qstring := "", moves := [5, 6] }] :=
  (call_chunks_forwards_once Caller.ops twoAccepted.caller (twoAccepted.runners 0) 2 []).2.2.2.2.1
    _ (by decide)

/-! ## The batch counter and `sample_stats` -/

theorem wrap_int64_of_range (x : Int) (hlo : -2 ^ 63 ≤ x) (hhi : x < 2 ^ 63) :
    wrap_int64 x = x := by
  unfold wrap_int64
  omega

theorem roundNat_exact (a : Nat) (h : a ≤ 2 ^ 53) : roundNat a = a := by
  rcases Nat.lt_or_ge a (2 ^ 53) with hlt | hge
  · have hq : ulpFrom 11 a 1 = 1 := by
      show (if a < 2 ^ 53 * 1 then 1 else _) = 1
      rw [if_pos (by omega)]
    simp only [roundNat, hq, Nat.div_one, Nat.mod_one, Nat.mul_zero, Nat.mul_one]
    rw [if_pos (by decide)]
  · have : a = 2 ^ 53 := Nat.le_antisymm h hge
    subst this
    decide

theorem int64_to_double_exact (k : Nat) (h : k ≤ 2 ^ 53) :
    int64_to_double (k : Int) = .finite (k : ℚ) := by
  have hn : ¬ ((k : Int) < 0) := by omega
  simp only [int64_to_double, hn, if_false, Int.natAbs_ofNat, roundNat_exact k h]

theorem step_counter {σ : Type} (ops : CallerOps σ) (s : System σ) (w who : Nat) (op : Op) :
    ((s.step ops w op).runners who).m_num_batches_called =
      if w = who ∧ op.isCall = true then wrap_int64 ((s.runners who).m_num_batches_called + 1)
      else (s.runners who).m_num_batches_called := by
  by_cases hw : w = who
  · subst hw
    cases op <;> simp [System.step, Op.isCall, CudaModelRunner.call_chunks,
      CudaModelRunner.accept_chunk]
    split <;> rfl
  · have hw' : who ≠ w := fun e => hw e.symm
    cases op <;> simp [System.step, Op.isCall, hw, Function.update_noteq hw']

theorem run_counter {σ : Type} (ops : CallerOps σ) (who : Nat) (trace : List (Nat × Op)) :
    ∀ s : System σ, -2 ^ 63 ≤ (s.runners who).m_num_batches_called →
      (s.runners who).m_num_batches_called + callsOf who trace < 2 ^ 63 →
      ((s.run ops trace).runners who).m_num_batches_called =
        (s.runners who).m_num_batches_called + callsOf who trace := by
  induction trace with
  | nil => intro s _ _; simp [System.run, callsOf]
  | cons e rest ih =>
    intro s hlo hhi
    obtain ⟨w, op⟩ := e
    have hstep := step_counter ops s w who op
    by_cases hc : w = who ∧ op.isCall = true
    · have hcount : callsOf who ((w, op) :: rest) = callsOf who rest + 1 := by
        simp [callsOf, List.countP_cons, hc.1, hc.2]
      rw [hcount] at hhi ⊢
      rw [if_pos hc, wrap_int64_of_range _ (by omega) (by omega)] at hstep
      have := ih (s.step ops w op) (by rw [hstep]; omega) (by rw [hstep]; omega)
      simp only [System.run]
      rw [this, hstep]
      push_cast
      omega
    · have hcount : callsOf who ((w, op) :: rest) = callsOf who rest := by
        simp only [callsOf, List.countP_cons]
        have : (decide ((w, op).1 = who) && (w, op).2.isCall) = false := by
          simp only [Bool.and_eq_false_iff, decide_eq_false_iff_not]
          by_cases h1 : w = who
          · right
            simpa [h1] using hc
          · left; exact h1
        simp [this]
      rw [hcount] at hhi ⊢
      rw [if_neg hc] at hstep
      have := ih (s.step ops w op) (by rw [hstep]; omega) (by rw [hstep]; omega)
      simp only [System.run]
      rw [this, hstep]

theorem callsOf_replicate (who : Nat) (op : Op) (h : op.isCall = true) (n : Nat) :
    callsOf who (List.replicate n (who, op)) = n := by
  simp [callsOf, List.countP_replicate, h]

theorem run_append {σ : Type} (ops : CallerOps σ) (t1 t2 : List (Nat × Op)) :
    ∀ s : System σ, s.run ops (t1 ++ t2) = (s.run ops t1).run ops t2 := by
  induction t1 with
  | nil => intro s; rfl
  | cons e rest ih =>
    intro s
    obtain ⟨w, op⟩ := e
    exact ih _

theorem run_singleton {σ : Type} (ops : CallerOps σ) (s : System σ) (w : Nat) (op : Op) :
    s.run ops [(w, op)] = s.step ops w op := rfl

/-- C5, as stated, fails: the counter is a 64-bit signed integer, so after `2^63`
invocations of `call_chunks` on a freshly constructed runner it has wrapped around to
`-2^63`, and this, not the number of invocations, is the `"batches_called"` entry of
`sample_stats()`. -/
theorem batches_called_counterexample :
    callsOf 0 (List.replicate (2 ^ 63 - 1) (0, Op.call_chunks 0) ++ [(0, Op.call_chunks 0)]) =
      2 ^ 63 ∧
    system412.runners 0 = CudaModelRunner.construct Caller.ops caller412 8192 0 ∧
    CudaModelRunner.sample_stats Caller.ops
      (system412.run Caller.ops
        (List.replicate (2 ^ 63 - 1) (0, Op.call_chunks 0) ++ [(0, Op.call_chunks 0)])).caller
      ((system412.run Caller.ops
        (List.replicate (2 ^ 63 - 1) (0, Op.call_chunks 0) ++ [(0, Op.call_chunks 0)])).runners 0)
      "batches_called" = some (.finite (-(2 ^ 63))) ∧
    some (Double.finite (-(2 ^ 63))) ≠ some (Double.finite (2 ^ 63)) := by
  have hk := callsOf_replicate 0 (Op.call_chunks 0) rfl (2 ^ 63 - 1)
  have hc := run_counter Caller.ops 0 (List.replicate (2 ^ 63 - 1) (0, Op.call_chunks 0))
    system412 (by decide) (by rw [hk]; decide)
  have h0 : (system412.runners 0).m_num_batches_called = 0 := rfl
  rw [hk, h0] at hc
  have hlast : ((system412.run Caller.ops
      (List.replicate (2 ^ 63 - 1) (0, Op.call_chunks 0) ++ [(0, Op.call_chunks 0)])).runners
        0).m_num_batches_called = -2 ^ 63 := by
    rw [run_append, run_singleton, step_counter, if_pos ⟨rfl, rfl⟩, hc]
    decide
  refine ⟨?_, rfl, ?_, by norm_num⟩
  · simp only [callsOf, List.countP_append] at hk ⊢
    rw [hk]
    decide
  · have hd : int64_to_double (-2 ^ 63) = .finite (-(2 ^ 63)) := by
      have hr : roundNat (2 ^ 63) = 2 ^ 63 := by decide
      have hn : ((-2 ^ 63 : Int) < 0) := by decide
      have ha : (-2 ^ 63 : Int).natAbs = 2 ^ 63 := by decide
      simp only [int64_to_double, hn, if_true, ha, hr]
      norm_num
    simp only [CudaModelRunner.sample_stats, NamedStats.assign, if_true, hlast, hd]

/-- C5, amended: a `call_chunks` of a runner whose counter is below the largest 64-bit
value adds exactly one to that runner's counter, whether or not the caller fails; no other
operation of the runner and no operation of another runner changes it; and for every
`k < 2^63`, after any sequence of operations in which a freshly constructed runner
executes `call_chunks` `k` times, the `"batches_called"` entry of its `sample_stats()` is
`double(k)`, which is `k` itself for `k <= 2^53`. -/
theorem batches_called_counts_calls {σ : Type} (ops : CallerOps σ) (s : System σ) (who : Nat)
    (caller0 : σ) (this stream : Nat) (trace : List (Nat × Op))
    (hfresh : s.runners who = CudaModelRunner.construct ops caller0 this stream)
    (hk : callsOf who trace < 2 ^ 63) :
    (∀ (t : System σ) (n : Int), -2 ^ 63 ≤ (t.runners who).m_num_batches_called →
      (t.runners who).m_num_batches_called < 2 ^ 63 - 1 →
      ((t.step ops who (.call_chunks n)).runners who).m_num_batches_called =
        (t.runners who).m_num_batches_called + 1) ∧
    (∀ (t : System σ) (w : Nat) (op : Op), ¬ (w = who ∧ op.isCall = true) →
      ((t.step ops w op).runners who).m_num_batches_called =
        (t.runners who).m_num_batches_called) ∧
    CudaModelRunner.sample_stats ops (s.run ops trace).caller ((s.run ops trace).runners who)
      "batches_called" = some (int64_to_double (callsOf who trace)) ∧
    (callsOf who trace ≤ 2 ^ 53 →
      CudaModelRunner.sample_stats ops (s.run ops trace).caller ((s.run ops trace).runners who)
        "batches_called" = some (.finite (callsOf who trace : ℚ))) := by
  have h0 : (s.runners who).m_num_batches_called = 0 := by rw [hfresh]; rfl
  have hc := run_counter ops who trace s (by rw [h0]; decide) (by rw [h0]; omega)
  rw [h0, Int.zero_add] at hc
  refine ⟨?_, ?_, ?_, ?_⟩
  · intro t n hlo hhi
    rw [step_counter, if_pos ⟨rfl, rfl⟩, wrap_int64_of_range _ (by omega) (by omega)]
  · intro t w op h
    rw [step_counter, if_neg h]
  · simp only [CudaModelRunner.sample_stats, NamedStats.assign, if_true, hc]
  · intro hk53
    simp only [CudaModelRunner.sample_stats, NamedStats.assign, if_true, hc,
      int64_to_double_exact _ hk53]

/-- Witness for C5, amended: three calls of runner 0, among operations of runner 1. -/
theorem batches_called_counts_calls_witness :
    CudaModelRunner.sample_stats Caller.ops
      (system412.run Caller.ops [(0, .call_chunks 1), (1, .call_chunks 1), (0, .terminate),
        (0, .call_chunks 4), (1, .sample_stats), (0, .call_chunks 0)]).caller
      ((system412.run Caller.ops [(0, .call_chunks 1), (1, .call_chunks 1), (0, .terminate),
        (0, .call_chunks 4), (1, .sample_stats), (0, .call_chunks 0)]).runners 0)
      "batches_called" = some (.finite ((3 : Nat) : ℚ)) :=
  (batches_called_counts_calls Caller.ops system412 0 caller412 8192 0
    [(0, .call_chunks 1), (1, .call_chunks 1), (0, .terminate),
      (0, .call_chunks 4), (1, .sample_stats), (0, .call_chunks 0)] rfl (by decide)).2.2.2
    (by decide)

/-- C6: `sample_stats()` is the caller's stats with the `"batches_called"` entry set to the
runner's own count (as a `double`, exact up to `2^53`): under every other name the snapshot
has an entry exactly when the caller's stats have one, with the caller's value; the
`"batches_called"` entry is the runner's count whatever the caller's stats hold under that
name; and taking the snapshot changes neither the runner nor the caller. -/
theorem sample_stats_merges {σ : Type} (ops : CallerOps σ) (caller : σ) (r : CudaModelRunner) :
    (∀ k, k ≠ "batches_called" →
      CudaModelRunner.sample_stats ops caller r k = ops.from_obj caller k) ∧
    CudaModelRunner.sample_stats ops caller r "batches_called" =
      some (int64_to_double r.m_num_batches_called) ∧
    (∀ n : Nat, n ≤ 2 ^ 53 → r.m_num_batches_called = n →
      CudaModelRunner.sample_stats ops caller r "batches_called" = some (.finite (n : ℚ))) ∧
    (∀ (s : System σ) (who : Nat), s.step ops who .sample_stats = s) := by
  refine ⟨?_, ?_, ?_, fun _ _ => rfl⟩
  · intro k hk
    simp only [CudaModelRunner.sample_stats, NamedStats.assign, hk, if_false]
  · simp only [CudaModelRunner.sample_stats, NamedStats.assign, if_true]
  · intro n hn hr
    simp only [CudaModelRunner.sample_stats, NamedStats.assign, if_true, hr,
      int64_to_double_exact n hn]

/-- Witness for C6: the caller's own `"batches_called"` entry (7) is replaced by the
runner's count, the caller's `"model_calls"` entry is passed on. -/
theorem sample_stats_merges_witness :
    CudaModelRunner.sample_stats Caller.ops caller412 (system412.runners 0) "model_calls" =
      some (.finite 3) ∧
    CudaModelRunner.sample_stats Caller.ops caller412 (system412.runners 0) "batches_called" =
      some (.finite ((0 : Nat) : ℚ)) :=
  ⟨((sample_stats_merges Caller.ops caller412 (system412.runners 0)).1 "model_calls"
      (by decide)).trans (by decide),
    (sample_stats_merges Caller.ops caller412 (system412.runners 0)).2.2.1 0 (by decide) rfl⟩

/-! ## `get_name` -/

theorem hexDigit_injOn : ∀ a < 16, ∀ b < 16, CudaModelRunner.hexDigit a = CudaModelRunner.hexDigit b → a = b := by
  decide

theorem map_hexDigit_inj : ∀ l1 l2 : List Nat, (∀ d ∈ l1, d < 16) → (∀ d ∈ l2, d < 16) →
    l1.map CudaModelRunner.hexDigit = l2.map CudaModelRunner.hexDigit → l1 = l2
  | [], [], _, _, _ => rfl
  | [], _ :: _, _, _, h => by simp at h
  | _ :: _, [], _, _, h => by simp at h
  | a :: l1, b :: l2, h1, h2, h => by
    simp only [List.map_cons, List.cons.injEq] at h
    have hab := hexDigit_injOn a (h1 a (List.mem_cons_self _ _)) b (h2 b (List.mem_cons_self _ _)) h.1
    have := map_hexDigit_inj l1 l2 (fun d hd => h1 d (List.mem_cons_of_mem _ hd))
      (fun d hd => h2 d (List.mem_cons_of_mem _ hd)) h.2
    rw [hab, this]

theorem pointer_text_injective (p q : Nat)
    (h : CudaModelRunner.pointer_text p = CudaModelRunner.pointer_text q) : p = q := by
  unfold CudaModelRunner.pointer_text at h
  have hdata := congrArg String.data h
  by_cases hp : p = 0 <;> by_cases hq : q = 0
  · rw [hp, hq]
  · rw [if_pos hp, if_neg hq] at hdata
    simp [String.data_append] at hdata
  · rw [if_neg hp, if_pos hq] at hdata
    simp [String.data_append] at hdata
  · rw [if_neg hp, if_neg hq] at hdata
    simp only [String.data_append, List.append_cancel_left_eq] at hdata
    have hrev := map_hexDigit_inj _ _
      (fun d hd => Nat.digits_lt_base (by decide) (List.mem_reverse.mp hd))
      (fun d hd => Nat.digits_lt_base (by decide) (List.mem_reverse.mp hd)) hdata
    exact Nat.digits_inj_iff.mp (List.reverse_injective hrev)

theorem step_this {σ : Type} (ops : CallerOps σ) (s : System σ) (w who : Nat) (op : Op) :
    ((s.step ops w op).runners who).this = (s.runners who).this := by
  by_cases hw : w = who
  · subst hw
    cases op <;> simp [System.step, CudaModelRunner.call_chunks, CudaModelRunner.accept_chunk]
    split <;> rfl
  · have hw' : who ≠ w := fun e => hw e.symm
    cases op <;> simp [System.step, Function.update_noteq hw']

theorem run_this {σ : Type} (ops : CallerOps σ) (who : Nat) (trace : List (Nat × Op)) :
    ∀ s : System σ, ((s.run ops trace).runners who).this = (s.runners who).this := by
  induction trace with
  | nil => intro s; rfl
  | cons e rest ih =>
    intro s
    obtain ⟨w, op⟩ := e
    simp only [System.run]
    rw [ih, step_this]

/-- C7: two runner objects alive at the same time are at different addresses, and then
`get_name()` returns different strings for them; and a runner's `get_name()` is the same
string after any sequence of operations on it or on the other runners as before it. -/
theorem get_name_injective {σ : Type} (ops : CallerOps σ) :
    (∀ r1 r2 : CudaModelRunner, r1.this ≠ r2.this → r1.get_name ≠ r2.get_name) ∧
    (∀ (s : System σ) (trace : List (Nat × Op)) (who : Nat),
      ((s.run ops trace).runners who).get_name = (s.runners who).get_name) := by
  constructor
  · intro r1 r2 hne h
    apply hne
    unfold CudaModelRunner.get_name at h
    have hdata := congrArg String.data h
    simp only [String.data_append, List.append_cancel_left_eq] at hdata
    exact pointer_text_injective _ _ (String.ext hdata)
  · intro s trace who
    unfold CudaModelRunner.get_name
    rw [run_this]

/-- Witness for C7: runners 0 and 1 of `system412` have different names. -/
theorem get_name_injective_witness :
    (system412.runners 0).get_name ≠ (system412.runners 1).get_name :=
  (get_name_injective Caller.ops).1 (system412.runners 0) (system412.runners 1) (by decide)

/-! ## Configuration accessors -/

theorem index_put_sizes (self : Tensor) (index : Int) (value t : Tensor)
    (h : index_put_ self index value = .ok t) : t.sizes = self.sizes := by
  cases hs : self.sizes with
  | nil => simp [index_put_, hs] at h
  | cons size rest =>
    by_cases hr : -(size : Int) ≤ index ∧ index < size
    · rw [index_put_in_range self size rest index value hs hr.1 hr.2] at h
      cases hcopy : copy_to rest value with
      | none => rw [hcopy] at h; cases h
      | some v => rw [hcopy] at h; cases h; exact hs
    · rw [index_put_out_of_range self size rest index value hs (by omega)] at h
      cases h

theorem accept_chunk_sizes (r : CudaModelRunner) (chunk_idx : Int) (chunk : Tensor) :
    (r.accept_chunk chunk_idx chunk).2.m_input.sizes = r.m_input.sizes := by
  unfold CudaModelRunner.accept_chunk
  split
  · next t ht => exact index_put_sizes _ _ _ _ ht
  · rfl

theorem step_input_sizes {σ : Type} (ops : CallerOps σ) (s : System σ) (w who : Nat) (op : Op) :
    ((s.step ops w op).runners who).m_input.sizes = (s.runners who).m_input.sizes := by
  by_cases hw : w = who
  · subst hw
    cases op with
    | accept_chunk i c => simp [System.step, accept_chunk_sizes]
    | call_chunks n => simp [System.step, CudaModelRunner.call_chunks]
    | terminate => rfl
    | restart => rfl
    | sample_stats => rfl
  · have hw' : who ≠ w := fun e => hw e.symm
    cases op <;> simp [System.step, Function.update_noteq hw']

theorem run_input_sizes {σ : Type} (ops : CallerOps σ) (who : Nat) (trace : List (Nat × Op)) :
    ∀ s : System σ, ((s.run ops trace).runners who).m_input.sizes = (s.runners who).m_input.sizes := by
  induction trace with
  | nil => intro s; rfl
  | cons e rest ih =>
    intro s
    obtain ⟨w, op⟩ := e
    simp only [System.run]
    rw [ih, step_input_sizes]

theorem Caller.call_chunks_caller (c : Caller) (input output : Tensor) (n : Int) (stream : Nat) :
    (c.call_chunks input output n stream).caller = c := by
  unfold Caller.call_chunks
  split
  · rfl
  · split
    · rfl
    · split <;> rfl

theorem step_caller (s : System Caller) (w : Nat) (op : Op) :
    (s.step Caller.ops w op).caller =
      match op with
      | .terminate => s.caller.terminate
      | .restart => s.caller.restart
      | _ => s.caller := by
  cases op with
  | accept_chunk i c => rfl
  | call_chunks n =>
    exact Caller.call_chunks_caller s.caller _ _ n (s.runners w).m_stream
  | terminate => rfl
  | restart => rfl
  | sample_stats => rfl

theorem run_config (trace : List (Nat × Op)) :
    ∀ s : System Caller, (s.run Caller.ops trace).caller.config = s.caller.config := by
  induction trace with
  | nil => intro s; rfl
  | cons e rest ih =>
    intro s
    obtain ⟨w, op⟩ := e
    simp only [System.run]
    rw [ih, step_caller]
    cases op <;> rfl

/-- C8: after any finite sequence of `accept_chunk`, `call_chunks`, `terminate`, `restart`
and `sample_stats` operations, executed by the runner or by other runners on the same
caller, `batch_size()` and `chunk_size()` of the runner return what they returned before
the sequence (over any caller), and so does `model_stride()` over the Caller of the
specification, whose configuration is immutable. -/
theorem configuration_stable {σ : Type} (ops : CallerOps σ) (s : System σ)
    (c : System Caller) (trace : List (Nat × Op)) (who : Nat) :
    ((s.run ops trace).runners who).batch_size = (s.runners who).batch_size ∧
    ((s.run ops trace).runners who).chunk_size = (s.runners who).chunk_size ∧
    CudaModelRunner.model_stride Caller.ops (c.run Caller.ops trace).caller =
      CudaModelRunner.model_stride Caller.ops c.caller := by
  refine ⟨?_, ?_, ?_⟩
  · simp only [CudaModelRunner.batch_size, Tensor.size, run_input_sizes]
  · simp only [CudaModelRunner.chunk_size, Tensor.size, run_input_sizes]
  · show (c.run Caller.ops trace).caller.config.stride = c.caller.config.stride
    rw [run_config]

/-! ## Life cycle -/

theorem Caller.terminate_of_terminated (c : Caller) (h : c.state = .Terminated) :
    c.terminate = c := by
  cases c
  simp only [Caller.terminate] at *
  rw [h]

theorem run_terminated (trace : List (Nat × Op)) :
    ∀ s : System Caller, s.caller.state = .Terminated →
      (∀ e ∈ trace, e.2.isRestart = false) → (s.run Caller.ops trace).caller = s.caller := by
  induction trace with
  | nil => intro s _ _; rfl
  | cons e rest ih =>
    intro s hs hno
    obtain ⟨w, op⟩ := e
    have hstep : (s.step Caller.ops w op).caller = s.caller := by
      rw [step_caller]
      cases op with
      | restart => exact absurd (hno (w, .restart) (List.mem_cons_self _ _)) (by simp [Op.isRestart])
      | terminate => exact Caller.terminate_of_terminated _ hs
      | accept_chunk i c => rfl
      | call_chunks n => rfl
      | sample_stats => rfl
    simp only [System.run]
    rw [ih (s.step Caller.ops w op) (by rw [hstep]; exact hs)
      (fun e he => hno e (List.mem_cons_of_mem _ he)), hstep]

theorem afterTerminate_caller (s : System Caller) (who : Nat) (trace : List (Nat × Op))
    (hno : ∀ e ∈ trace, e.2.isRestart = false) :
    (afterTerminate s who trace).caller = s.caller.terminate := by
  unfold afterTerminate
  rw [run_terminated trace _ rfl hno]
  rfl

/-- C9: over the Caller of the specification. Once a runner has called `terminate()`, and
as long as no runner calls `restart()`, every `call_chunks` of that runner and of every
other runner on the same caller fails with `Terminated`, returns no result and leaves the
output buffer and the caller as they were; a second `terminate()` changes nothing; after a
`restart()` by any runner the caller is running again: `call_chunks` no longer fails with
`Terminated`, it returns exactly `num_chunks` results whenever the input buffer has the
batch shape, `0 <= num_chunks <= batch_size` and the device does not run out of memory, and
a caller that was running before `terminate()` is back in the state it had then. -/
theorem terminate_restart_lifecycle (s : System Caller) (who : Nat) (trace : List (Nat × Op))
    (hno : ∀ e ∈ trace, e.2.isRestart = false) (other restarter : Nat) (n : Int) :
    (CudaModelRunner.call_chunks Caller.ops (afterTerminate s who trace).caller
        ((afterTerminate s who trace).runners other) n).1 = .error (.caller .Terminated) ∧
    (CudaModelRunner.call_chunks Caller.ops (afterTerminate s who trace).caller
        ((afterTerminate s who trace).runners other) n).2.1 = (afterTerminate s who trace).caller ∧
    (CudaModelRunner.call_chunks Caller.ops (afterTerminate s who trace).caller
        ((afterTerminate s who trace).runners other) n).2.2.m_output =
      ((afterTerminate s who trace).runners other).m_output ∧
    (s.step Caller.ops who .terminate).step Caller.ops other .terminate =
      s.step Caller.ops who .terminate ∧
    (CudaModelRunner.call_chunks Caller.ops
        ((afterTerminate s who trace).step Caller.ops restarter .restart).caller
        (((afterTerminate s who trace).step Caller.ops restarter .restart).runners other) n).1 ≠
      .error (.caller .Terminated) ∧
    ((((afterTerminate s who trace).step Caller.ops restarter .restart).runners other).m_input.sizes =
        [s.caller.batch_size, s.caller.channels, s.caller.chunk_size] →
      0 ≤ n → n ≤ s.caller.batch_size →
      s.caller.forward
        (((afterTerminate s who trace).step Caller.ops restarter .restart).runners other).m_input
        n.toNat ≠ none →
      ∃ l, (CudaModelRunner.call_chunks Caller.ops
          ((afterTerminate s who trace).step Caller.ops restarter .restart).caller
          (((afterTerminate s who trace).step Caller.ops restarter .restart).runners other) n).1 = .ok l ∧
        (l.length : Int) = n) ∧
    (s.caller.state = .Running →
      ((afterTerminate s who trace).step Caller.ops restarter .restart).caller = s.caller) := by
  have hc := afterTerminate_caller s who trace hno
  have hr : ((afterTerminate s who trace).step Caller.ops restarter .restart).caller =
      s.caller.terminate.restart := by
    rw [step_caller, hc]
  refine ⟨?_, ?_, ?_, ?_, ?_, ?_, ?_⟩
  · rw [hc]; rfl
  · rw [hc]; rfl
  · rw [hc]; rfl
  · rfl
  · rw [hr]
    generalize (((afterTerminate s who trace).step Caller.ops restarter .restart).runners other) = r
    simp only [CudaModelRunner.call_chunks, Caller.ops, Caller.call_chunks, Caller.restart,
      Caller.terminate]
    split
    · simp [Except.mapError]
    · split <;> simp [Except.mapError]
  · rw [hr]
    generalize (((afterTerminate s who trace).step Caller.ops restarter .restart).runners other) = r
    intro hsz h0 hB hf
    simp only [CudaModelRunner.call_chunks, Caller.ops, Caller.call_chunks, Caller.restart,
      Caller.terminate]
    have hcond : ¬ (r.m_input.sizes ≠
        [s.caller.batch_size, s.caller.channels, s.caller.chunk_size] ∨
        n < 0 ∨ (s.caller.batch_size : Int) < n) := by
      rw [hsz]; simp; omega
    rw [if_neg hcond]
    split
    · next hnone => exact absurd hnone hf
    · next raw hraw =>
      refine ⟨_, rfl, ?_⟩
      simp only [List.length_map, List.length_range]
      omega
  · intro hrun
    rw [hr]
    cases hs : s.caller
    rw [hs] at hrun
    simp only [Caller.terminate, Caller.restart] at *
    rw [hrun]

/-- Witness for C9: runner 0 terminates, runner 1 then fails with `Terminated`. -/
theorem terminate_restart_lifecycle_witness :
    (CudaModelRunner.call_chunks Caller.ops
        (afterTerminate system412 0 [(1, .call_chunks 1), (1, .terminate)]).caller
        ((afterTerminate system412 0 [(1, .call_chunks 1), (1, .terminate)]).runners 1) 2).1 =
      .error (.caller .Terminated) :=
  (terminate_restart_lifecycle system412 0 [(1, .call_chunks 1), (1, .terminate)]
    (by simp [Op.isRestart]) 1 0 2).1

/-! ## `SampleSheet::get_alias` -/

theorem get_alias_from_eq (s : SampleSheet) (fc pos exp bc : String)
    (hskip : s.m_skip_index_matching = false)
    (hf : s.m_index.FLOW_CELL_ID = s.has_column "flow_cell_id")
    (hp : s.m_index.POSITION_ID = s.has_column "position_id") :
    ∀ rows : List (List String),
      (∀ row ∈ rows, ∀ key ∈ SampleSheet.alias_columns, (s.get row key).isSome = true) →
      s.get_alias_from fc pos exp bc rows =
        some (match rows.find? (s.answers fc pos exp bc) with
          | some row => s.field row "alias"
          | none => "") := by
  intro rows
  induction rows with
  | nil => intro _; rfl
  | cons row rest ih =>
    intro hrows
    have ih' := ih (fun r hr => hrows r (List.mem_cons_of_mem _ hr))
    have hrow := hrows row (List.mem_cons_self _ _)
    obtain ⟨v1, h1⟩ := Option.isSome_iff_exists.mp (hrow "flow_cell_id" (by simp [SampleSheet.alias_columns]))
    obtain ⟨v2, h2⟩ := Option.isSome_iff_exists.mp (hrow "position_id" (by simp [SampleSheet.alias_columns]))
    obtain ⟨v3, h3⟩ := Option.isSome_iff_exists.mp (hrow "experiment_id" (by simp [SampleSheet.alias_columns]))
    obtain ⟨v4, h4⟩ := Option.isSome_iff_exists.mp (hrow "barcode" (by simp [SampleSheet.alias_columns]))
    obtain ⟨v5, h5⟩ := Option.isSome_iff_exists.mp (hrow "alias" (by simp [SampleSheet.alias_columns]))
    simp only [SampleSheet.get_alias_from, SampleSheet.match_index, hskip, hf, hp, h1, h2, h3, h4, h5,
      List.find?_cons, SampleSheet.answers, SampleSheet.field, Option.getD_some, ih']
    cases hcf : s.has_column "flow_cell_id" <;> cases hcp : s.has_column "position_id" <;>
      by_cases e1 : v1 = fc <;> by_cases e2 : v2 = pos <;> by_cases e3 : v3 = exp <;>
      by_cases e4 : v4 = bc <;> simp [e1, e2, e3, e4, h5]

/-- The alias query on a barcode-type sheet without `skip_index_matching` whose rows all
have an entry in the columns read (`Loaded`): a query that passes the index check gets the
alias field of the first row, in file order, whose experiment_id is the query's, whose
flow_cell_id is the query's when the sheet has that column, whose position_id is the
query's when the sheet has that column, and whose barcode is the query's; it gets the empty
string when no row is such a row. -/
theorem get_alias_first_matching_row (s : SampleSheet)
    (flow_cell_id position_id experiment_id barcode : String)
    (htype : s.m_type = .barcode) (hskip : s.m_skip_index_matching = false)
    (hloaded : s.Loaded) (hcheck : s.check_index flow_cell_id position_id = true) :
    s.get_alias flow_cell_id position_id experiment_id barcode =
      some (s.alias_of_first_answer flow_cell_id position_id experiment_id barcode) ∧
    ((∀ row ∈ s.m_rows,
        s.answers flow_cell_id position_id experiment_id barcode row = false) →
      s.get_alias flow_cell_id position_id experiment_id barcode = some "") := by
  have h : s.get_alias flow_cell_id position_id experiment_id barcode =
      some (s.alias_of_first_answer flow_cell_id position_id experiment_id barcode) := by
    unfold SampleSheet.get_alias SampleSheet.alias_of_first_answer
    rw [if_neg (by simp [htype]), hcheck]
    exact get_alias_from_eq s flow_cell_id position_id experiment_id barcode hskip
      hloaded.1 hloaded.2.1 s.m_rows hloaded.2.2
  refine ⟨h, fun hnone => ?_⟩
  rw [h]
  unfold SampleSheet.alias_of_first_answer
  have : s.m_rows.find? (s.answers flow_cell_id position_id experiment_id barcode) = none := by
    rw [List.find?_eq_none]
    intro row hrow
    rw [hnone row hrow]
    simp
  rw [this]

/-- Witness for the alias query: the queries of the single-barcode test on a sheet of two
records. -/
theorem get_alias_first_matching_row_witness :
    sheet2.get_alias "FA026858" "" "sequencing_20200522" "BC08" = some "patient_id_4" ∧
    sheet2.get_alias "FA026858" "" "sequencing_20200522" "BC10" = some "" :=
  ⟨(get_alias_first_matching_row sheet2 "FA026858" "" "sequencing_20200522" "BC08" rfl rfl
      (by decide) (by decide)).1.trans (by decide),
    (get_alias_first_matching_row sheet2 "FA026858" "" "sequencing_20200522" "BC10" rfl rfl
      (by decide) (by decide)).2 (by decide)⟩

/-! ## Streams and `get_eol_file_format` -/

theorem seekg_of_not_failed (s : IStream) (p : Nat) (hf : s.failbit = false)
    (hp : p ≤ s.content.length) :
    s.seekg p = { content := s.content, pos := p, eofbit := false, failbit := false } := by
  simp [IStream.seekg, hf, hp]

theorem peek_at (content : List Char) (p : Nat) :
    (IStream.peek { content := content, pos := p, eofbit := false, failbit := false }) =
      match content[p]? with
      | some c => (some c, { content := content, pos := p, eofbit := false, failbit := false })
      | none => (none, { content := content, pos := p, eofbit := true, failbit := false }) := by
  simp only [IStream.peek, IStream.good, Bool.not_false, Bool.and_self, if_true]

theorem seek_peek_fst (s : IStream) (p : Nat) (hf : s.failbit = false)
    (hp : p ≤ s.content.length) : ((s.seekg p).peek).1 = s.content[p]? := by
  rw [seekg_of_not_failed s p hf hp, peek_at]
  cases s.content[p]? <;> rfl

theorem seek_peek_snd (s : IStream) (p : Nat) (hf : s.failbit = false)
    (hp : p ≤ s.content.length) :
    ((s.seekg p).peek).2.content = s.content ∧ ((s.seekg p).peek).2.failbit = false := by
  rw [seekg_of_not_failed s p hf hp, peek_at]
  split <;> exact ⟨rfl, rfl⟩

theorem get_eol_file_format_loop_spec (content : List Char) :
    ∀ (fuel p : Nat) (s : IStream), s.content = content → s.failbit = false →
      p ≤ content.length → content.length - p < fuel →
      ∃ t : IStream, get_eol_file_format_loop fuel ((s.seekg p).peek).2 p ((s.seekg p).peek).1 =
          some (eol_of_text (content.drop p), t) ∧
        t.content = content ∧ t.failbit = false := by
  intro fuel
  induction fuel with
  | zero => intro p s _ _ _ h; omega
  | succ fuel ih =>
    intro p s hc hf hp hfuel
    have hp' : p ≤ s.content.length := by rw [hc]; exact hp
    have h1 := seek_peek_fst s p hf hp'
    obtain ⟨h2c, h2f⟩ := seek_peek_snd s p hf hp'
    rw [hc] at h1 h2c
    rcases Nat.lt_or_ge p content.length with hlt | hge
    · have hget : content[p]? = some content[p] := List.getElem?_eq_getElem hlt
      have hdrop : content.drop p = content[p] :: content.drop (p + 1) :=
        List.drop_eq_getElem_cons hlt
      rw [hget] at h1
      rw [h1, hdrop]
      simp only [get_eol_file_format_loop, eol_of_text]
      have hp1 : p + 1 ≤ ((s.seekg p).peek).2.content.length := by rw [h2c]; omega
      have h3 := seek_peek_fst ((s.seekg p).peek).2 (p + 1) h2f hp1
      obtain ⟨h4c, h4f⟩ := seek_peek_snd ((s.seekg p).peek).2 (p + 1) h2f hp1
      rw [h2c] at h3 h4c
      by_cases hn : content[p] = '\n'
      · rw [if_pos hn, if_pos hn]
        exact ⟨_, rfl, h2c, h2f⟩
      · rw [if_neg hn, if_neg hn]
        by_cases hr : content[p] = '\r'
        · rw [if_pos hr, if_pos hr, h3]
          have hhead : (content.drop (p + 1)).head? = content[p + 1]? := by
            rw [List.head?_drop]
          rw [hhead]
          by_cases hnext : content[p + 1]? = some '\n'
          · rw [if_pos hnext, if_pos hnext]
            exact ⟨_, rfl, h4c, h4f⟩
          · rw [if_neg hnext, if_neg hnext]
            exact ⟨_, rfl, h4c, h4f⟩
        · rw [if_neg hr, if_neg hr]
          exact ih (p + 1) ((s.seekg p).peek).2 h2c h2f (by omega) (by omega)
    · have hget : content[p]? = none := List.getElem?_eq_none hge
      have hdrop : content.drop p = [] := List.drop_eq_nil_of_le hge
      rw [hget] at h1
      rw [h1, hdrop]
      exact ⟨_, rfl, h2c, h2f⟩

theorem get_eol_file_format_spec (s : IStream) (hf : s.failbit = false) :
    get_eol_file_format s = some (eol_of_text s.content, IStream.of s.content) := by
  obtain ⟨t, ht, htc, htf⟩ := get_eol_file_format_loop_spec s.content (s.content.length + 1) 0 s
    rfl hf (Nat.zero_le _) (by omega)
  unfold get_eol_file_format
  rw [ht]
  simp only [List.drop_zero]
  rw [seekg_of_not_failed t 0 htf (Nat.zero_le _), htc]
  rfl

/-- C16: for every character sequence, `get_eol_file_format` on a stream over it returns (the
iterations allowed to the loop suffice), and what it returns is decided by the first `'\r'`
or `'\n'` of the sequence: `windows_eol` exactly when that is a `'\r'` with a `'\n'` right
after it, `osx_eol` exactly when it is a `'\r'` without (a `'\r'` at the very end
included), `linux_eol` exactly when it is a `'\n'` or the sequence has neither. -/
theorem get_eol_file_format_classifies (s : List Char) :
    ∃ result after, get_eol_file_format (IStream.of s) = some (result, after) ∧
      (result = .windows_eol ↔ ∃ t, from_first_eol s = '\r' :: '\n' :: t) ∧
      (result = .osx_eol ↔ ∃ t, from_first_eol s = '\r' :: t ∧ t.head? ≠ some '\n') ∧
      (result = .linux_eol ↔ from_first_eol s = [] ∨ ∃ t, from_first_eol s = '\n' :: t) := by
  refine ⟨eol_of_text s, _, get_eol_file_format_spec (IStream.of s) rfl, ?_⟩
  induction s with
  | nil => simp [eol_of_text, from_first_eol]
  | cons c rest ih =>
    by_cases hn : c = '\n'
    · subst hn
      simp [eol_of_text, from_first_eol]
    · by_cases hr : c = '\r'
      · subst hr
        by_cases hh : rest.head? = some '\n'
        · simp only [eol_of_text, from_first_eol, hh]
          cases rest with
          | nil => simp at hh
          | cons d rest =>
            simp only [List.head?_cons, Option.some.injEq] at hh
            subst hh
            simp
        · simp only [eol_of_text, from_first_eol, hh]
          simp
          exact ⟨fun x hx => hh (by rw [hx]; rfl), hh⟩
      · have hstep : from_first_eol (c :: rest) = from_first_eol rest := by
          simp [from_first_eol, List.dropWhile_cons, hn, hr]
        simp only [eol_of_text, hn, hr, if_false, hstep]
        exact ih

/-- C17: on every return path `get_eol_file_format` leaves a stream that had not failed with
its content unchanged, positioned at the start and with no state flag set, that is, as a
stream freshly made over the same characters: what is read next is read from the first
character on. -/
theorem get_eol_file_format_resets_stream (input : IStream) (h : input.failbit = false) :
    ∃ result, get_eol_file_format input = some (result, IStream.of input.content) ∧
      ((IStream.of input.content).peek).1 = input.content.head? ∧
      ∀ delim, ((IStream.of input.content).getline delim).1 =
        input.content.takeWhile (fun c => c != delim) := by
  refine ⟨_, get_eol_file_format_spec input h, ?_, ?_⟩
  · cases hc : input.content <;> simp [IStream.of, IStream.peek, IStream.good]
  · intro delim
    simp only [IStream.of, IStream.getline, IStream.good, Bool.not_false, Bool.and_self, if_true,
      List.drop_zero]
    split <;> rfl

/-- Witness for C17: after the call on a stream left at its end by earlier reads, the
stream over `first`, newline, `second` is as freshly made. -/
theorem get_eol_file_format_resets_stream_witness :
    ∃ result, get_eol_file_format
        { content := "first\nsecond".toList, pos := 12, eofbit := true, failbit := false } =
      some (result, IStream.of "first\nsecond".toList) :=
  (get_eol_file_format_resets_stream
    { content := "first\nsecond".toList, pos := 12, eofbit := true, failbit := false } rfl).imp
    fun _ h => h.1

/-! ## Reading lines -/

theorem getline_spec (st : IStream) (delim : Char) :
    (st.good = false ∧ st.getline delim = ([], ⟨st.content, st.pos, st.eofbit, true⟩)) ∨
    (st.good = true ∧ ∃ rest target, rest = st.content.drop st.pos ∧
      target = rest.takeWhile (fun c => c != delim) ∧
      ((target.length < rest.length ∧
          st.getline delim = (target, ⟨st.content, st.pos + target.length + 1, false, false⟩)) ∨
        (rest.length ≤ target.length ∧
          st.getline delim =
            (target, ⟨st.content, st.pos + target.length, true, target.isEmpty⟩)))) := by
  cases h : st.good
  · left
    exact ⟨rfl, by simp [IStream.getline, h]⟩
  · right
    refine ⟨rfl, _, _, rfl, rfl, ?_⟩
    have hgood := h
    simp only [IStream.good, Bool.and_eq_true, Bool.not_eq_true'] at hgood
    by_cases hlt : ((st.content.drop st.pos).takeWhile (fun c => c != delim)).length <
        (st.content.drop st.pos).length
    · left
      refine ⟨hlt, ?_⟩
      simp only [IStream.getline, h, if_true, hlt]
      rw [hgood.1, hgood.2]
    · right
      refine ⟨by omega, ?_⟩
      simp only [IStream.getline, h, if_true, hlt, if_false]

theorem getline_content (st : IStream) (delim : Char) :
    (st.getline delim).2.content = st.content := by
  rcases getline_spec st delim with ⟨_, h⟩ | ⟨_, rest, target, _, _, ⟨_, h⟩ | ⟨_, h⟩⟩ <;> rw [h]

theorem getline_remaining (st : IStream) (delim : Char)
    (h : (st.getline delim).2.fail = false) :
    (st.getline delim).2.remaining < st.remaining := by
  rcases getline_spec st delim with ⟨_, hg⟩ | ⟨hgood, rest, target, hrest, htarget, ⟨hlt, hg⟩ | ⟨hge, hg⟩⟩
  · rw [hg] at h
    simp [IStream.fail] at h
  · rw [hg]
    have hlen : rest.length = st.content.length - st.pos := by rw [hrest, List.length_drop]
    have h1 : st.remaining = st.content.length - st.pos := by
      simp only [IStream.remaining, hgood, if_true]
    have h2 : (IStream.mk st.content (st.pos + target.length + 1) false false).remaining =
        st.content.length - (st.pos + target.length + 1) := rfl
    rw [h1, h2]
    omega
  · rw [hg] at h ⊢
    have hlen : rest.length = st.content.length - st.pos := by rw [hrest, List.length_drop]
    simp only [IStream.fail, List.isEmpty_eq_true] at h
    have hpos : 0 < target.length := List.length_pos.mpr (by simpa using h)
    have hle : target.length ≤ rest.length := by
      rw [htarget]; exact (List.takeWhile_sublist _).length_le
    have h1 : st.remaining = st.content.length - st.pos := by
      simp only [IStream.remaining, hgood, if_true]
    have h2 : (IStream.mk st.content (st.pos + target.length) true target.isEmpty).remaining =
        0 := rfl
    rw [h1, h2]
    omega

theorem get_line_eq (st : IStream) (fmt : EolFileFormat) (delim : Char)
    (hd : delim = if fmt = .osx_eol then '\r' else '\n') :
    get_line st fmt =
      if ((st.getline delim).2).fail then (none, (st.getline delim).2)
      else if fmt = .windows_eol ∧ (st.getline delim).1 ≠ [] ∧
          (st.getline delim).1.getLast? = some '\r' then
        (some (st.getline delim).1.dropLast, (st.getline delim).2)
      else (some (st.getline delim).1, (st.getline delim).2) := by
  subst hd
  rfl

theorem get_line_content (st : IStream) (fmt : EolFileFormat) :
    (get_line st fmt).2.content = st.content := by
  generalize hd : (if fmt = EolFileFormat.osx_eol then '\r' else '\n') = delim
  rw [get_line_eq st fmt delim hd.symm]
  split
  · exact getline_content _ _
  · split <;> exact getline_content _ _

theorem get_line_remaining (st : IStream) (fmt : EolFileFormat) (line : List Char)
    (h : (get_line st fmt).1 = some line) : (get_line st fmt).2.remaining < st.remaining := by
  generalize hd : (if fmt = EolFileFormat.osx_eol then '\r' else '\n') = delim
  rw [get_line_eq st fmt delim hd.symm] at h ⊢
  split at h
  · cases h
  · next hf =>
    have hf2 := getline_remaining st _ (by simpa using hf)
    rw [if_neg hf]
    split <;> exact hf2

theorem remaining_le (st : IStream) : st.remaining ≤ st.content.length := by
  unfold IStream.remaining
  split <;> omega

theorem load_rows_eq_process_rows (env : Env) (fmt : EolFileFormat) :
    ∀ (fuel : Nat) (st : IStream) (s : SampleSheet) (expected : String),
      st.remaining < fuel →
      SampleSheet.load_rows env fmt fuel st s expected =
        SampleSheet.process_rows env (read_lines fmt fuel st) s expected := by
  intro fuel
  induction fuel with
  | zero => intro st s e h; omega
  | succ fuel ih =>
    intro st s expected h
    unfold SampleSheet.load_rows read_lines
    cases hl : (get_line st fmt).1 with
    | none => rfl
    | some line =>
      simp only [SampleSheet.process_rows]
      have hrem := get_line_remaining st fmt line hl
      cases hr : s.load_row env expected line with
      | mk r s1 =>
        cases r with
        | error e => rfl
        | ok expected1 => exact ih _ s1 expected1 (by omega)

theorem load_eq_load_lines (env : Env) (s : SampleSheet) (file_stream : IStream)
    (h : file_stream.fail = false) :
    s.load env file_stream = s.load_lines env (all_lines file_stream) := by
  have hf : file_stream.failbit = false := h
  unfold SampleSheet.load all_lines
  rw [get_eol_file_format_spec file_stream hf]
  simp only [h, Bool.false_eq_true, if_false]
  generalize hst : IStream.of file_stream.content = st
  have hstc : st.content = file_stream.content := by rw [← hst]; rfl
  cases hl : (get_line st (eol_of_text file_stream.content)).1 with
  | none => rfl
  | some header =>
    simp only [SampleSheet.load_lines]
    cases hv : s.validate_headers (csv_to_tokens env (String.mk header)) with
    | mk r s1 =>
      cases r with
      | error e => rfl
      | ok u =>
        simp only
        rw [load_rows_eq_process_rows]
        · rfl
        · have h1 := remaining_le (get_line st (eol_of_text file_stream.content)).2
          rw [get_line_content] at h1
          omega

/-! ## Header validation -/

theorem contains_eq_decide_mem (l : List String) (a : String) :
    l.contains a = decide (a ∈ l) := by
  induction l with
  | nil => simp
  | cons b rest ih =>
    simp only [List.contains_cons, ih, List.mem_cons]
    by_cases h : a = b <;> simp [h]

theorem validate_headers_result (s : SampleSheet) (col_names : List String) :
    ((s.validate_headers col_names).1 = .ok () ↔ header_acceptable col_names) ∧
    (header_acceptable col_names →
      s.validate_headers col_names = (.ok (),
        { s with
          m_type := if "barcode" ∈ col_names then .barcode else .none
          m_index := { FLOW_CELL_ID := decide ("flow_cell_id" ∈ col_names)
                       POSITION_ID := decide ("position_id" ∈ col_names) } })) := by
  unfold SampleSheet.validate_headers header_acceptable
  simp only
  cases hfind : col_names.find? (fun col_name => !allowed_column_names.contains col_name) with
  | some c =>
    have hc := List.find?_some hfind
    have hmem := List.mem_of_find?_eq_some hfind
    simp only [Bool.not_eq_true', List.contains_eq_any_beq, List.any_eq_false, beq_iff_eq,
      allowed_column_names] at hc
    constructor
    · constructor
      · intro h; cases h
      · rintro ⟨hall, _⟩
        exact absurd rfl (hc c (hall c hmem))
    · rintro ⟨hall, _⟩
      exact absurd rfl (hc c (hall c hmem))
  | none =>
    have hall : ∀ c ∈ col_names, c ∈ allowed_column_names := by
      intro c hc
      have := List.find?_eq_none.mp hfind c hc
      simpa using this
    by_cases hfc : "flow_cell_id" ∈ col_names <;> by_cases hpos : "position_id" ∈ col_names <;>
      by_cases hexp : "experiment_id" ∈ col_names <;> by_cases hkit : "kit" ∈ col_names <;>
      by_cases hbc : "barcode" ∈ col_names <;> by_cases hal : "alias" ∈ col_names <;>
      simp [hfc, hpos, hexp, hkit, hbc, hal, contains_eq_decide_mem] <;>
      (intro c hc; simpa [allowed_column_names] using hall c hc)

/-! ## The column map -/

theorem lookup_assign_column (m : List (String × Nat)) (key : String) (value : Nat) (k : String) :
    (assign_column m key value).lookup k = if k = key then some value else m.lookup k := by
  induction m with
  | nil =>
    by_cases h : k = key
    · simp [assign_column, List.lookup, h]
    · have hne : (k == key) = false := by simpa using h
      simp [assign_column, List.lookup, h, hne]
  | cons e rest ih =>
    obtain ⟨k0, v0⟩ := e
    by_cases h0 : k0 = key
    · subst h0
      by_cases h : k = k0
      · simp [assign_column, List.lookup, h]
      · have hne : (k == k0) = false := by simpa using h
        simp [assign_column, List.lookup, h, hne]
    · by_cases h : k = key
      · subst h
        have hne : (k == k0) = false := by simpa using fun e => h0 e.symm
        simp [assign_column, h0, List.lookup, hne, ih]
      · by_cases hk : k = k0
        · simp [assign_column, h0, List.lookup, hk]
        · have hne : (k == k0) = false := by simpa using hk
          simp [assign_column, h0, List.lookup, hne, ih, h]

theorem length_assign_column (m : List (String × Nat)) (key : String) (value : Nat) :
    (assign_column m key value).length =
      if (m.lookup key).isSome then m.length else m.length + 1 := by
  induction m with
  | nil => simp [assign_column]
  | cons e rest ih =>
    obtain ⟨k0, v0⟩ := e
    by_cases h0 : k0 = key
    · subst h0
      simp [assign_column, List.lookup]
    · have hne : (key == k0) = false := by simpa using fun e => h0 e.symm
      simp only [assign_column, h0, if_false, List.length_cons, ih, List.lookup, hne]
      split <;> rfl

theorem lookup_assign_columns (cols : List String) :
    ∀ (m : List (String × Nat)) (i : Nat) (k : String),
      (k ∈ cols → ∃ c, (assign_columns m cols i).lookup k = some c ∧ i ≤ c ∧ c < i + cols.length) ∧
      (k ∉ cols → (assign_columns m cols i).lookup k = m.lookup k) := by
  induction cols with
  | nil => intro m i k; simp [assign_columns]
  | cons name rest ih =>
    intro m i k
    simp only [assign_columns]
    obtain ⟨ih1, ih2⟩ := ih (assign_column m name i) (i + 1) k
    constructor
    · intro hk
      by_cases hrest : k ∈ rest
      · obtain ⟨c, hc, h1, h2⟩ := ih1 hrest
        exact ⟨c, hc, by omega, by simp only [List.length_cons]; omega⟩
      · have hkn : k = name := by
          rcases List.mem_cons.mp hk with h | h
          · exact h
          · exact absurd h hrest
        rw [ih2 hrest, lookup_assign_column, if_pos hkn]
        exact ⟨i, rfl, Nat.le_refl _, by simp only [List.length_cons]; omega⟩
    · intro hk
      have hrest : k ∉ rest := fun h => hk (List.mem_cons_of_mem _ h)
      have hkn : ¬ k = name := fun h => hk (by rw [h]; exact List.mem_cons_self _ _)
      rw [ih2 hrest, lookup_assign_column, if_neg hkn]

theorem length_assign_columns (cols : List String) :
    ∀ (m : List (String × Nat)) (i : Nat), cols.Nodup → (∀ k ∈ cols, m.lookup k = none) →
      (assign_columns m cols i).length = m.length + cols.length := by
  induction cols with
  | nil => intro m i _ _; simp [assign_columns]
  | cons name rest ih =>
    intro m i hnd hnone
    simp only [assign_columns]
    have hnd' := List.nodup_cons.mp hnd
    rw [ih (assign_column m name i) (i + 1) hnd'.2]
    · rw [length_assign_column, hnone name (List.mem_cons_self _ _)]
      simp only [Option.isSome_none, Bool.false_eq_true, if_false, List.length_cons]
      omega
    · intro k hk
      have hkn : ¬ k = name := fun h => hnd'.1 (by rw [← h]; exact hk)
      rw [lookup_assign_column, if_neg hkn]
      exact hnone k (List.mem_cons_of_mem _ hk)

theorem index_column_of_lookup (m : List (String × Nat)) (key : String) (col : Nat)
    (h : m.lookup key = some col) : index_column m key = (col, m) := by
  simp [index_column, h]

/-! ## The loop over the rows -/

theorem validate_text_ok_iff (s : SampleSheet) (row : List String) (key : String) :
    s.validate_text row key = .ok () ↔ text_checked s.m_col_indices row key := by
  unfold SampleSheet.validate_text text_checked
  cases hl : s.m_col_indices.lookup key with
  | none => simp
  | some col =>
    cases hr : row[col]? with
    | none => simp [hr]
    | some v =>
      by_cases hv : is_valid_mk_freetext v = true
      · simp [hr, hv]
      · simp [hr, hv]

theorem validate_alias_ok_iff (env : Env) (s : SampleSheet) (row : List String) (key : String) :
    s.validate_alias env row key = .ok () ↔
      ∀ col, s.m_col_indices.lookup key = some col →
        ∃ v, row[col]? = some v ∧ is_alias_forbidden env v = false := by
  unfold SampleSheet.validate_alias
  cases hl : s.m_col_indices.lookup key with
  | none => simp
  | some col =>
    cases hr : row[col]? with
    | none => simp [hr]
    | some v =>
      by_cases hv : is_alias_forbidden env v = true
      · simp [hr, hv]
      · simp [hr, hv]

theorem load_row_spec (env : Env) (s : SampleSheet) (expected : String) (line : List Char)
    (col : Nat) (hcol : s.m_col_indices.lookup "experiment_id" = some col) :
    (∃ e, s.load_row env expected line = (.error e, s)) ∨
    (∃ v, (csv_to_tokens env (String.mk line))[col]? = some v ∧
      (expected = "" ∨ expected = v) ∧
      row_checked env s.m_col_indices (csv_to_tokens env (String.mk line)) ∧
      s.load_row env expected line =
        (.ok v, { s with m_rows := s.m_rows ++ [csv_to_tokens env (String.mk line)] })) := by
  unfold SampleSheet.load_row
  rw [index_column_of_lookup _ _ _ hcol]
  simp only
  have hs : ({ s with m_col_indices := s.m_col_indices } : SampleSheet) = s := rfl
  rw [hs]
  generalize csv_to_tokens env (String.mk line) = row
  by_cases hlen : row.length ≠ s.m_col_indices.length
  · left
    exact ⟨_, by rw [if_pos hlen]⟩
  · rw [if_neg hlen]
    cases hr : row[col]? with
    | none => left; exact ⟨_, rfl⟩
    | some v =>
      simp only
      by_cases hexp : (if expected.isEmpty = true then v else expected) ≠ v
      · left
        exact ⟨_, by rw [if_pos hexp]⟩
      · rw [if_neg hexp]
        have hexp' : (if expected.isEmpty = true then v else expected) = v := by
          simpa using hexp
        cases h1 : s.validate_text row "experiment_id" with
        | error e => left; exact ⟨_, rfl⟩
        | ok u1 =>
          cases h2 : s.validate_text row "sample_id" with
          | error e => left; exact ⟨_, rfl⟩
          | ok u2 =>
            cases h3 : s.validate_text row "alias" with
            | error e => left; exact ⟨_, rfl⟩
            | ok u3 =>
              cases h4 : s.validate_alias env row "alias" with
              | error e => left; exact ⟨_, rfl⟩
              | ok u4 =>
                right
                refine ⟨v, rfl, ?_, ⟨by simpa using hlen, ?_, ?_, ?_, ?_, ?_⟩, ?_⟩
                · by_cases he : expected.isEmpty = true
                  · left
                    exact (String.isEmpty_iff expected).mp he
                  · right
                    rw [if_neg he] at hexp'
                    exact hexp'
                · intro c hc
                  rw [hcol] at hc
                  cases hc
                  exact ⟨v, hr⟩
                · exact (validate_text_ok_iff s row _).mp h1
                · exact (validate_text_ok_iff s row _).mp h2
                · exact (validate_text_ok_iff s row _).mp h3
                · exact (validate_alias_ok_iff env s row _).mp h4
                · simp only [hexp']

theorem sheet_rows_self (s : SampleSheet) : ({ s with m_rows := s.m_rows ++ [] } : SampleSheet) = s := by
  cases s
  simp

theorem process_rows_spec (env : Env) (lines : List (List Char)) :
    ∀ (s : SampleSheet) (expected : String) (col : Nat),
      s.m_col_indices.lookup "experiment_id" = some col →
      ∃ k, k ≤ lines.length ∧
        (SampleSheet.process_rows env lines s expected).2 =
          { s with m_rows := s.m_rows ++ (lines.take k).map (row_of_line env) } ∧
        (∀ l ∈ lines.take k, row_checked env s.m_col_indices (row_of_line env l)) ∧
        ((SampleSheet.process_rows env lines s expected).1 = .ok () → k = lines.length) := by
  induction lines with
  | nil =>
    intro s expected col _
    exact ⟨0, Nat.le_refl _, by simp [SampleSheet.process_rows, sheet_rows_self], by simp, fun _ => rfl⟩
  | cons line rest ih =>
    intro s expected col hcol
    rcases load_row_spec env s expected line col hcol with ⟨e, he⟩ | ⟨v, _, _, hchk, hok⟩
    · refine ⟨0, Nat.zero_le _, ?_, by simp, ?_⟩
      · simp [SampleSheet.process_rows, he, sheet_rows_self]
      · intro h
        simp [SampleSheet.process_rows, he] at h
    · obtain ⟨k, hk, hstate, hrows, hfull⟩ :=
        ih { s with m_rows := s.m_rows ++ [csv_to_tokens env (String.mk line)] } v col hcol
      refine ⟨k + 1, by simp only [List.length_cons]; omega, ?_, ?_, ?_⟩
      · simp only [SampleSheet.process_rows, hok, hstate, List.take_succ_cons, List.map_cons,
          List.append_assoc, List.singleton_append, row_of_line]
      · intro l hl
        simp only [List.take_succ_cons, List.mem_cons] at hl
        rcases hl with h | h
        · rw [h]; exact hchk
        · exact hrows l h
      · intro h
        simp only [SampleSheet.process_rows, hok] at h
        simp only [List.length_cons, hfull h]

theorem finish_load_state (s : SampleSheet) : s.finish_load.2 = s := by
  unfold SampleSheet.finish_load
  split
  · split <;> rfl
  · rfl

theorem finish_load_ok_iff (s : SampleSheet) :
    s.finish_load.1 = .ok () ↔
      (s.m_skip_index_matching = true → s.is_barcode_mapping_unique = .ok true) := by
  unfold SampleSheet.finish_load
  cases hs : s.m_skip_index_matching
  · simp
  · cases hu : s.is_barcode_mapping_unique with
    | error e => simp
    | ok b => cases b <;> simp

theorem load_lines_cons (env : Env) (s : SampleSheet) (header : List Char)
    (records : List (List Char)) :
    s.load_lines env (header :: records) =
      match s.validate_headers (row_of_line env header) with
      | (.error e, s1) => (.error e, s1)
      | (.ok (), s1) =>
        match SampleSheet.process_rows env records
            { s1 with m_col_indices :=
                assign_columns s1.m_col_indices (row_of_line env header) 0 } "" with
        | (.error e, s3) => (.error e, s3)
        | (.ok (), s3) => s3.finish_load := rfl

theorem load_lines_rejected (env : Env) (s : SampleSheet) (header : List Char)
    (records : List (List Char)) (h : ¬ header_acceptable (row_of_line env header)) :
    s.load_lines env (header :: records) = s.validate_headers (row_of_line env header) ∧
    ∃ e, (s.load_lines env (header :: records)).1 = .error e := by
  have hne : (s.validate_headers (row_of_line env header)).1 ≠ .ok () :=
    fun hok => h ((validate_headers_result s _).1.mp hok)
  rw [load_lines_cons]
  cases hv : s.validate_headers (row_of_line env header) with
  | mk r s1 =>
    rw [hv] at hne
    cases r with
    | error e => exact ⟨rfl, e, rfl⟩
    | ok u => exact absurd rfl hne

theorem load_lines_accepted (env : Env) (s : SampleSheet) (header : List Char)
    (records : List (List Char)) (h : header_acceptable (row_of_line env header)) :
    ∃ k, k ≤ records.length ∧
      (s.load_lines env (header :: records)).2 =
        { s with
          m_type := if "barcode" ∈ row_of_line env header then .barcode else .none
          m_index := { FLOW_CELL_ID := decide ("flow_cell_id" ∈ row_of_line env header)
                       POSITION_ID := decide ("position_id" ∈ row_of_line env header) }
          m_col_indices := assign_columns s.m_col_indices (row_of_line env header) 0
          m_rows := s.m_rows ++ (records.take k).map (row_of_line env) } ∧
      (∀ l ∈ records.take k,
        row_checked env (assign_columns s.m_col_indices (row_of_line env header) 0)
          (row_of_line env l)) ∧
      ((s.load_lines env (header :: records)).1 = .ok () →
        k = records.length ∧
        (s.m_skip_index_matching = true →
          (s.load_lines env (header :: records)).2.is_barcode_mapping_unique = .ok true)) := by
  have hv := (validate_headers_result s (row_of_line env header)).2 h
  have hexp : "experiment_id" ∈ row_of_line env header := h.2.2.1
  obtain ⟨col, hcol, _, _⟩ :=
    ((lookup_assign_columns (row_of_line env header) s.m_col_indices 0 "experiment_id").1 hexp)
  obtain ⟨k, hk, hstate, hrows, hfull⟩ := process_rows_spec env records
    { s with
      m_type := if "barcode" ∈ row_of_line env header then .barcode else .none
      m_index := { FLOW_CELL_ID := decide ("flow_cell_id" ∈ row_of_line env header)
                   POSITION_ID := decide ("position_id" ∈ row_of_line env header) }
      m_col_indices := assign_columns s.m_col_indices (row_of_line env header) 0 }
    "" col hcol
  refine ⟨k, hk, ?_, hrows, ?_⟩
  · rw [load_lines_cons, hv]
    simp only
    revert hstate
    cases hp : SampleSheet.process_rows env records _ "" with
    | mk r s3 =>
      intro hstate
      cases r with
      | error e => exact hstate
      | ok u =>
        simp only
        rw [finish_load_state]
        exact hstate
  · rw [load_lines_cons, hv]
    simp only
    revert hfull hstate
    cases hp : SampleSheet.process_rows env records _ "" with
    | mk r s3 =>
      intro hstate hfull
      cases r with
      | error e => intro h; cases h
      | ok u =>
        simp only
        intro hok
        refine ⟨hfull rfl, ?_⟩
        intro hskip
        rw [finish_load_state]
        have hs3 : s3.m_skip_index_matching = s.m_skip_index_matching := by
          simp only at hstate
          rw [hstate]
        exact (finish_load_ok_iff s3).mp hok (by rw [hs3]; exact hskip)

/-! ## What a successful load establishes -/

theorem load_ok_lines (env : Env) (s : SampleSheet) (fs : IStream)
    (hok : (s.load env fs).1 = .ok ()) :
    fs.fail = false ∧ ∃ header records, all_lines fs = header :: records ∧
      s.load env fs = s.load_lines env (header :: records) ∧
      header_columns env fs = row_of_line env header ∧
      data_rows env fs = records.map (row_of_line env) := by
  cases hf : fs.fail with
  | true =>
    simp [SampleSheet.load, hf] at hok
  | false =>
    refine ⟨rfl, ?_⟩
    have h := load_eq_load_lines env s fs hf
    cases hl : all_lines fs with
    | nil =>
      rw [h, hl] at hok
      simp [SampleSheet.load_lines] at hok
    | cons header records =>
      refine ⟨header, records, rfl, by rw [h, hl], ?_, ?_⟩
      · simp [header_columns, hl]
      · simp [data_rows, hl]

theorem load_ok_spec (env : Env) (s : SampleSheet) (fs : IStream)
    (hok : (s.load env fs).1 = .ok ()) :
    header_acceptable (header_columns env fs) ∧
    (s.load env fs).2 =
      { s with
        m_type := if "barcode" ∈ header_columns env fs then .barcode else .none
        m_index := { FLOW_CELL_ID := decide ("flow_cell_id" ∈ header_columns env fs)
                     POSITION_ID := decide ("position_id" ∈ header_columns env fs) }
        m_col_indices := assign_columns s.m_col_indices (header_columns env fs) 0
        m_rows := s.m_rows ++ data_rows env fs } ∧
    (∀ row ∈ data_rows env fs,
      row_checked env (assign_columns s.m_col_indices (header_columns env fs) 0) row) ∧
    (s.m_skip_index_matching = true → (s.load env fs).2.is_barcode_mapping_unique = .ok true) := by
  obtain ⟨_, header, records, _, hload, hcols, hrows⟩ := load_ok_lines env s fs hok
  rw [hload] at hok ⊢
  rw [hcols, hrows]
  have hacc : header_acceptable (row_of_line env header) := by
    by_contra hna
    obtain ⟨e, he⟩ := (load_lines_rejected env s header records hna).2
    rw [he] at hok
    cases hok
  obtain ⟨k, hk, hstate, hchk, hfull⟩ := load_lines_accepted env s header records hacc
  obtain ⟨hkeq, huniq⟩ := hfull hok
  subst hkeq
  rw [List.take_length] at hstate hchk
  refine ⟨hacc, hstate, ?_, huniq⟩
  intro row hrow
  obtain ⟨l, hl, rfl⟩ := List.mem_map.mp hrow
  exact hchk l hl

theorem isEmpty_eq_decide (a : String) : a.isEmpty = decide (a = "") := by
  by_cases h : a = ""
  · subst h
    decide
  · have hf : a.isEmpty = false := by
      cases he : a.isEmpty
      · rfl
      · exact absurd ((String.isEmpty_iff _).mp he) h
    simp [hf, h]

theorem get_alias_of_check_index_false (s : SampleSheet) (fc pos exp bc : String)
    (h : s.check_index fc pos = false) : s.get_alias fc pos exp bc = some "" := by
  unfold SampleSheet.get_alias
  split
  · rfl
  · simp [h]

/-- C11: on a sheet loaded without `skip_index_matching`, `get_alias` returns the empty
string whenever a non-empty position_id is supplied and the header has no position_id
column, whenever a non-empty flow_cell_id is supplied and the header has no flow_cell_id
column, and whenever the header has one of these columns and the argument for it is empty;
so it returns the empty string for every query with both arguments empty. -/
theorem get_alias_index_mismatch (env : Env) (s0 : SampleSheet) (fs : IStream)
    (flow_cell_id position_id experiment_id barcode : String)
    (hskip : s0.m_skip_index_matching = false) (hok : (s0.load env fs).1 = .ok ()) :
    (position_id ≠ "" → "position_id" ∉ header_columns env fs →
      (s0.load env fs).2.get_alias flow_cell_id position_id experiment_id barcode = some "") ∧
    (flow_cell_id ≠ "" → "flow_cell_id" ∉ header_columns env fs →
      (s0.load env fs).2.get_alias flow_cell_id position_id experiment_id barcode = some "") ∧
    ("flow_cell_id" ∈ header_columns env fs → flow_cell_id = "" →
      (s0.load env fs).2.get_alias flow_cell_id position_id experiment_id barcode = some "") ∧
    ("position_id" ∈ header_columns env fs → position_id = "" →
      (s0.load env fs).2.get_alias flow_cell_id position_id experiment_id barcode = some "") ∧
    (flow_cell_id = "" → position_id = "" →
      (s0.load env fs).2.get_alias flow_cell_id position_id experiment_id barcode = some "") := by
  obtain ⟨hacc, hstate, _, _⟩ := load_ok_spec env s0 fs hok
  have hcheck : (s0.load env fs).2.check_index flow_cell_id position_id =
      ((decide ("flow_cell_id" ∈ header_columns env fs) == !flow_cell_id.isEmpty) &&
        (decide ("position_id" ∈ header_columns env fs) == !position_id.isEmpty)) := by
    rw [hstate]
    simp [SampleSheet.check_index, hskip]
  have hfcE := isEmpty_eq_decide flow_cell_id
  have hposE := isEmpty_eq_decide position_id
  rw [hfcE, hposE] at hcheck
  have hidx : "flow_cell_id" ∈ header_columns env fs ∨ "position_id" ∈ header_columns env fs :=
    hacc.2.1
  refine ⟨?_, ?_, ?_, ?_, ?_⟩
  · intro h1 h2
    apply get_alias_of_check_index_false
    rw [hcheck]; simp [h1, h2]
  · intro h1 h2
    apply get_alias_of_check_index_false
    rw [hcheck]; simp [h1, h2]
  · intro h1 h2
    apply get_alias_of_check_index_false
    rw [hcheck]; simp [h1, h2]
  · intro h1 h2
    apply get_alias_of_check_index_false
    rw [hcheck]; simp [h1, h2]
  · intro h1 h2
    apply get_alias_of_check_index_false
    rw [hcheck]
    rcases hidx with h | h <;> simp [h1, h2, h]

/-- C12: a sheet that loaded successfully from a header without barcode column has type
`none`, and `get_alias` returns the empty string on it, without failing, for every
flow_cell_id, position_id, experiment_id and barcode. -/
theorem get_alias_without_barcode_column (env : Env) (s0 : SampleSheet) (fs : IStream)
    (hok : (s0.load env fs).1 = .ok ()) (hno : "barcode" ∉ header_columns env fs) :
    (s0.load env fs).2.get_type = .none ∧
    ∀ flow_cell_id position_id experiment_id barcode : String,
      (s0.load env fs).2.get_alias flow_cell_id position_id experiment_id barcode = some "" := by
  obtain ⟨_, hstate, _, _⟩ := load_ok_spec env s0 fs hok
  have htype : (s0.load env fs).2.m_type = .none := by
    rw [hstate]
    simp [hno]
  refine ⟨htype, ?_⟩
  intro fc pos exp bc
  simp [SampleSheet.get_alias, htype]

set_option maxRecDepth 100000 in
/-- Witness for C11: the sheet of the cross-platform test has a flow_cell_id column and no
position_id column; asking with a position_id, or with neither identifier, gives no alias. -/
theorem get_alias_index_mismatch_witness :
    ((SampleSheet.fresh false).load example_env (IStream.of (test_text "\n"))).2.get_alias
        "FA026858" "pos_id" "sequencing_20200522" "BC01" = some "" ∧
    ((SampleSheet.fresh false).load example_env (IStream.of (test_text "\n"))).2.get_alias
        "" "" "sequencing_20200522" "BC01" = some "" :=
  ⟨(get_alias_index_mismatch example_env (.fresh false) (IStream.of (test_text "\n"))
      "FA026858" "pos_id" "sequencing_20200522" "BC01" rfl (by decide)).1 (by decide) (by decide),
    (get_alias_index_mismatch example_env (.fresh false) (IStream.of (test_text "\n"))
      "" "" "sequencing_20200522" "BC01" rfl (by decide)).2.2.2.2 rfl rfl⟩

/-- Witness for C12: a sheet with the header `flow_cell_id,kit,experiment_id`. -/
theorem get_alias_without_barcode_column_witness :
    ((SampleSheet.fresh false).load example_env (IStream.of no_barcode_text)).2.get_type = .none ∧
    ((SampleSheet.fresh false).load example_env (IStream.of no_barcode_text)).2.get_alias
      "FA026858" "pos_id" "sequencing_20200522" "BC10" = some "" :=
  ⟨(get_alias_without_barcode_column example_env (.fresh false) (IStream.of no_barcode_text)
      (by decide) (by decide)).1,
    (get_alias_without_barcode_column example_env (.fresh false) (IStream.of no_barcode_text)
      (by decide) (by decide)).2 _ _ _ _⟩

/-- C18: header validation accepts the column names of a header line exactly when every
name is one of the ten allowed names, flow_cell_id or position_id is present, experiment_id
is present, kit is present, and barcode is present if and only if alias is; on acceptance
the type is `barcode` exactly when a barcode column is present and the two index flags say
which of flow_cell_id and position_id are present; and `load` fails whenever the column
names of the header line are not acceptable, with the failure of header validation when a
header line was read. -/
theorem header_validation_accepts_exactly (env : Env) (s : SampleSheet)
    (col_names : List String) (fs : IStream) :
    ((s.validate_headers col_names).1 = .ok () ↔ header_acceptable col_names) ∧
    ((s.validate_headers col_names).1 = .ok () →
      ((s.validate_headers col_names).2.m_type = .barcode ↔ "barcode" ∈ col_names) ∧
      ((s.validate_headers col_names).2.m_index.FLOW_CELL_ID = true ↔
        "flow_cell_id" ∈ col_names) ∧
      ((s.validate_headers col_names).2.m_index.POSITION_ID = true ↔
        "position_id" ∈ col_names)) ∧
    (¬ header_acceptable (header_columns env fs) → ∃ e, (s.load env fs).1 = .error e) ∧
    (fs.fail = false → all_lines fs ≠ [] → ¬ header_acceptable (header_columns env fs) →
      s.load env fs = s.validate_headers (header_columns env fs)) ∧
    ((s.load env fs).1 = .ok () →
      ((s.load env fs).2.m_type = .barcode ↔ "barcode" ∈ header_columns env fs) ∧
      ((s.load env fs).2.m_index.FLOW_CELL_ID = true ↔ "flow_cell_id" ∈ header_columns env fs) ∧
      ((s.load env fs).2.m_index.POSITION_ID = true ↔
        "position_id" ∈ header_columns env fs)) := by
  refine ⟨(validate_headers_result s col_names).1, ?_, ?_, ?_, ?_⟩
  · intro hok
    have hacc := (validate_headers_result s col_names).1.mp hok
    rw [(validate_headers_result s col_names).2 hacc]
    refine ⟨?_, by simp, by simp⟩
    by_cases hb : "barcode" ∈ col_names <;> simp [hb]
  · intro hna
    cases h : (s.load env fs).1 with
    | error e => exact ⟨e, rfl⟩
    | ok u => exact absurd (load_ok_spec env s fs h).1 hna
  · intro hf hne hna
    cases hl : all_lines fs with
    | nil => exact absurd hl hne
    | cons header records =>
      have hc : header_columns env fs = row_of_line env header := by simp [header_columns, hl]
      rw [hc] at hna ⊢
      rw [load_eq_load_lines env s fs hf, hl]
      exact (load_lines_rejected env s header records hna).1
  · intro hok
    obtain ⟨_, hstate, _, _⟩ := load_ok_spec env s fs hok
    rw [hstate]
    refine ⟨?_, by simp, by simp⟩
    by_cases hb : "barcode" ∈ header_columns env fs <;> simp [hb]

/-- Witness for C18: the header of the cross-platform test is accepted, and a header with
an alias column but no barcode column is not. -/
theorem header_validation_accepts_exactly_witness :
    ((SampleSheet.fresh false).validate_headers
      ["flow_cell_id", "kit", "sample_id", "experiment_id", "barcode", "alias", "type"]).1 =
      .ok () ∧
    ((SampleSheet.fresh false).validate_headers
      ["flow_cell_id", "kit", "experiment_id", "alias"]).1 ≠ .ok () :=
  ⟨(header_validation_accepts_exactly example_env (.fresh false)
      ["flow_cell_id", "kit", "sample_id", "experiment_id", "barcode", "alias", "type"]
      (IStream.of [])).1.mpr (by decide),
    fun h => absurd ((header_validation_accepts_exactly example_env (.fresh false)
      ["flow_cell_id", "kit", "experiment_id", "alias"] (IStream.of [])).1.mp h) (by decide)⟩

/-! ## Free text -/

/-- C20, the loader at the failing input: the header `experiment_id,flow_cell_id,kit`
followed by the records `,f,k` and `X,f,k`. The load succeeds and stores both rows, whose
experiment_id fields, the empty string and `X`, differ. -/
theorem load_accepts_two_experiment_ids :
    ((SampleSheet.fresh false).load example_env (IStream.of two_experiments_text)).1 = .ok () ∧
    ((SampleSheet.fresh false).load example_env (IStream.of two_experiments_text)).2.m_rows =
      [["", "f", "k"], ["X", "f", "k"]] ∧
    ((SampleSheet.fresh false).load example_env (IStream.of two_experiments_text)).2.get
      ["", "f", "k"] "experiment_id" = some "" ∧
    ((SampleSheet.fresh false).load example_env (IStream.of two_experiments_text)).2.get
      ["X", "f", "k"] "experiment_id" = some "X" := by
  decide

/-! ## Barcodes -/

theorem collect_column_spec (col : Nat) (rows : List (List String)) :
    ∀ (acc S : Finset String), SampleSheet.collect_column col rows acc = .ok S →
      (∀ row ∈ rows, ∃ v, row[col]? = some v) ∧
      S = acc ∪ (rows.filterMap fun row => row[col]?).toFinset := by
  induction rows with
  | nil =>
    intro acc S h
    simp only [SampleSheet.collect_column, Except.ok.injEq] at h
    simp [h]
  | cons row rest ih =>
    intro acc S h
    cases hr : row[col]? with
    | none => simp [SampleSheet.collect_column, hr] at h
    | some v =>
      simp only [SampleSheet.collect_column, hr] at h
      obtain ⟨h1, h2⟩ := ih _ _ h
      refine ⟨?_, ?_⟩
      · intro r hrmem
        rcases List.mem_cons.mp hrmem with rfl | hm
        · exact ⟨v, hr⟩
        · exact h1 r hm
      · rw [h2]
        simp only [List.filterMap_cons, hr, List.toFinset_cons]
        ext x
        simp only [Finset.mem_union, Finset.mem_insert]
        tauto

theorem collect_column_total (col : Nat) (rows : List (List String))
    (h : ∀ row ∈ rows, ∃ v, row[col]? = some v) :
    ∀ acc : Finset String, SampleSheet.collect_column col rows acc =
      .ok (acc ∪ (rows.filterMap fun row => row[col]?).toFinset) := by
  induction rows with
  | nil => intro acc; simp [SampleSheet.collect_column]
  | cons row rest ih =>
    intro acc
    obtain ⟨v, hv⟩ := h row (List.mem_cons_self _ _)
    simp only [SampleSheet.collect_column, hv]
    rw [ih (fun r hr => h r (List.mem_cons_of_mem _ hr))]
    simp only [List.filterMap_cons, hv, List.toFinset_cons]
    congr 1
    ext x
    simp only [Finset.mem_union, Finset.mem_insert]
    tauto

theorem filterMap_column_eq_map (s : SampleSheet) (col : Nat) (key : String)
    (hcol : s.m_col_indices.lookup key = some col) (rows : List (List String))
    (h : ∀ row ∈ rows, ∃ v, row[col]? = some v) :
    (rows.filterMap fun row => row[col]?) = rows.map fun row => s.field row key := by
  induction rows with
  | nil => rfl
  | cons row rest ih =>
    obtain ⟨v, hv⟩ := h row (List.mem_cons_self _ _)
    simp only [List.filterMap_cons, hv, List.map_cons]
    rw [ih (fun r hr => h r (List.mem_cons_of_mem _ hr))]
    simp [SampleSheet.field, SampleSheet.get, hcol, hv]

theorem nodup_of_card_toFinset (l : List String) (h : l.toFinset.card = l.length) : l.Nodup := by
  rw [List.card_toFinset] at h
  have hsub : List.Sublist l.dedup l := List.dedup_sublist l
  have heq : l.dedup = l := hsub.eq_of_length h
  rw [← heq]
  exact List.nodup_dedup l

theorem is_barcode_mapping_unique_true (s : SampleSheet)
    (h : s.is_barcode_mapping_unique = .ok true) :
    ∃ col, s.m_col_indices.lookup "barcode" = some col ∧
      (∀ row ∈ s.m_rows, ∃ v, row[col]? = some v) ∧
      (s.m_rows.map fun row => s.field row "barcode").Nodup := by
  unfold SampleSheet.is_barcode_mapping_unique at h
  split at h
  · cases h
  · cases h
  · split at h
    · cases h
    · cases h
    · cases hl : s.m_col_indices.lookup "barcode" with
      | none => simp [hl] at h
      | some col =>
        simp only [hl] at h
        cases hc : SampleSheet.collect_column col s.m_rows ∅ with
        | error e => simp [hc] at h
        | ok S =>
          simp only [hc, Except.ok.injEq, decide_eq_true_eq] at h
          obtain ⟨hall, hS⟩ := collect_column_spec col s.m_rows ∅ S hc
          refine ⟨col, rfl, hall, ?_⟩
          have hmap := filterMap_column_eq_map s col "barcode" hl s.m_rows hall
          rw [hS, Finset.empty_union, hmap] at h
          apply nodup_of_card_toFinset
          rw [h, List.length_map]

theorem get_alias_from_skip (s : SampleSheet) (f p e b : String)
    (hskip : s.m_skip_index_matching = true) :
    ∀ rows : List (List String),
      (∀ row ∈ rows, (s.get row "barcode").isSome = true ∧ (s.get row "alias").isSome = true) →
      s.get_alias_from f p e b rows =
        some (match rows.find? (fun row => decide (s.field row "barcode" = b)) with
          | some row => s.field row "alias"
          | none => "") := by
  intro rows
  induction rows with
  | nil => intro _; rfl
  | cons row rest ih =>
    intro h
    have ih' := ih (fun r hr => h r (List.mem_cons_of_mem _ hr))
    obtain ⟨hb, ha⟩ := h row (List.mem_cons_self _ _)
    obtain ⟨vb, hvb⟩ := Option.isSome_iff_exists.mp hb
    obtain ⟨va, hva⟩ := Option.isSome_iff_exists.mp ha
    simp only [SampleSheet.get_alias_from, SampleSheet.match_index, hskip, if_true, hvb, hva,
      List.find?_cons, SampleSheet.field, Option.getD_some, ih']
    by_cases hvbb : vb = b <;> simp [hvbb, hva]

theorem lookup_fresh_columns (cols : List String) (key : String) (col : Nat)
    (h : (assign_columns [] cols 0).lookup key = some col) : key ∈ cols ∧ col < cols.length := by
  by_cases hk : key ∈ cols
  · obtain ⟨c, hc, _, hlt⟩ := (lookup_assign_columns cols [] 0 key).1 hk
    rw [hc] at h
    cases h
    exact ⟨hk, by omega⟩
  · rw [(lookup_assign_columns cols [] 0 key).2 hk] at h
    simp at h

theorem row_checked_alias_read (env : Env) (m : List (String × Nat)) (row : List String)
    (h : row_checked env m row) (s : SampleSheet) (hm : s.m_col_indices = m) :
    (s.get row "alias").isSome = true := by
  unfold SampleSheet.get
  rw [hm]
  cases hl : m.lookup "alias" with
  | none => rfl
  | some col =>
    obtain ⟨v, hv, _⟩ := h.2.2.2.2.1 col hl
    simp [hv]

/-- C13: a sheet constructed with `skip_index_matching` that loaded successfully is a
barcode sheet with pairwise different barcodes, and on it `get_alias` does not depend on
flow_cell_id, position_id or experiment_id: for every barcode it returns, whatever the
other three arguments, the alias of the row with that barcode, or the empty string when no
row has it. -/
theorem get_alias_skip_index_matching (env : Env) (fs : IStream)
    (hok : ((SampleSheet.fresh true).load env fs).1 = .ok ()) :
    ((SampleSheet.fresh true).load env fs).2.get_type = .barcode ∧
    (∀ b f1 p1 e1 f2 p2 e2 : String,
      ((SampleSheet.fresh true).load env fs).2.get_alias f1 p1 e1 b =
        ((SampleSheet.fresh true).load env fs).2.get_alias f2 p2 e2 b) ∧
    (∀ b f p e : String,
      ((SampleSheet.fresh true).load env fs).2.get_alias f p e b =
        some (((SampleSheet.fresh true).load env fs).2.alias_of_barcode b)) ∧
    (((SampleSheet.fresh true).load env fs).2.m_rows.map fun row =>
      ((SampleSheet.fresh true).load env fs).2.field row "barcode").Nodup := by
  obtain ⟨hacc, hstate, hchk, huniq⟩ := load_ok_spec env (.fresh true) fs hok
  obtain ⟨col, hcol, hall, hnodup⟩ := is_barcode_mapping_unique_true _ (huniq rfl)
  generalize hs : ((SampleSheet.fresh true).load env fs).2 = s at *
  have hm : s.m_col_indices = assign_columns [] (header_columns env fs) 0 := by rw [hstate]; rfl
  have hrows : s.m_rows = data_rows env fs := by rw [hstate]; rfl
  have hskip : s.m_skip_index_matching = true := by rw [hstate]; rfl
  have hbc : "barcode" ∈ header_columns env fs := by
    rw [hm] at hcol
    exact (lookup_fresh_columns _ _ _ hcol).1
  have htype : s.m_type = .barcode := by rw [hstate]; simp [hbc]
  have hreads : ∀ row ∈ s.m_rows,
      (s.get row "barcode").isSome = true ∧ (s.get row "alias").isSome = true := by
    intro row hrow
    constructor
    · obtain ⟨v, hv⟩ := hall row hrow
      simp [SampleSheet.get, hcol, hv]
    · rw [hrows] at hrow
      exact row_checked_alias_read env _ row (hchk row hrow) s hm
  have hval : ∀ b f p e : String, s.get_alias f p e b = some (s.alias_of_barcode b) := by
    intro b f p e
    unfold SampleSheet.get_alias SampleSheet.alias_of_barcode
    rw [if_neg (by simp [htype])]
    have hci : s.check_index f p = true := by simp [SampleSheet.check_index, hskip]
    rw [hci]
    exact get_alias_from_skip s f p e b hskip s.m_rows hreads
  refine ⟨htype, ?_, hval, hnodup⟩
  intro b f1 p1 e1 f2 p2 e2
  rw [hval, hval]

/-- Witness for C13: on the sheet of the barcode values test, loaded with
`skip_index_matching`, the alias of `BC01` is `patient_1` whatever the other arguments. -/
theorem get_alias_skip_index_matching_witness :
    ((SampleSheet.fresh true).load example_env (IStream.of barcode_values_text)).1 = .ok () ∧
    ((SampleSheet.fresh true).load example_env (IStream.of barcode_values_text)).2.get_alias
        "" "" "" "BC01" =
      ((SampleSheet.fresh true).load example_env (IStream.of barcode_values_text)).2.get_alias
        "id" "pos" "expr" "BC01" ∧
    ((SampleSheet.fresh true).load example_env (IStream.of barcode_values_text)).2.get_alias
        "" "" "" "BC01" = some "patient_1" :=
  ⟨by decide,
    (get_alias_skip_index_matching example_env (IStream.of barcode_values_text)
      (by decide)).2.1 _ _ _ _ _ _ _,
    by decide⟩

/-! ## The barcode values -/

/-- The barcode values of a sheet loaded from a file whose header names are pairwise
different: for a barcode sheet `get_barcode_values` returns a present value, the set of the
barcode entries of the stored rows (every row's barcode is a member, every member is the
barcode of a row, and its size is the number of rows when the barcodes of the rows are
pairwise different); for a sheet of type none it returns no value. -/
theorem get_barcode_values_distinct_header (env : Env) (skip : Bool) (fs : IStream)
    (hok : ((SampleSheet.fresh skip).load env fs).1 = .ok ())
    (hnodup : (header_columns env fs).Nodup) :
    (((SampleSheet.fresh skip).load env fs).2.get_type = .barcode →
      ∃ values : Finset String,
        ((SampleSheet.fresh skip).load env fs).2.get_barcode_values = .ok (some values) ∧
        (∀ row ∈ ((SampleSheet.fresh skip).load env fs).2.m_rows,
          ∃ v, ((SampleSheet.fresh skip).load env fs).2.get row "barcode" = some v ∧
            v ∈ values) ∧
        (∀ v ∈ values, ∃ row ∈ ((SampleSheet.fresh skip).load env fs).2.m_rows,
          ((SampleSheet.fresh skip).load env fs).2.get row "barcode" = some v) ∧
        ((((SampleSheet.fresh skip).load env fs).2.m_rows.map fun row =>
            ((SampleSheet.fresh skip).load env fs).2.field row "barcode").Nodup →
          values.card = ((SampleSheet.fresh skip).load env fs).2.m_rows.length)) ∧
    (((SampleSheet.fresh skip).load env fs).2.get_type = .none →
      ((SampleSheet.fresh skip).load env fs).2.get_barcode_values = .ok none) := by
  obtain ⟨hacc, hstate, hchk, -⟩ := load_ok_spec env (.fresh skip) fs hok
  generalize hs : ((SampleSheet.fresh skip).load env fs).2 = s at *
  have hm : s.m_col_indices = assign_columns [] (header_columns env fs) 0 := by rw [hstate]; rfl
  have hrows : s.m_rows = data_rows env fs := by rw [hstate]; rfl
  have htype : s.m_type =
      if "barcode" ∈ header_columns env fs then SheetType.barcode else SheetType.none := by
    rw [hstate]
  constructor
  · intro hb
    have hbc : "barcode" ∈ header_columns env fs := by
      by_contra hn
      rw [SampleSheet.get_type, htype, if_neg hn] at hb
      cases hb
    obtain ⟨col, hcol, -, hlt⟩ := (lookup_assign_columns (header_columns env fs) [] 0 "barcode").1 hbc
    rw [← hm] at hcol
    have hlen : s.m_col_indices.length = (header_columns env fs).length := by
      rw [hm, length_assign_columns _ [] 0 hnodup (fun _ _ => rfl)]
      simp
    have hall : ∀ row ∈ s.m_rows, ∃ v, row[col]? = some v := by
      intro row hrow
      rw [hrows] at hrow
      have hw : row.length = (assign_columns [] (header_columns env fs) 0).length :=
        (hchk row hrow).1
      rw [← hm, hlen] at hw
      have hin : col < row.length := by omega
      exact ⟨row[col], List.getElem?_eq_getElem hin⟩
    have hmap := filterMap_column_eq_map s col "barcode" hcol s.m_rows hall
    have hval : s.get_barcode_values =
        .ok (some (s.m_rows.map fun row => s.field row "barcode").toFinset) := by
      have htb : s.m_type = .barcode := hb
      simp only [SampleSheet.get_barcode_values, htb, hcol,
        collect_column_total col s.m_rows hall ∅, hmap, Finset.empty_union]
    have hget : ∀ row ∈ s.m_rows, s.get row "barcode" = some (s.field row "barcode") := by
      intro row hrow
      obtain ⟨v, hv⟩ := hall row hrow
      simp [SampleSheet.field, SampleSheet.get, hcol, hv]
    refine ⟨_, hval, ?_, ?_, ?_⟩
    · intro row hrow
      exact ⟨_, hget row hrow, by
        rw [List.mem_toFinset]
        exact List.mem_map_of_mem _ hrow⟩
    · intro v hv
      rw [List.mem_toFinset, List.mem_map] at hv
      obtain ⟨row, hrow, rfl⟩ := hv
      exact ⟨row, hrow, hget row hrow⟩
    · intro hnd
      rw [List.toFinset_card_of_nodup hnd, List.length_map]
  · intro hn
    have htn : s.m_type = .none := hn
    simp only [SampleSheet.get_barcode_values, htn]

/-- Witness for the barcode values on the sheet of the barcode values test with two
records: the set returned has two members. -/
theorem get_barcode_values_distinct_header_witness :
    ((SampleSheet.fresh false).load example_env (IStream.of barcode_values_text)).1 = .ok () ∧
    (header_columns example_env (IStream.of barcode_values_text)).Nodup ∧
    ∃ values : Finset String,
      ((SampleSheet.fresh false).load example_env
        (IStream.of barcode_values_text)).2.get_barcode_values = .ok (some values) ∧
      values.card = 2 :=
  ⟨by decide, by decide,
    match (get_barcode_values_distinct_header example_env false (IStream.of barcode_values_text)
      (by decide) (by decide)).1 (by decide) with
    | ⟨values, hv, _, _, hcard⟩ => ⟨values, hv, (hcard (by decide)).trans (by decide)⟩⟩

theorem takeWhile_ne_append (delim : Char) (line rest : List Char) (h : delim ∉ line) :
    (line ++ rest).takeWhile (fun c => c != delim) =
      line ++ rest.takeWhile (fun c => c != delim) := by
  induction line with
  | nil => rfl
  | cons c line ih =>
    have hc : (c != delim) = true := by
      simp only [bne_iff_ne, ne_eq]
      intro hcd
      exact h (by rw [hcd]; exact List.mem_cons_self _ _)
    have ih' := ih (fun hm => h (List.mem_cons_of_mem _ hm))
    simp only [List.cons_append, List.takeWhile_cons, hc, if_true, ih']

theorem sheet_text_head (fmt : EolFileFormat) (lines : List (List Char))
    (hclean : ∀ l ∈ lines, line_clean l) : (sheet_text fmt lines).head? ≠ some '\n' ∨
      fmt = .linux_eol := by
  cases lines with
  | nil => left; simp [sheet_text]
  | cons line rest =>
    cases line with
    | nil =>
      cases fmt
      · right; rfl
      · left; simp [sheet_text, eol_terminator]
      · left; simp [sheet_text, eol_terminator]
    | cons c line =>
      left
      have hc := (hclean (c :: line) (List.mem_cons_self _ _)).2
      simp only [sheet_text, List.cons_append, List.head?_cons, ne_eq, Option.some.injEq]
      intro hcn
      exact hc (by rw [hcn]; exact List.mem_cons_self _ _)

theorem eol_of_text_append (fmt : EolFileFormat) (line rest : List Char)
    (hclean : line_clean line) (hrest : rest.head? ≠ some '\n' ∨ fmt = .linux_eol) :
    eol_of_text (line ++ eol_terminator fmt ++ rest) = fmt := by
  induction line with
  | nil =>
    cases fmt
    · simp [eol_of_text, eol_terminator]
    · simp [eol_of_text, eol_terminator]
    · rcases hrest with hrest | hrest
      · simp [eol_of_text, eol_terminator, hrest]
      · cases hrest
  | cons c line ih =>
    have hr : c ≠ '\r' := fun h => hclean.1 (by rw [h]; exact List.mem_cons_self _ _)
    have hn : c ≠ '\n' := fun h => hclean.2 (by rw [h]; exact List.mem_cons_self _ _)
    have ih' := ih ⟨fun hm => hclean.1 (List.mem_cons_of_mem _ hm),
      fun hm => hclean.2 (List.mem_cons_of_mem _ hm)⟩
    simp only [List.cons_append, eol_of_text, hr, hn, if_false]
    simpa using ih'

theorem getline_up_to_delim (content : List Char) (pos : Nat) (delim : Char)
    (target rest : List Char) (hclean : delim ∉ target)
    (hdrop : content.drop pos = target ++ delim :: rest) :
    IStream.getline ⟨content, pos, false, false⟩ delim =
      (target, ⟨content, pos + target.length + 1, false, false⟩) := by
  have ht : (target ++ delim :: rest).takeWhile (fun c => c != delim) = target := by
    rw [takeWhile_ne_append _ _ _ hclean]
    simp
  have hlt : target.length < (target ++ delim :: rest).length := by
    simp only [List.length_append, List.length_cons]
    omega
  unfold IStream.getline
  simp only [IStream.good, Bool.not_false, Bool.and_self, if_true, hdrop, ht, hlt]

theorem get_line_sheet_text (fmt : EolFileFormat) (content : List Char) (pos : Nat)
    (line rest : List Char) (hclean : line_clean line)
    (hdrop : content.drop pos = line ++ eol_terminator fmt ++ rest) :
    get_line ⟨content, pos, false, false⟩ fmt =
      (some line, ⟨content, pos + (line ++ eol_terminator fmt).length, false, false⟩) := by
  cases fmt
  · have hg := getline_up_to_delim content pos '\n' line rest hclean.2
      (by rw [hdrop]; simp [eol_terminator])
    have hpos : pos + (line ++ eol_terminator .linux_eol).length = pos + line.length + 1 := by
      simp [eol_terminator]; omega
    rw [hpos]
    simp [get_line, hg, IStream.fail]
  · have hcl : '\n' ∉ line ++ ['\r'] := by
      simp only [List.mem_append, List.mem_singleton, not_or]
      exact ⟨hclean.2, by decide⟩
    have hg := getline_up_to_delim content pos '\n' (line ++ ['\r']) rest hcl
      (by rw [hdrop]; simp [eol_terminator])
    have hpos : pos + (line ++ eol_terminator .windows_eol).length =
        pos + (line ++ ['\r']).length + 1 := by
      simp [eol_terminator]; omega
    rw [hpos]
    simp [get_line, hg, IStream.fail]
  · have hg := getline_up_to_delim content pos '\r' line rest hclean.1
      (by rw [hdrop]; simp [eol_terminator])
    have hpos : pos + (line ++ eol_terminator .osx_eol).length = pos + line.length + 1 := by
      simp [eol_terminator]; omega
    rw [hpos]
    simp [get_line, hg, IStream.fail]

theorem get_line_at_end (fmt : EolFileFormat) (content : List Char) (pos : Nat)
    (hdrop : content.drop pos = []) :
    (get_line ⟨content, pos, false, false⟩ fmt).1 = none := by
  simp [get_line, IStream.getline, IStream.good, IStream.fail, hdrop]

theorem read_lines_sheet_text (fmt : EolFileFormat) (content : List Char) :
    ∀ (lines : List (List Char)) (fuel pos : Nat), lines.length < fuel →
      (∀ l ∈ lines, line_clean l) → content.drop pos = sheet_text fmt lines →
      read_lines fmt fuel ⟨content, pos, false, false⟩ = lines := by
  intro lines
  induction lines with
  | nil =>
    intro fuel pos hf _ hdrop
    cases fuel with
    | zero => simp at hf
    | succ fuel =>
      simp only [read_lines, get_line_at_end fmt content pos hdrop]
  | cons line rest ih =>
    intro fuel pos hf hclean hdrop
    cases fuel with
    | zero => simp at hf
    | succ fuel =>
      have hl := get_line_sheet_text fmt content pos line (sheet_text fmt rest)
        (hclean line (List.mem_cons_self _ _)) hdrop
      have hnext : content.drop (pos + (line ++ eol_terminator fmt).length) =
          sheet_text fmt rest := by
        rw [← List.drop_drop, hdrop]
        simp [sheet_text]
      simp only [read_lines, hl]
      rw [ih fuel _ (by simpa using hf) (fun l hm => hclean l (List.mem_cons_of_mem _ hm)) hnext]

theorem length_le_sheet_text (fmt : EolFileFormat) (lines : List (List Char)) :
    lines.length ≤ (sheet_text fmt lines).length := by
  induction lines with
  | nil => simp
  | cons line rest ih =>
    have ht : 1 ≤ (eol_terminator fmt).length := by cases fmt <;> simp [eol_terminator]
    simp only [sheet_text, List.length_append, List.length_cons]
    omega

theorem all_lines_sheet_text (fmt : EolFileFormat) (header : List Char)
    (records : List (List Char)) (hclean : ∀ line ∈ header :: records, line_clean line) :
    all_lines (IStream.of (sheet_text fmt (header :: records))) = header :: records := by
  have hh := hclean header (List.mem_cons_self _ _)
  have hr : ∀ line ∈ records, line_clean line := fun l hm => hclean l (List.mem_cons_of_mem _ hm)
  have hfmt : eol_of_text (sheet_text fmt (header :: records)) = fmt :=
    eol_of_text_append fmt header (sheet_text fmt records) hh (sheet_text_head fmt records hr)
  have hl := get_line_sheet_text fmt (sheet_text fmt (header :: records)) 0 header
    (sheet_text fmt records) hh rfl
  have hnext : (sheet_text fmt (header :: records)).drop (0 + (header ++ eol_terminator fmt).length) =
      sheet_text fmt records := by
    simp [sheet_text]
  have hfuel : records.length < (sheet_text fmt (header :: records)).length + 1 := by
    have h1 := length_le_sheet_text fmt (header :: records)
    simp only [List.length_cons] at h1
    omega
  have hrl := read_lines_sheet_text fmt (sheet_text fmt (header :: records)) records _ _ hfuel hr hnext
  unfold all_lines
  rw [get_eol_file_format_spec _ rfl]
  simp only [IStream.of, hfmt, hl, hrl]

/-- C15: for a header line and record lines that hold no `'\r'` and no `'\n'`, the lines
the loader reads from the text in which each line is followed by `"\n"`, by `"\r\n"` or by
`"\r"` are the given lines themselves (no line keeps a `'\r'`), so that loading the three
texts into a sheet has the same outcome, failure or success, and leaves the same sheet:
the same type, column indices and rows, hence the same `get_alias` results. -/
theorem load_independent_of_line_ending (env : Env) (s : SampleSheet) (header : List Char)
    (records : List (List Char)) (hclean : ∀ line ∈ header :: records, line_clean line) :
    (∀ fmt, all_lines (IStream.of (sheet_text fmt (header :: records))) = header :: records) ∧
    (∀ fmt1 fmt2,
      s.load env (IStream.of (sheet_text fmt1 (header :: records))) =
        s.load env (IStream.of (sheet_text fmt2 (header :: records)))) ∧
    (∀ fmt1 fmt2 f p e b,
      (s.load env (IStream.of (sheet_text fmt1 (header :: records)))).2.get_alias f p e b =
        (s.load env (IStream.of (sheet_text fmt2 (header :: records)))).2.get_alias f p e b) := by
  have hload : ∀ fmt, s.load env (IStream.of (sheet_text fmt (header :: records))) =
      s.load_lines env (header :: records) := by
    intro fmt
    rw [load_eq_load_lines env s (IStream.of (sheet_text fmt (header :: records))) rfl,
      all_lines_sheet_text fmt header records hclean]
  refine ⟨fun fmt => all_lines_sheet_text fmt header records hclean, ?_, ?_⟩
  · intro fmt1 fmt2
    rw [hload fmt1, hload fmt2]
  · intro fmt1 fmt2 f p e b
    rw [hload fmt1, hload fmt2]

set_option maxRecDepth 100000 in
/-- Witness for C15: the header line and the record line of the cross-platform test, whose
three texts are the ones the test builds; the windows and the osx text load as the linux
text does. -/
theorem load_independent_of_line_ending_witness :
    (∀ line ∈ [test_header_line, test_record_line], line_clean line) ∧
    sheet_text .linux_eol [test_header_line, test_record_line] = test_text "\n" ∧
    sheet_text .windows_eol [test_header_line, test_record_line] = test_text "\r\n" ∧
    sheet_text .osx_eol [test_header_line, test_record_line] = test_text "\r" ∧
    (SampleSheet.fresh false).load example_env
        (IStream.of (sheet_text .windows_eol [test_header_line, test_record_line])) =
      (SampleSheet.fresh false).load example_env
        (IStream.of (sheet_text .linux_eol [test_header_line, test_record_line])) ∧
    (SampleSheet.fresh false).load example_env
        (IStream.of (sheet_text .osx_eol [test_header_line, test_record_line])) =
      (SampleSheet.fresh false).load example_env
        (IStream.of (sheet_text .linux_eol [test_header_line, test_record_line])) :=
  ⟨by decide, by decide, by decide, by decide,
    (load_independent_of_line_ending example_env (.fresh false) test_header_line
      [test_record_line] (by decide)).2.1 .windows_eol .linux_eol,
    (load_independent_of_line_ending example_env (.fresh false) test_header_line
      [test_record_line] (by decide)).2.1 .osx_eol .linux_eol⟩

/-! ## The attention window mask -/

theorem static_cast_int_of_range (x : Int) (h0 : 0 ≤ x) (h1 : x < 2 ^ 31) :
    static_cast_int x = x := by
  unfold static_cast_int
  omega

theorem flat_index (i j cols : Nat) (hj : j < cols) :
    (i * cols + j) % cols = j ∧ (i * cols + j) / cols = i := by
  have hc : 0 < cols := by omega
  constructor
  · rw [Nat.add_comm, Nat.add_mul_mod_self_right, Nat.mod_eq_of_lt hj]
  · rw [Nat.add_comm, Nat.add_mul_div_right _ _ hc, Nat.div_eq_of_lt hj, Nat.zero_add]

theorem flat_index_lt (i j n : Nat) (hi : i < n) (hj : j < n) : i * n + j < n * n := by
  have h : (i + 1) * n ≤ n * n := Nat.mul_le_mul_right n hi
  rw [Nat.add_mul, Nat.one_mul] at h
  omega

theorem band_data_entry (n : Nat) (upper lower : Int) (i j : Nat) (hi : i < n) (hj : j < n) :
    (to_kBool (mul_ (triu (ones n n) upper) (tril (triu (ones n n) upper) lower))).entry i j =
      some (decide (upper ≤ (j : Int) - (i : Int) ∧ (j : Int) - (i : Int) ≤ lower)) := by
  have hk := flat_index_lt i j n hi hj
  obtain ⟨hmod, hdiv⟩ := flat_index i j n hj
  simp only [BoolTensor.entry, to_kBool, mul_, triu, tril, ones, hi, hj, and_self, if_true,
    List.getElem?_map, List.getElem?_zipWith, List.getElem?_mapIdx, List.getElem?_replicate, hk,
    hmod, hdiv, Option.map_some', Option.map]
  by_cases h1 : upper ≤ (j : Int) - (i : Int) <;> by_cases h2 : (j : Int) - (i : Int) ≤ lower <;>
    simp [h1, h2]

/-- C23: when the divisor `stride * scale_factor` is not 0 and the quotient
`chunksize / (stride * scale_factor)` of the integer division is a non-negative `int`,
`build_attn_window_mask` returns a boolean tensor of shape `size x size`, `size` being that
quotient, whose element `[i][j]` is `true` exactly when `-win_upper ≤ j - i ≤ win_lower`;
its diagonal is all `true` when neither window value is negative, and it is symmetric when
the two window values are equal. -/
theorem build_attn_window_mask_band (config : CRFModelConfig)
    (hdiv : config.stride * config.scale_factor ≠ 0)
    (hlow : 0 ≤ config.chunksize.tdiv (config.stride * config.scale_factor))
    (hhigh : config.chunksize.tdiv (config.stride * config.scale_factor) < 2 ^ 31) :
    ∃ mask, build_attn_window_mask config = .ok mask ∧
      mask.sizes = [mask_size config, mask_size config] ∧
      mask.data.length = mask_size config * mask_size config ∧
      (∀ i j, i < mask_size config → j < mask_size config →
        ∃ b, mask.entry i j = some b ∧
          (b = true ↔ -config.attn_window.1 ≤ (j : Int) - (i : Int) ∧
            (j : Int) - (i : Int) ≤ config.attn_window.2)) ∧
      (0 ≤ config.attn_window.1 → 0 ≤ config.attn_window.2 →
        ∀ i, i < mask_size config → mask.entry i i = some true) ∧
      (config.attn_window.1 = config.attn_window.2 →
        ∀ i j, i < mask_size config → j < mask_size config →
          mask.entry i j = mask.entry j i) := by
  have hcast := static_cast_int_of_range _ hlow hhigh
  have hbuild : build_attn_window_mask config =
      .ok (to_kBool (mul_ (triu (ones (mask_size config) (mask_size config))
          (-config.attn_window.1))
        (tril (triu (ones (mask_size config) (mask_size config)) (-config.attn_window.1))
          config.attn_window.2))) := by
    unfold build_attn_window_mask
    rw [if_neg hdiv]
    simp only [hcast, mask_size]
    rw [if_neg (not_lt.mpr hlow)]
  refine ⟨_, hbuild, ?_, ?_, ?_, ?_, ?_⟩
  · simp [to_kBool, mul_, triu, ones]
  · simp [to_kBool, mul_, triu, tril, ones]
  · intro i j hi hj
    exact ⟨_, band_data_entry _ _ _ i j hi hj, by simp⟩
  · intro hu hl i hi
    rw [band_data_entry _ _ _ i i hi hi]
    simp only [Option.some.injEq, decide_eq_true_eq]
    omega
  · intro heq i j hi hj
    rw [band_data_entry _ _ _ i j hi hj, band_data_entry _ _ _ j i hj hi]
    simp only [Option.some.injEq, decide_eq_decide]
    omega

/-- Witness for C23: chunks of 12 samples at stride 3 give a mask of shape `4 x 4`; with
the window (1, 2) the element `[1][3]` is `true` and the element `[0][3]` is `false`. -/
theorem build_attn_window_mask_band_witness :
    ∃ mask, build_attn_window_mask example_config = .ok mask ∧ mask.sizes = [4, 4] ∧
      mask.entry 1 3 = some true ∧ mask.entry 0 3 = some false ∧ mask.entry 3 3 = some true :=
  match build_attn_window_mask_band example_config (by decide) (by decide) (by decide) with
  | ⟨mask, hmask, hsizes, _, _, _, _⟩ =>
    ⟨mask, hmask, hsizes, by
      have h : build_attn_window_mask example_config = .ok
          ⟨[4, 4], [true, true, true, false, true, true, true, true,
            false, true, true, true, false, false, true, true]⟩ := by decide
      rw [h] at hmask
      cases hmask
      decide⟩

/-! ## The unique barcode mapping -/

theorem column_is_constant_true (col : Nat) (first : String) :
    ∀ rows : List (List String), SampleSheet.column_is_constant col first rows = .ok true →
      ∀ row ∈ rows, row[col]? = some first := by
  intro rows
  induction rows with
  | nil => intro _ row hrow; cases hrow
  | cons r rest ih =>
    intro h row hrow
    unfold SampleSheet.column_is_constant at h
    cases hr : r[col]? with
    | none => simp [hr] at h
    | some value =>
      simp only [hr] at h
      by_cases hv : value ≠ first
      · simp [hv] at h
      · rw [if_neg hv] at h
        have hvf : value = first := not_not.mp hv
        rcases List.mem_cons.mp hrow with rfl | hmem
        · rw [hr, hvf]
        · exact ih h row hmem

theorem index_column_is_constant_true (s : SampleSheet) (key : String)
    (h : s.index_column_is_constant key = .ok true) :
    s.m_rows ≠ [] ∧ ∃ col first, s.m_col_indices.lookup key = some col ∧
      ∀ row ∈ s.m_rows, row[col]? = some first := by
  unfold SampleSheet.index_column_is_constant at h
  cases hl : s.m_col_indices.lookup key with
  | none => simp [hl] at h
  | some col =>
    simp only [hl] at h
    cases hrows : s.m_rows with
    | nil => simp [hrows] at h
    | cons first_row rest =>
      simp only [hrows] at h
      cases hf : first_row[col]? with
      | none => simp [hf] at h
      | some first =>
        simp only [hf] at h
        exact ⟨by simp, col, first, rfl, column_is_constant_true col first _ h⟩

theorem is_barcode_mapping_unique_index (s : SampleSheet)
    (h : s.is_barcode_mapping_unique = .ok true) :
    (s.m_index.FLOW_CELL_ID = true → s.index_column_is_constant "flow_cell_id" = .ok true) ∧
    (s.m_index.POSITION_ID = true → s.index_column_is_constant "position_id" = .ok true) := by
  unfold SampleSheet.is_barcode_mapping_unique at h
  constructor
  · intro hf
    rw [hf] at h
    simp only [if_true] at h
    cases hc : s.index_column_is_constant "flow_cell_id" with
    | error e => simp [hc] at h
    | ok b =>
      cases b with
      | false => simp [hc] at h
      | true => rfl
  · intro hp
    rw [hp] at h
    simp only [if_true] at h
    cases hc : s.index_column_is_constant "position_id" with
    | error e =>
      split at h <;> simp [hc] at h
    | ok b =>
      cases b with
      | false => split at h <;> simp [hc] at h
      | true => rfl

/-- The sheet after a successful load with `skip_index_matching`: it has a row, all its
rows have the same flow_cell_id when the header has that column, all have the same
position_id when the header has that column, and no two rows have the same barcode. -/
theorem load_skip_unique_mapping (env : Env) (s0 : SampleSheet) (fs : IStream)
    (hskip : s0.m_skip_index_matching = true) (hok : (s0.load env fs).1 = .ok ()) :
    (s0.load env fs).2.m_rows ≠ [] ∧
    ("flow_cell_id" ∈ header_columns env fs →
      ∃ v, ∀ row ∈ (s0.load env fs).2.m_rows,
        (s0.load env fs).2.get row "flow_cell_id" = some v) ∧
    ("position_id" ∈ header_columns env fs →
      ∃ v, ∀ row ∈ (s0.load env fs).2.m_rows,
        (s0.load env fs).2.get row "position_id" = some v) ∧
    ((s0.load env fs).2.m_rows.map fun row =>
      (s0.load env fs).2.field row "barcode").Nodup := by
  obtain ⟨hacc, hstate, -, huniq⟩ := load_ok_spec env s0 fs hok
  have hu := huniq hskip
  obtain ⟨-, -, -, hnodup⟩ := is_barcode_mapping_unique_true _ hu
  obtain ⟨hflow, hpos⟩ := is_barcode_mapping_unique_index _ hu
  generalize hs : (s0.load env fs).2 = s at *
  have hF : s.m_index.FLOW_CELL_ID = decide ("flow_cell_id" ∈ header_columns env fs) := by
    rw [hstate]
  have hP : s.m_index.POSITION_ID = decide ("position_id" ∈ header_columns env fs) := by
    rw [hstate]
  have hread : ∀ key, s.index_column_is_constant key = .ok true →
      s.m_rows ≠ [] ∧ ∃ v, ∀ row ∈ s.m_rows, s.get row key = some v := by
    intro key hk
    obtain ⟨hne, col, first, hcol, hall⟩ := index_column_is_constant_true s key hk
    refine ⟨hne, first, ?_⟩
    intro row hrow
    simp [SampleSheet.get, hcol, hall row hrow]
  refine ⟨?_, ?_, ?_, hnodup⟩
  · rcases hacc.2.1 with h | h
    · exact (hread _ (hflow (by rw [hF]; simpa using h))).1
    · exact (hread _ (hpos (by rw [hP]; simpa using h))).1
  · intro h
    exact (hread _ (hflow (by rw [hF]; simpa using h))).2
  · intro h
    exact (hread _ (hpos (by rw [hP]; simpa using h))).2

/-- Witness for the unique barcode mapping on the sheet of the barcode values test. -/
theorem load_skip_unique_mapping_witness :
    ((SampleSheet.fresh true).load example_env (IStream.of barcode_values_text)).2.m_rows ≠ [] :=
  (load_skip_unique_mapping example_env (.fresh true) (IStream.of barcode_values_text) rfl
    (by decide)).1

/-- C22, the code at the failing inputs. A sheet constructed with `skip_index_matching`
loads the text of a valid header line without record: the header is acceptable, no row is
stored, and `is_barcode_mapping_unique` makes the out-of-range access `m_rows.at(0)`,
which throws `std::out_of_range` out of `load`. The same sheet loads the text with the
header `flow_cell_id,kit,experiment_id` and one record: the header is acceptable, the row
is stored, and the access `m_col_indices.at("barcode")` throws `std::out_of_range`. -/
theorem load_skip_out_of_range :
    header_acceptable (header_columns example_env (IStream.of header_only_text)) ∧
    ((SampleSheet.fresh true).load example_env (IStream.of header_only_text)).1 =
      .error .out_of_range ∧
    ((SampleSheet.fresh true).load example_env (IStream.of header_only_text)).2.m_rows = [] ∧
    ((SampleSheet.fresh true).load example_env
      (IStream.of header_only_text)).2.is_barcode_mapping_unique = .error .out_of_range ∧
    header_acceptable (header_columns example_env (IStream.of no_barcode_text)) ∧
    ((SampleSheet.fresh true).load example_env (IStream.of no_barcode_text)).1 =
      .error .out_of_range ∧
    ((SampleSheet.fresh true).load example_env (IStream.of no_barcode_text)).2.m_rows =
      [["FA026858", "SQK-RBK004", "sequencing_20200522"]] ∧
    ((SampleSheet.fresh true).load example_env
      (IStream.of no_barcode_text)).2.is_barcode_mapping_unique = .error .out_of_range := by
  decide

/-! ## The width of the rows -/

/-- The sheet after a successful load from a file whose header names are pairwise
different: every stored row has exactly as many entries as the header line has column
names, and every column of the sheet can be read in every stored row. -/
theorem load_row_width_distinct_header (env : Env) (skip : Bool) (fs : IStream)
    (hok : ((SampleSheet.fresh skip).load env fs).1 = .ok ())
    (hnodup : (header_columns env fs).Nodup) :
    (∀ row ∈ ((SampleSheet.fresh skip).load env fs).2.m_rows,
      row.length = (header_columns env fs).length) ∧
    (∀ key col, ((SampleSheet.fresh skip).load env fs).2.m_col_indices.lookup key = some col →
      ∀ row ∈ ((SampleSheet.fresh skip).load env fs).2.m_rows,
        col < row.length ∧
        ∃ v, ((SampleSheet.fresh skip).load env fs).2.get row key = some v) := by
  obtain ⟨-, hstate, hchk, -⟩ := load_ok_spec env (.fresh skip) fs hok
  generalize hs : ((SampleSheet.fresh skip).load env fs).2 = s at *
  have hm : s.m_col_indices = assign_columns [] (header_columns env fs) 0 := by rw [hstate]; rfl
  have hrows : s.m_rows = data_rows env fs := by rw [hstate]; rfl
  have hlen : (assign_columns [] (header_columns env fs) 0).length =
      (header_columns env fs).length := by
    rw [length_assign_columns _ [] 0 hnodup (fun _ _ => rfl)]
    simp
  have hwidth : ∀ row ∈ s.m_rows, row.length = (header_columns env fs).length := by
    intro row hrow
    rw [hrows] at hrow
    have hw : row.length = (assign_columns [] (header_columns env fs) 0).length :=
      (hchk row hrow).1
    rw [hw, hlen]
  refine ⟨hwidth, ?_⟩
  intro key col hcol row hrow
  have hlt : col < (header_columns env fs).length := by
    rw [hm] at hcol
    exact (lookup_fresh_columns _ _ _ hcol).2
  have hin : col < row.length := by rw [hwidth row hrow]; exact hlt
  refine ⟨hin, row[col], ?_⟩
  simp [SampleSheet.get, hcol, List.getElem?_eq_getElem hin]

/-- Witness for the width of the rows on the sheet of the barcode values test. -/
theorem load_row_width_distinct_header_witness :
    ∀ row ∈ ((SampleSheet.fresh false).load example_env
        (IStream.of barcode_values_text)).2.m_rows,
      row.length = (header_columns example_env (IStream.of barcode_values_text)).length :=
  (load_row_width_distinct_header example_env false (IStream.of barcode_values_text)
    (by decide) (by decide)).1

/-- C21, the code at the failing inputs, both with the header line
`flow_cell_id,kit,kit,experiment_id,alias,barcode` of six names, which is accepted and
gives a column map of five names. The record `FA026858,SQK-RBK004,SQK-RBK004,run1,
patient_1,BC01` of six entries is rejected with the failure of the width check. The record
`FA026858,SQK-RBK004,run1,patient_1,BC01` of five entries is accepted and stored, and the
index 5 of the column `barcode` is past its end. -/
theorem load_repeated_header_row_width :
    header_acceptable (header_columns example_env (IStream.of repeated_header_full_row_text)) ∧
    (header_columns example_env (IStream.of repeated_header_full_row_text)).length = 6 ∧
    (data_rows example_env (IStream.of repeated_header_full_row_text)).map List.length = [6] ∧
    ((SampleSheet.fresh false).load example_env (IStream.of repeated_header_full_row_text)).1 =
      .error .incorrect_number_of_entries ∧
    (header_columns example_env (IStream.of repeated_header_text)).length = 6 ∧
    ((SampleSheet.fresh false).load example_env (IStream.of repeated_header_text)).1 = .ok () ∧
    ((SampleSheet.fresh false).load example_env
      (IStream.of repeated_header_text)).2.m_col_indices.length = 5 ∧
    ((SampleSheet.fresh false).load example_env
      (IStream.of repeated_header_text)).2.m_rows.map List.length = [5] ∧
    ((SampleSheet.fresh false).load example_env
      (IStream.of repeated_header_text)).2.m_col_indices.lookup "barcode" = some 5 ∧
    ((SampleSheet.fresh false).load example_env (IStream.of repeated_header_text)).2.get
      ["FA026858", "SQK-RBK004", "run1", "patient_1", "BC01"] "barcode" = none ∧
    ((SampleSheet.fresh false).load example_env (IStream.of repeated_header_text)).2.get_alias
      "FA026858" "" "patient_1" "BC01" = none := by
  decide


theorem validate_text_error (s : SampleSheet) (row : List String) (key : String)
    (e : LoadFailure) (h : s.validate_text row key = .error e) :
    e ≠ .incorrect_number_of_entries := by
  unfold SampleSheet.validate_text at h
  intro he
  subst he
  split at h
  · cases h
  · split at h
    · cases h
    · split at h <;> cases h

theorem validate_alias_error (env : Env) (s : SampleSheet) (row : List String) (key : String)
    (e : LoadFailure) (h : s.validate_alias env row key = .error e) :
    e ≠ .incorrect_number_of_entries := by
  unfold SampleSheet.validate_alias at h
  intro he
  subst he
  split at h
  · cases h
  · split at h
    · cases h
    · split at h <;> cases h

theorem load_row_width_error (env : Env) (s : SampleSheet) (expected : String)
    (line : List Char) (col : Nat) (hcol : s.m_col_indices.lookup "experiment_id" = some col)
    (h : (s.load_row env expected line).1 = .error .incorrect_number_of_entries) :
    (row_of_line env line).length ≠ s.m_col_indices.length := by
  unfold SampleSheet.load_row at h
  rw [index_column_of_lookup _ _ _ hcol] at h
  simp only at h
  have hs : ({ s with m_col_indices := s.m_col_indices } : SampleSheet) = s := rfl
  rw [hs] at h
  unfold row_of_line
  generalize csv_to_tokens env (String.mk line) = row at *
  by_cases hlen : row.length ≠ s.m_col_indices.length
  · exact hlen
  · exfalso
    rw [if_neg hlen] at h
    cases hr : row[col]? with
    | none => rw [hr] at h; cases h
    | some v =>
      rw [hr] at h
      simp only at h
      by_cases hexp : (if expected.isEmpty = true then v else expected) ≠ v
      · rw [if_pos hexp] at h; cases h
      · rw [if_neg hexp] at h
        cases h1 : s.validate_text row "experiment_id" with
        | error e =>
          rw [h1] at h
          exact validate_text_error s row _ e h1 (by cases h; rfl)
        | ok u1 =>
          rw [h1] at h
          simp only at h
          cases h2 : s.validate_text row "sample_id" with
          | error e =>
            rw [h2] at h
            exact validate_text_error s row _ e h2 (by cases h; rfl)
          | ok u2 =>
            rw [h2] at h
            simp only at h
            cases h3 : s.validate_text row "alias" with
            | error e =>
              rw [h3] at h
              exact validate_text_error s row _ e h3 (by cases h; rfl)
            | ok u3 =>
              rw [h3] at h
              simp only at h
              cases h4 : s.validate_alias env row "alias" with
              | error e =>
                rw [h4] at h
                exact validate_alias_error env s row _ e h4 (by cases h; rfl)
              | ok u4 =>
                rw [h4] at h
                cases h

theorem process_rows_width_error (env : Env) (lines : List (List Char)) :
    ∀ (s : SampleSheet) (expected : String) (col : Nat),
      s.m_col_indices.lookup "experiment_id" = some col →
      (SampleSheet.process_rows env lines s expected).1 = .error .incorrect_number_of_entries →
      ∃ l ∈ lines, (row_of_line env l).length ≠ s.m_col_indices.length := by
  induction lines with
  | nil =>
    intro s expected col _ h
    cases h
  | cons line rest ih =>
    intro s expected col hcol h
    rcases load_row_spec env s expected line col hcol with ⟨e, he⟩ | ⟨v, -, -, -, hv⟩
    · have h1 : (s.load_row env expected line).1 = .error .incorrect_number_of_entries := by
        unfold SampleSheet.process_rows at h
        rw [he] at h
        rw [he]
        simpa using h
      exact ⟨line, List.mem_cons_self _ _, load_row_width_error env s expected line col hcol h1⟩
    · unfold SampleSheet.process_rows at h
      rw [hv] at h
      simp only at h
      obtain ⟨l, hl, hw⟩ := ih
        { s with m_rows := s.m_rows ++ [csv_to_tokens env (String.mk line)] } v col hcol h
      exact ⟨l, List.mem_cons_of_mem _ hl, hw⟩


theorem column_is_constant_error (col : Nat) (first : String) (e : LoadFailure) :
    ∀ rows : List (List String), SampleSheet.column_is_constant col first rows = .error e →
      e = .read_past_end := by
  intro rows
  induction rows with
  | nil => intro h; cases h
  | cons r rest ih =>
    intro h
    unfold SampleSheet.column_is_constant at h
    split at h
    · cases h; rfl
    · split at h
      · cases h
      · exact ih h

theorem collect_column_error (col : Nat) (e : LoadFailure) :
    ∀ (rows : List (List String)) (acc : Finset String),
      SampleSheet.collect_column col rows acc = .error e → e = .read_past_end := by
  intro rows
  induction rows with
  | nil => intro acc h; cases h
  | cons r rest ih =>
    intro acc h
    unfold SampleSheet.collect_column at h
    split at h
    · cases h; rfl
    · exact ih _ h

theorem index_column_is_constant_error (s : SampleSheet) (key : String) (e : LoadFailure)
    (h : s.index_column_is_constant key = .error e) :
    e = .out_of_range ∨ e = .read_past_end := by
  unfold SampleSheet.index_column_is_constant at h
  split at h
  · cases h; left; rfl
  · split at h
    · cases h; left; rfl
    · split at h
      · cases h; right; rfl
      · right; exact column_is_constant_error _ _ _ _ h

theorem is_barcode_mapping_unique_error (s : SampleSheet) (e : LoadFailure)
    (h : s.is_barcode_mapping_unique = .error e) :
    e = .out_of_range ∨ e = .read_past_end := by
  unfold SampleSheet.is_barcode_mapping_unique at h
  split at h
  · rename_i e1 h1
    cases h
    split at h1
    · exact index_column_is_constant_error _ _ _ h1
    · cases h1
  · cases h
  · split at h
    · rename_i e2 h2
      cases h
      split at h2
      · exact index_column_is_constant_error _ _ _ h2
      · cases h2
    · cases h
    · split at h
      · cases h; left; rfl
      · split at h
        · rename_i e3 h3
          cases h
          right
          exact collect_column_error _ _ _ _ h3
        · cases h

theorem finish_load_error (s : SampleSheet) (e : LoadFailure) (h : s.finish_load.1 = .error e) :
    e = .mapping_not_unique ∨ e = .out_of_range ∨ e = .read_past_end := by
  unfold SampleSheet.finish_load at h
  split at h
  · split at h
    · rename_i e1 h1
      cases h
      right
      exact is_barcode_mapping_unique_error s _ h1
    · cases h; left; rfl
    · cases h
  · cases h

theorem validate_headers_error (s : SampleSheet) (col_names : List String) :
    (s.validate_headers col_names).1 ≠ .error .incorrect_number_of_entries := by
  unfold SampleSheet.validate_headers
  simp only
  repeat' split
  all_goals simp


theorem load_width_error (env : Env) (s : SampleSheet) (fs : IStream)
    (h : (s.load env fs).1 = .error .incorrect_number_of_entries) :
    ∃ row ∈ data_rows env fs,
      row.length ≠ (assign_columns s.m_col_indices (header_columns env fs) 0).length := by
  cases hf : fs.fail with
  | true => simp [SampleSheet.load, hf] at h
  | false =>
    rw [load_eq_load_lines env s fs hf] at h
    cases hl : all_lines fs with
    | nil =>
      rw [hl] at h
      simp [SampleSheet.load_lines] at h
    | cons header records =>
      rw [hl] at h
      have hcols : header_columns env fs = row_of_line env header := by simp [header_columns, hl]
      have hdata : data_rows env fs = records.map (row_of_line env) := by simp [data_rows, hl]
      rw [hcols, hdata]
      by_cases hacc : header_acceptable (row_of_line env header)
      · have hv := (validate_headers_result s (row_of_line env header)).2 hacc
        have hexp : "experiment_id" ∈ row_of_line env header := hacc.2.2.1
        obtain ⟨col, hcol, -, -⟩ :=
          (lookup_assign_columns (row_of_line env header) s.m_col_indices 0 "experiment_id").1 hexp
        have hE := process_rows_width_error env records
          { s with
            m_type := if "barcode" ∈ row_of_line env header then .barcode else .none
            m_index := { FLOW_CELL_ID := decide ("flow_cell_id" ∈ row_of_line env header)
                         POSITION_ID := decide ("position_id" ∈ row_of_line env header) }
            m_col_indices := assign_columns s.m_col_indices (row_of_line env header) 0 }
          "" col hcol
        rw [load_lines_cons, hv] at h
        simp only at h
        revert h hE
        cases hp : SampleSheet.process_rows env records _ "" with
        | mk r s3 =>
          intro h hE
          cases r with
          | error e =>
            obtain ⟨l, hl, hw⟩ := hE h
            exact ⟨row_of_line env l, List.mem_map_of_mem _ hl, hw⟩
          | ok u =>
            exfalso
            simp only at h
            rcases finish_load_error s3 _ h with h1 | h1 | h1 <;> cases h1
      · exfalso
        rw [(load_lines_rejected env s header records hacc).1] at h
        exact validate_headers_error s _ h

/-- The width check of a load from a file whose header names are pairwise different, into
a default-constructed sheet: when `load` fails with the failure of the width check, some
data row has a number of entries that differs from the number of column names of the
header line; and when some data row has such a number of entries, `load` fails. -/
theorem load_width_check_distinct_header (env : Env) (skip : Bool) (fs : IStream)
    (hnodup : (header_columns env fs).Nodup) :
    (((SampleSheet.fresh skip).load env fs).1 = .error .incorrect_number_of_entries →
      ∃ row ∈ data_rows env fs, row.length ≠ (header_columns env fs).length) ∧
    ((∃ row ∈ data_rows env fs, row.length ≠ (header_columns env fs).length) →
      ∃ e, ((SampleSheet.fresh skip).load env fs).1 = .error e) := by
  have hlen : (assign_columns [] (header_columns env fs) 0).length =
      (header_columns env fs).length := by
    rw [length_assign_columns _ [] 0 hnodup (fun _ _ => rfl)]
    simp
  constructor
  · intro h
    obtain ⟨row, hrow, hw⟩ := load_width_error env (.fresh skip) fs h
    refine ⟨row, hrow, ?_⟩
    intro heq
    apply hw
    rw [heq]
    exact hlen.symm
  · rintro ⟨row, hrow, hw⟩
    cases hr : ((SampleSheet.fresh skip).load env fs).1 with
    | error e => exact ⟨e, rfl⟩
    | ok u =>
      exfalso
      obtain ⟨-, -, hchk, -⟩ := load_ok_spec env (.fresh skip) fs hr
      have hrw : row.length = (assign_columns [] (header_columns env fs) 0).length :=
        (hchk row hrow).1
      exact hw (hrw.trans hlen)

/-- Witness for the width check: a record of two entries under the header of the barcode
values test makes `load` fail. -/
theorem load_width_check_distinct_header_witness :
    ∃ e, ((SampleSheet.fresh false).load example_env
      (IStream.of "flow_cell_id,kit,experiment_id,barcode,alias\nid,kit\n".toList)).1 =
        .error e :=
  (load_width_check_distinct_header example_env false
    (IStream.of "flow_cell_id,kit,experiment_id,barcode,alias\nid,kit\n".toList)
    (by decide)).2 ⟨["id", "kit"], by decide, by decide⟩


/-- What the queries rely on is established by a successful load from a file whose header
names are pairwise different: the index flags say which of the two index columns the sheet
has, and every stored row has an entry in each column that `get_alias` reads. -/
theorem load_establishes_Loaded (env : Env) (skip : Bool) (fs : IStream)
    (hok : ((SampleSheet.fresh skip).load env fs).1 = .ok ())
    (hnodup : (header_columns env fs).Nodup) :
    ((SampleSheet.fresh skip).load env fs).2.Loaded := by
  obtain ⟨-, hread⟩ := load_row_width_distinct_header env skip fs hok hnodup
  obtain ⟨-, hstate, -, -⟩ := load_ok_spec env (.fresh skip) fs hok
  generalize hs : ((SampleSheet.fresh skip).load env fs).2 = s at *
  have hm : s.m_col_indices = assign_columns [] (header_columns env fs) 0 := by rw [hstate]; rfl
  have hcol : ∀ key, s.has_column key = decide (key ∈ header_columns env fs) := by
    intro key
    unfold SampleSheet.has_column
    rw [hm]
    by_cases hk : key ∈ header_columns env fs
    · obtain ⟨c, hc, -, -⟩ := (lookup_assign_columns (header_columns env fs) [] 0 key).1 hk
      simp [hc, hk]
    · rw [(lookup_assign_columns (header_columns env fs) [] 0 key).2 hk]
      simp [hk]
  refine ⟨?_, ?_, ?_⟩
  · rw [hcol, hstate]
  · rw [hcol, hstate]
  · intro row hrow key _
    cases hl : s.m_col_indices.lookup key with
    | none => simp [SampleSheet.get, hl]
    | some col =>
      obtain ⟨-, v, hv⟩ := hread key col hl row hrow
      rw [hv]
      rfl

/-- Witness for the conditions of the queries on the sheet of the barcode values test. -/
theorem load_establishes_Loaded_witness :
    ((SampleSheet.fresh false).load example_env (IStream.of barcode_values_text)).2.Loaded :=
  load_establishes_Loaded example_env false (IStream.of barcode_values_text)
    (by decide) (by decide)


/-! ## The alias query after a load -/

/-- The alias query after a successful load, without `skip_index_matching`, from a file
whose header names are pairwise different and include `barcode`: a query that passes the
index check gets the alias field of the first row, in file order, that answers it, and the
empty string when no row does. -/
theorem get_alias_distinct_header (env : Env) (fs : IStream)
    (flow_cell_id position_id experiment_id barcode : String)
    (hok : ((SampleSheet.fresh false).load env fs).1 = .ok ())
    (hnodup : (header_columns env fs).Nodup)
    (hbarcode : "barcode" ∈ header_columns env fs)
    (hcheck : ((SampleSheet.fresh false).load env fs).2.check_index flow_cell_id position_id =
      true) :
    ((SampleSheet.fresh false).load env fs).2.get_alias flow_cell_id position_id experiment_id
        barcode =
      some (((SampleSheet.fresh false).load env fs).2.alias_of_first_answer flow_cell_id
        position_id experiment_id barcode) ∧
    ((∀ row ∈ ((SampleSheet.fresh false).load env fs).2.m_rows,
        ((SampleSheet.fresh false).load env fs).2.answers flow_cell_id position_id
          experiment_id barcode row = false) →
      ((SampleSheet.fresh false).load env fs).2.get_alias flow_cell_id position_id
        experiment_id barcode = some "") := by
  have hloaded := load_establishes_Loaded env false fs hok hnodup
  obtain ⟨-, hstate, -, -⟩ := load_ok_spec env (.fresh false) fs hok
  have htype : ((SampleSheet.fresh false).load env fs).2.m_type = .barcode := by
    rw [hstate]
    simp [hbarcode]
  have hskip : ((SampleSheet.fresh false).load env fs).2.m_skip_index_matching = false := by
    rw [hstate]
    rfl
  exact get_alias_first_matching_row _ flow_cell_id position_id experiment_id barcode htype
    hskip hloaded hcheck

/-- Witness for the alias query after a load: the sheet of the barcode values test. -/
theorem get_alias_distinct_header_witness :
    ((SampleSheet.fresh false).load example_env (IStream.of barcode_values_text)).2.get_alias
      "id" "" "expr" "BC01" = some "patient_1" :=
  (get_alias_distinct_header example_env (IStream.of barcode_values_text) "id" "" "expr" "BC01"
    (by decide) (by decide) (by decide) (by decide)).1.trans (by decide)

/-- C10, the code at the failing input: the header `flow_cell_id,kit,kit,experiment_id,
alias,barcode` followed by the record `FA026858,SQK-RBK004,SQK-RBK004,run1,patient_1`,
loaded without `skip_index_matching`. The load succeeds with type barcode and stores the
row of five entries; the column map gives `barcode` the index 5; the query with
flow_cell_id `FA026858`, no position_id, experiment_id `run1` and barcode `BC01` passes the
index check, the row has the flow_cell_id and the experiment_id of the query, and
`get_alias` then reads the barcode of the row past its end instead of returning an alias or
the empty string. -/
theorem get_alias_repeated_header :
    ((SampleSheet.fresh false).load example_env
      (IStream.of repeated_header_short_row_text)).1 = .ok () ∧
    ((SampleSheet.fresh false).load example_env
      (IStream.of repeated_header_short_row_text)).2.get_type = .barcode ∧
    ((SampleSheet.fresh false).load example_env
      (IStream.of repeated_header_short_row_text)).2.m_skip_index_matching = false ∧
    ((SampleSheet.fresh false).load example_env
      (IStream.of repeated_header_short_row_text)).2.m_rows =
        [["FA026858", "SQK-RBK004", "SQK-RBK004", "run1", "patient_1"]] ∧
    ((SampleSheet.fresh false).load example_env
      (IStream.of repeated_header_short_row_text)).2.m_col_indices.lookup "barcode" = some 5 ∧
    ((SampleSheet.fresh false).load example_env
      (IStream.of repeated_header_short_row_text)).2.check_index "FA026858" "" = true ∧
    ((SampleSheet.fresh false).load example_env
      (IStream.of repeated_header_short_row_text)).2.match_index
        ["FA026858", "SQK-RBK004", "SQK-RBK004", "run1", "patient_1"] "FA026858" "" "run1" =
          some true ∧
    ((SampleSheet.fresh false).load example_env
      (IStream.of repeated_header_short_row_text)).2.get
        ["FA026858", "SQK-RBK004", "SQK-RBK004", "run1", "patient_1"] "barcode" = none ∧
    ((SampleSheet.fresh false).load example_env
      (IStream.of repeated_header_short_row_text)).2.get_alias "FA026858" "" "run1" "BC01" =
        none := by
  decide

end Dorado
